import Mathlib

/-!
# `tkn triggerbinding list`

A shallow embedding of `pkg/cmd/triggerbinding/list.go` and theorems about it.

Conventions of the embedding.

* Go strings are Lean `String`s, that is valid UTF-8 text (what the API
  machinery decodes from the server).
* A Go `error` is represented by its message; `nil` is `none`.
* An `io.Writer` is a `Sink`: the bytes it accepted so far together with a
  schedule saying which of the coming `Write` calls fail.
* The two writers of a `cli.Stream` are two independent `Sink`s.
* Collaborators that live outside the file (`formatted.Age`,
  `printer.PrintObject`, the clientset) are parameters.
* The tab-stop writer of the Go standard library is modelled in the section
  on it; a run-time panic inside it is an explicit result, `Fail.crash`.
-/

namespace Triggerbinding

/-! ## Writers -/

/-- The way one `Write` call fails: how much of the buffer was accepted before
the failure, and the error returned. -/
structure Fault where
  accepted : Nat
  err : String
deriving DecidableEq, Repr

/-- An `io.Writer`. `data` is what was written so far, `faults` gives the
outcome of the coming `Write` calls in order (`none`: the call succeeds; calls
beyond the schedule succeed), `requests` counts the `Write` calls received and
`failed` those of them that returned an error. -/
structure Sink where
  data : String
  faults : List (Option Fault)
  requests : Nat
  failed : Nat
deriving DecidableEq, Repr

/-- The call `w.Write(text)`: the new writer and the error returned. -/
def Sink.Write (w : Sink) (text : String) : Sink × Option String :=
  match w.faults with
  | [] =>
      ({ w with data := w.data ++ text, requests := w.requests + 1 }, none)
  | none :: rest =>
      ({ w with data := w.data ++ text, faults := rest, requests := w.requests + 1 }, none)
  | some f :: rest =>
      ({ data := w.data ++ String.mk (text.data.take f.accepted), faults := rest,
         requests := w.requests + 1, failed := w.failed + 1 }, some f.err)

/-- A writer none of whose coming writes fails. -/
def Sink.reliable (w : Sink) : Prop := ∀ f ∈ w.faults, f = none

instance (w : Sink) : Decidable w.reliable := by
  unfold Sink.reliable; infer_instance

/-- A fresh writer that never fails. -/
def Sink.fresh : Sink := { data := "", faults := [], requests := 0, failed := 0 }

/-- The type `cli.Stream`. -/
structure Stream where
  Out : Sink
  Err : Sink
deriving DecidableEq, Repr

/-! ## Data model and the list operation -/

/-- The fields of `v1alpha1.TriggerBinding` the command reads. Timestamps are
seconds. -/
structure TriggerBinding where
  Name : String
  Namespace : String
  CreationTimestamp : Int
deriving DecidableEq, Repr

/-- The type `v1alpha1.TriggerBindingList`: the `TypeMeta` fields and the items. -/
structure TriggerBindingList where
  Kind : String
  APIVersion : String
  Items : List TriggerBinding
deriving DecidableEq, Repr

/-- The type `schema.GroupVersionKind`. -/
structure GroupVersionKind where
  Group : String
  Version : String
  Kind : String
deriving DecidableEq, Repr

/-- The method `GroupVersionKind.ToAPIVersionAndKind` of apimachinery. -/
def GroupVersionKind.ToAPIVersionAndKind (gvk : GroupVersionKind) : String × String :=
  if gvk.Group = "" ∧ gvk.Version = "" ∧ gvk.Kind = "" then ("", "")
  else ((if gvk.Group ≠ "" then gvk.Group ++ "/" ++ gvk.Version else gvk.Version), gvk.Kind)

/-- The method `TypeMeta.SetGroupVersionKind` of apimachinery, on a list. -/
def TriggerBindingList.SetGroupVersionKind (tbs : TriggerBindingList) (gvk : GroupVersionKind) :
    TriggerBindingList :=
  { tbs with APIVersion := gvk.ToAPIVersionAndKind.1, Kind := gvk.ToAPIVersionAndKind.2 }

/-- The triggers clientset: `respond ns` is what
`TriggersV1alpha1().TriggerBindings(ns).List(ctx, ListOptions{})` returns, and
`calls` records the namespaces of the `List` calls made so far. -/
structure Clientset where
  respond : String → Except String TriggerBindingList
  calls : List String

/-- The upstream call `client.TriggersV1alpha1().TriggerBindings(ns).List(...)`. -/
def Clientset.List (client : Clientset) (ns : String) :
    Clientset × Except String TriggerBindingList :=
  ({ client with calls := client.calls ++ [ns] }, client.respond ns)

/-- The function `list`. -/
def list (client : Clientset) (namespace_ : String) :
    Clientset × Except String TriggerBindingList :=
  match client.List namespace_ with
  | (client, .error err) => (client, .error err)
  | (client, .ok tbs) =>
      (client, .ok (tbs.SetGroupVersionKind
        { Group := "", Version := "triggers.tekton.dev/v1alpha1", Kind := "TriggerBindingList" }))

/-! ## The tab-stop writer

`printFormatted` prints through `tabwriter.NewWriter(s.Out, 0, 5, 3, ' ',
tabwriter.TabIndent)`. The package `text/tabwriter` belongs to the Go standard
library, not to this repository. The definitions of this section follow its
algorithm for the flags the command can set (`TabIndent`, all other flags off)
and for text without the escape byte `0xff`, which valid UTF-8 never contains:
text is split into cells at tabs and line breaks, a line that ends with a single
cell flushes the buffer, and a flush prints every run of lines that have a cell
in a column with that column padded to the widest of these cells plus the
padding. -/

namespace tabwriter

/-- How a call into the writer can end badly: with an error of the underlying
writer (`osError`), or with a run-time panic. -/
inductive Fail where
  | error (err : String)
  | crash
deriving DecidableEq, Repr

/-- The arguments of `NewWriter` other than the output. -/
structure Config where
  minwidth : Nat
  tabwidth : Nat
  padding : Nat
  padchar : Char
  tabIndent : Bool
deriving DecidableEq, Repr

/-- A terminated cell: its text (Go keeps the text in `b.buf` and its byte size
and rune width in the cell) and whether a tab terminated it. -/
structure cell where
  text : List Char
  htab : Bool
deriving DecidableEq, Repr

/-- The width of a cell in runes. -/
def cell.width (c : cell) : Nat := c.text.length

/-- One thing the formatter does to the underlying writer: a call
`b.write0(text)`, made while `b.widths` is `widths`, or a run-time panic. -/
inductive Chunk where
  | write (widths : List Nat) (text : List Char)
  | crash (widths : List Nat)
deriving DecidableEq, Repr

/-- The method `writeN(src, n)` for `src` eight copies of `c`: whole copies of
`src` while more than eight characters remain, then the rest (an empty write
when `n = 0`). -/
def writeN (widths : List Nat) (c : Char) (n : Nat) : List Chunk :=
  List.replicate ((n - 1) / 8) (Chunk.write widths (List.replicate 8 c)) ++
    [Chunk.write widths (List.replicate (n - 8 * ((n - 1) / 8)) c)]

/-- The method `writePadding(textw, cellw, useTabs)`. A negative amount of
padding is a run-time panic. -/
def writePadding (cfg : Config) (widths : List Nat) (textw cellw : Nat) (useTabs : Bool) :
    List Chunk :=
  if cfg.padchar = '\t' ∨ useTabs = true then
    if cfg.tabwidth = 0 then []
    else
      let cellw := (cellw + cfg.tabwidth - 1) / cfg.tabwidth * cfg.tabwidth
      if cellw < textw then [Chunk.crash widths]
      else writeN widths '\t' ((cellw - textw + cfg.tabwidth - 1) / cfg.tabwidth)
  else if cellw < textw then [Chunk.crash widths]
  else writeN widths cfg.padchar (cellw - textw)

/-- The loop over the cells of one line in `writeLines`; `j` is the index of
the first cell of `cells`. -/
def writeCells (cfg : Config) (widths : List Nat) : Nat → Bool → List cell → List Chunk
  | _, _, [] => []
  | j, useTabs, c :: cs =>
      if c.text = [] then
        (if j < widths.length then writePadding cfg widths c.width (widths.getD j 0) useTabs
         else []) ++ writeCells cfg widths (j + 1) useTabs cs
      else
        Chunk.write widths c.text ::
          ((if j < widths.length then writePadding cfg widths c.width (widths.getD j 0) false
            else []) ++ writeCells cfg widths (j + 1) false cs)

/-- The method `writeLines`. A line comes with the flag saying that it is the
last buffered line, which ends with the (empty) pending cell instead of a
newline. -/
def writeLines (cfg : Config) (widths : List Nat) : List (Bool × List cell) → List Chunk
  | [] => []
  | (last, line) :: rest =>
      writeCells cfg widths 0 cfg.tabIndent line ++
        Chunk.write widths (if last then [] else ['\n']) :: writeLines cfg widths rest

/-- Whether a line has a tab-terminated cell in `column`, that is whether
`column < len(line) - 1`. -/
def hasColumn (column : Nat) (line : Bool × List cell) : Bool :=
  decide (column + 1 < line.2.length)

/-- The width of a column block: `minwidth`, raised to the width of each of its
cells plus `padding`. -/
def blockWidth (cfg : Config) (column : Nat) (block : List (Bool × List cell)) : Nat :=
  block.foldl (fun width line => max width ((line.2.getD column ⟨[], false⟩).width + cfg.padding))
    cfg.minwidth

/-- Modelled from the spec: the column alignment of the tab-stop writer, after
the method `format` of `text/tabwriter` on the lines `line0 ≤ i < line1`. Lines
without a cell in the current column are printed, a run of lines with one is a
column block, formatted with its width pushed. The recursion is bounded by
`fuel`; running out of it counts as a panic, and `fuelFor` gives enough. -/
def format (cfg : Config) : Nat → List Nat → List (Bool × List cell) → List Chunk
  | 0, widths, _ => [Chunk.crash widths]
  | fuel + 1, widths, lines =>
      let column := widths.length
      let rest := lines.dropWhile (fun l => !hasColumn column l)
      match rest with
      | [] => writeLines cfg widths lines
      | _ :: _ =>
          let block := rest.takeWhile (hasColumn column)
          writeLines cfg widths (lines.takeWhile (fun l => !hasColumn column l)) ++
            format cfg fuel (widths ++ [blockWidth cfg column block]) block ++
            format cfg fuel widths (rest.dropWhile (hasColumn column))

/-- Marks the last line of the buffer. -/
def mark : List (List cell) → List (Bool × List cell)
  | [] => []
  | [line] => [(true, line)]
  | line :: rest => (false, line) :: mark rest

/-- Fuel that suffices for `format`: every call either enters a further column
or leaves a non-empty block behind. -/
def fuelFor (lines : List (List cell)) : Nat :=
  lines.length + (lines.map List.length).foldr max 0 + 1

/-- Performs the writes of the formatter on the underlying writer up to the
first failure, which is returned with the widths in force. -/
def emit : Sink → List Chunk → Sink × Option (List Nat × Fail)
  | w, [] => (w, none)
  | w, Chunk.crash widths :: _ => (w, some (widths, Fail.crash))
  | w, Chunk.write widths text :: rest =>
      match w.Write (String.mk text) with
      | (w, none) => emit w rest
      | (w, some err) => (w, some (widths, Fail.error err))

/-- Modelled from the spec: the tab-stop writer of section 4.3, that is the type
`tabwriter.Writer` of the Go standard library, whose source is not part of the
repository. `cell` is the pending cell, `lines` the buffered lines of
terminated cells (never empty), `widths` the stack of column widths of the
formatter, and `input` records the arguments of the `Write` calls received. -/
structure Writer where
  output : Sink
  cfg : Config
  cell : List Char
  lines : List (List tabwriter.cell)
  widths : List Nat
  input : List String
deriving DecidableEq, Repr

/-- The method `reset`. -/
def Writer.reset (b : Writer) : Writer :=
  { b with cell := [], lines := [[]], widths := [] }

/-- The function `NewWriter`. -/
def NewWriter (output : Sink) (minwidth tabwidth padding : Nat) (padchar : Char)
    (tabIndent : Bool) : Writer :=
  { output := output, cfg := ⟨minwidth, tabwidth, padding, padchar, tabIndent⟩,
    cell := [], lines := [[]], widths := [], input := [] }

/-- The method `terminateCell`: the pending cell is added to the last line;
returns the number of cells of that line. -/
def Writer.terminateCell (b : Writer) (htab : Bool) : Writer × Nat :=
  let line := b.lines.getLastD [] ++ [⟨b.cell, htab⟩]
  ({ b with cell := [], lines := b.lines.dropLast ++ [line] }, line.length)

/-- The method `addLine`. -/
def Writer.addLine (b : Writer) : Writer :=
  { b with lines := b.lines ++ [[]] }

/-- The method `flushNoDefers`. When a write fails the buffer is left as it is,
with the widths pushed so far. -/
def Writer.flushNoDefers (b : Writer) : Writer × Option Fail :=
  let b := if b.cell ≠ [] then (b.terminateCell false).1 else b
  match emit b.output (format b.cfg (fuelFor b.lines) b.widths (mark b.lines)) with
  | (out, none) => ({ b with output := out }.reset, none)
  | (out, some (widths, fail)) => ({ b with output := out, widths := widths }, some fail)

/-- The method `Flush`: the buffer is reset also when the flush fails. -/
def Writer.Flush (b : Writer) : Writer × Option Fail :=
  match b.flushNoDefers with
  | (b, none) => (b, none)
  | (b, some fail) => (b.reset, some fail)

/-- What `Write` does with one character outside an escape. -/
def Writer.step (b : Writer) (ch : Char) : Writer × Option Fail :=
  if ch = '\t' ∨ ch = '\x0b' ∨ ch = '\n' ∨ ch = '\x0c' then
    let (b, ncells) := b.terminateCell (ch == '\t')
    if ch = '\n' ∨ ch = '\x0c' then
      let b := b.addLine
      if ch = '\x0c' ∨ ncells = 1 then b.flushNoDefers else (b, none)
    else (b, none)
  else ({ b with cell := b.cell ++ [ch] }, none)

/-- The loop of `Write` over the characters of the buffer; a failure ends it. -/
def Writer.writeChars : Writer → List Char → Writer × Option Fail
  | b, [] => (b, none)
  | b, ch :: rest =>
      match b.step ch with
      | (b, none) => Writer.writeChars b rest
      | (b, some fail) => (b, some fail)

/-- The method `Write`. -/
def Writer.Write (b : Writer) (text : String) : Writer × Option Fail :=
  Writer.writeChars { b with input := b.input ++ [text] } text.data

end tabwriter

/-! ## The command -/

/-- The constant `emptyMsg`. -/
def emptyMsg : String := "No TriggerBindings found"

/-- The type `listOptions`. -/
structure listOptions where
  AllNamespaces : Bool
deriving DecidableEq, Repr

/-- What the command reads from `cli.Params`: the result of `p.Clients()`
(the triggers clientset or an error), `p.Namespace()` and the present time of
the clock `p.Time()`, in seconds. -/
structure Params where
  Clients : Except String Clientset
  Namespace : String
  Time : Int

/-- The collaborators of the package: `formatted.Age` (creation timestamp and
present time to text) and `printer.PrintObject` on the print flags of the
command (the new state of the writer and the error returned). -/
structure Extern where
  Age : Int → Int → String
  PrintObject : Sink → TriggerBindingList → Sink × Option String

/-- What `RunE` reads from the `cobra.Command`: the writers
`cmd.OutOrStdout()` and `cmd.OutOrStderr()` and the result of
`cmd.LocalFlags().GetString("output")`. -/
structure Command where
  OutOrStdout : Sink
  OutOrStderr : Sink
  output : Except String String

/-- The state in which `RunE` ends: the value returned (`none` is `nil`,
`some (.error msg)` an error with that message, `some .crash` a run-time panic
that leaves `RunE` without a value), the two writers, and the clientset if one
was resolved. -/
structure Outcome where
  err : Option tabwriter.Fail
  Out : Sink
  Err : Sink
  Triggers : Option Clientset

/-- The header of the table (lines 141 to 144). -/
def headers (allNamespaces : Bool) : String :=
  if allNamespaces then "NAMESPACE\t" ++ "NAME\tAGE" else "NAME\tAGE"

/-- The text one iteration of the loop of `printFormatted` formats: the
`Fprintf` with `"%s\t%s\t%s\n"` or with `"%s\t%s\n"`. -/
def rowText (ext : Extern) (p : Params) (allNamespaces : Bool) (tb : TriggerBinding) : String :=
  if allNamespaces then
    tb.Namespace ++ "\t" ++ tb.Name ++ "\t" ++ ext.Age tb.CreationTimestamp p.Time ++ "\n"
  else
    tb.Name ++ "\t" ++ ext.Age tb.CreationTimestamp p.Time ++ "\n"

/-- The loop of `printFormatted` (lines 148 to 161). The error an `Fprintf`
returns is dropped; a panic of the writer ends the loop. -/
def printRows (ext : Extern) (p : Params) (allNamespaces : Bool) :
    tabwriter.Writer → List TriggerBinding → tabwriter.Writer × Option tabwriter.Fail
  | w, [] => (w, none)
  | w, tb :: rest =>
      match w.Write (rowText ext p allNamespaces tb) with
      | (w, some tabwriter.Fail.crash) => (w, some tabwriter.Fail.crash)
      | (w, _) => printRows ext p allNamespaces w rest

/-- Lines 141 to 161 of `printFormatted`: the tab-stop writer after the header
and the rows were printed to it, before the flush. -/
def printTable (ext : Extern) (out : Sink) (items : List TriggerBinding) (p : Params)
    (allNamespaces : Bool) : tabwriter.Writer × Option tabwriter.Fail :=
  match (tabwriter.NewWriter out 0 5 3 ' ' true).Write (headers allNamespaces ++ "\n") with
  | (w, some tabwriter.Fail.crash) => (w, some tabwriter.Fail.crash)
  | (w, _) => printRows ext p allNamespaces w items

/-- The function `printFormatted`. -/
def printFormatted (ext : Extern) (s : Stream) (tbs : TriggerBindingList) (p : Params)
    (allNamespaces : Bool) : Stream × Option tabwriter.Fail :=
  if tbs.Items.length = 0 then
    ({ s with Err := (s.Err.Write (emptyMsg ++ "\n")).1 }, none)
  else
    match printTable ext s.Out tbs.Items p allNamespaces with
    | (w, some fail) => ({ s with Out := w.output }, some fail)
    | (w, none) => ({ s with Out := w.Flush.1.output }, w.Flush.2)

/-- The loop of the name-only branch of `RunE` (lines 94 to 99). -/
def printNames : Sink → List TriggerBinding → Sink × Option String
  | w, [] => (w, none)
  | w, pr :: rest =>
      match w.Write ("triggerbinding.triggers.tekton.dev/" ++ pr.Name ++ "\n") with
      | (w, some err) => (w, some err)
      | (w, none) => printNames w rest

/-- The function `RunE` of the command `listCommand` builds. The list pointer
`tbs` is never `nil` after a successful `list`. -/
def listCommand (ext : Extern) (p : Params) (opts : listOptions) (cmd : Command) : Outcome :=
  match p.Clients with
  | .error err =>
      ⟨some (.error err), cmd.OutOrStdout, cmd.OutOrStderr, none⟩
  | .ok cs =>
      let namespace_ := if opts.AllNamespaces then "" else p.Namespace
      match list cs namespace_ with
      | (cs, .error err) =>
          if opts.AllNamespaces then
            ⟨some (.error ("failed to list TriggerBindings from all namespaces: " ++ err)),
              cmd.OutOrStdout, cmd.OutOrStderr, some cs⟩
          else
            ⟨some (.error ("failed to list TriggerBindings from " ++ namespace_ ++
              " namespace: " ++ err)), cmd.OutOrStdout, cmd.OutOrStderr, some cs⟩
      | (cs, .ok tbs) =>
          match cmd.output with
          | .error _ =>
              ⟨some (.error "output option not set properly"),
                cmd.OutOrStdout, cmd.OutOrStderr, some cs⟩
          | .ok output =>
              let stream : Stream := { Out := cmd.OutOrStdout, Err := cmd.OutOrStderr }
              if output = "name" then
                let r := printNames cmd.OutOrStdout tbs.Items
                ⟨r.2.map tabwriter.Fail.error, r.1, cmd.OutOrStderr, some cs⟩
              else if output ≠ "" then
                let r := ext.PrintObject stream.Out tbs
                ⟨r.2.map tabwriter.Fail.error, r.1, stream.Err, some cs⟩
              else
                match printFormatted ext stream tbs p opts.AllNamespaces with
                | (s, none) => ⟨none, s.Out, s.Err, some cs⟩
                | (s, some tabwriter.Fail.crash) => ⟨some .crash, s.Out, s.Err, some cs⟩
                | (s, some (tabwriter.Fail.error _)) =>
                    ⟨some (.error "failed to print TriggerBindings"), s.Out, s.Err, some cs⟩

/-- The namespaces of the `List` calls on record when `RunE` ends; none when no
clientset was resolved. -/
def Outcome.listCalls (o : Outcome) : List String :=
  match o.Triggers with
  | some cs => cs.calls
  | none => []

/-! ## Vocabulary of the statements and worked examples -/

/-- The lines of the name-only output. -/
def nameLines (items : List TriggerBinding) : List String :=
  items.map fun pr => "triggerbinding.triggers.tekton.dev/" ++ pr.Name ++ "\n"

/-- The two items of the worked example: created two hours and ten minutes
before the present time `10000`. -/
def exampleItems : List TriggerBinding :=
  [⟨"binding-a", "bar", 2800⟩, ⟨"binding-b", "bar", 9400⟩]

/-- Collaborators for the worked example: ages of 7200 and 600 seconds render
as `2h` and `10m`; the structured printer prints nothing. -/
def exampleExtern : Extern :=
  { Age := fun created now => if now - created = 7200 then "2h" else "10m"
    PrintObject := fun w _ => (w, none) }

/-- A clientset that answers every `List` call with the given items, without
kind and version. -/
def exampleClientset (items : List TriggerBinding) : Clientset :=
  { respond := fun _ => .ok ⟨"", "", items⟩, calls := [] }

/-- Parameters with namespace `bar` and present time `10000`. -/
def exampleParams (items : List TriggerBinding) : Params :=
  { Clients := .ok (exampleClientset items), Namespace := "bar", Time := 10000 }

/-- A command with fresh writers and the given value of the output flag. -/
def exampleCommand (output : String) : Command :=
  { OutOrStdout := Sink.fresh, OutOrStderr := Sink.fresh, output := .ok output }

namespace tabwriter

/-- The characters that end a cell: tab, vertical tab, newline, form feed. -/
def special (ch : Char) : Prop := ch = '\t' ∨ ch = '\x0b' ∨ ch = '\n' ∨ ch = '\x0c'

instance (ch : Char) : Decidable (special ch) := by
  unfold special; infer_instance

/-- Text that stays within one cell. -/
def plain (text : String) : Prop := ∀ ch ∈ text.data, ¬ special ch

instance (text : String) : Decidable (plain text) := by
  unfold plain; infer_instance

end tabwriter

/-- The header as the tab-stop writer buffers it. -/
def headerCells (allNamespaces : Bool) : List tabwriter.cell :=
  if allNamespaces then
    [⟨"NAMESPACE".data, true⟩, ⟨"NAME".data, true⟩, ⟨"AGE".data, false⟩]
  else [⟨"NAME".data, true⟩, ⟨"AGE".data, false⟩]

/-- The row of an item as the tab-stop writer buffers it when its fields hold
no tab and no line break. -/
def rowCells (ext : Extern) (p : Params) (allNamespaces : Bool) (tb : TriggerBinding) :
    List tabwriter.cell :=
  if allNamespaces then
    [⟨tb.Namespace.data, true⟩, ⟨tb.Name.data, true⟩,
      ⟨(ext.Age tb.CreationTimestamp p.Time).data, false⟩]
  else [⟨tb.Name.data, true⟩, ⟨(ext.Age tb.CreationTimestamp p.Time).data, false⟩]

/-- The items whose printed fields (name, age, and namespace when it is shown)
hold no tab, vertical tab, newline or form feed. -/
def regular (ext : Extern) (p : Params) (allNamespaces : Bool) (items : List TriggerBinding) :
    Prop :=
  ∀ tb ∈ items, tabwriter.plain tb.Name ∧ tabwriter.plain (ext.Age tb.CreationTimestamp p.Time) ∧
    (allNamespaces = true → tabwriter.plain tb.Namespace)

instance (ext : Extern) (p : Params) (allNamespaces : Bool) (items : List TriggerBinding) :
    Decidable (regular ext p allNamespaces items) := by
  unfold regular; infer_instance

namespace tabwriter

/-- The widths of the columns `start`, ..., `start + m - 1` of a block. -/
def colWidths (cfg : Config) (block : List (Bool × List cell)) : Nat → Nat → List Nat
  | _, 0 => []
  | start, m + 1 => blockWidth cfg start block :: colWidths cfg block (start + 1) m

/-- The largest number of cells of a line. -/
def maxCells (ls : List (Bool × List cell)) : Nat := (ls.map fun l => l.2.length).foldr max 0

/-- The characters the formatter asks to write, in order. -/
def chunkText : List Chunk → List Char
  | [] => []
  | Chunk.write _ text :: rest => text ++ chunkText rest
  | Chunk.crash _ :: rest => chunkText rest

/-- No run-time panic among the steps of the formatter. -/
def noCrash (chunks : List Chunk) : Prop := ∀ c ∈ chunks, ∀ widths, c ≠ Chunk.crash widths

end tabwriter

/-- The writes the final `Flush` asks for when header and rows are buffered as
lines of equally many cells. -/
def tableChunks (ext : Extern) (p : Params) (allNamespaces : Bool) (items : List TriggerBinding) :
    List tabwriter.Chunk :=
  tabwriter.writeLines ⟨0, 5, 3, ' ', true⟩
    (tabwriter.colWidths ⟨0, 5, 3, ' ', true⟩
      ((headerCells allNamespaces :: items.map (rowCells ext p allNamespaces)).map
        fun l => (false, l)) 0 (if allNamespaces then 2 else 1))
    ((headerCells allNamespaces :: items.map (rowCells ext p allNamespaces)).map
      fun l => (false, l)) ++ [tabwriter.Chunk.write [] []]

/-- The cells of the header. -/
def headerStrings (allNamespaces : Bool) : List String :=
  if allNamespaces then ["NAMESPACE", "NAME", "AGE"] else ["NAME", "AGE"]

/-- The cells of the row of an item. -/
def rowStrings (ext : Extern) (p : Params) (allNamespaces : Bool) (tb : TriggerBinding) :
    List String :=
  if allNamespaces then [tb.Namespace, tb.Name, ext.Age tb.CreationTimestamp p.Time]
  else [tb.Name, ext.Age tb.CreationTimestamp p.Time]

/-- The width of column `j` of a table in the words of C10: the length of the
longest cell of the column, header included, plus 3. -/
def columnWidth (table : List (List String)) (j : Nat) : Nat :=
  (table.map fun line => (line.getD j "").length).foldl max 0 + 3

/-- A cell padded on the right with spaces to a width. -/
def padRight (text : String) (width : Nat) : String :=
  text ++ String.mk (List.replicate (width - text.length) ' ')

/-- A line of the aligned table: every cell but the last padded to the width of
its column, the last cell followed by a newline. -/
def alignedCells (table : List (List String)) : Nat → List String → String
  | _, [] => "\n"
  | _, [last] => last ++ "\n"
  | j, c :: cs => padRight c (columnWidth table j) ++ alignedCells table (j + 1) cs

/-- The aligned table. -/
def aligned (table : List (List String)) : String :=
  String.join (table.map (alignedCells table 0))

/-- The text of a line whose cells are padded with spaces: each cell that has a
width is filled up to it. -/
def paddedCells (widths : List Nat) : Nat → List tabwriter.cell → List Char
  | _, [] => []
  | j, c :: cs =>
      c.text ++ (if j < widths.length then List.replicate (widths.getD j 0 - c.width) ' ' else []) ++
        paddedCells widths (j + 1) cs

/-- A command in name-only mode whose output stream accepts the first write and
fails on the second after three characters. -/
def failingCommand : Command :=
  { OutOrStdout := { Sink.fresh with faults := [none, some ⟨3, "broken pipe"⟩] },
    OutOrStderr := Sink.fresh, output := .ok "name" }

/-- The same output stream with tabular output. -/
def failingTable : Command :=
  { OutOrStdout := { Sink.fresh with faults := [none, some ⟨3, "broken pipe"⟩] },
    OutOrStderr := Sink.fresh, output := .ok "" }

namespace tabwriter

/-- The number of cells of the last buffered line. -/
def Writer.pending (b : Writer) : Nat := (b.lines.getLastD []).length

/-- Follows a text through `Write` as far as flushing goes. The flag says
whether the line being read already has a cell. The result is `none` when the
text makes the writer flush (a form feed, or a newline that ends a line of a
single cell), and otherwise the flag at the end of the text. -/
def scanSeen : Bool → List Char → Option Bool
  | seen, [] => some seen
  | seen, ch :: rest =>
      if ch = '\x0c' then none
      else if ch = '\n' then (if seen then scanSeen false rest else none)
      else if ch = '\t' ∨ ch = '\x0b' then scanSeen true rest
      else scanSeen seen rest

end tabwriter

/-- The items none of whose rows makes the tab-stop writer flush before the
final `Flush`: no row holds a form feed, and every line of every row holds a
tab or a vertical tab before its newline. -/
def steady (ext : Extern) (p : Params) (allNamespaces : Bool) (items : List TriggerBinding) :
    Prop :=
  ∀ tb ∈ items, tabwriter.scanSeen false (rowText ext p allNamespaces tb).data = some false

instance (ext : Extern) (p : Params) (allNamespaces : Bool) (items : List TriggerBinding) :
    Decidable (steady ext p allNamespaces items) := by
  unfold steady; infer_instance

/-- The items whose rows have a line break inside: a name with a newline, which
leaves a line of a single cell when the namespace is not shown. -/
def brokenItems : List TriggerBinding := [⟨"x\ny", "bar", 2800⟩]

/-- A command with tabular output whose output stream fails on its first
write and accepts the later ones. -/
def flakyTable : Command :=
  { OutOrStdout := { Sink.fresh with faults := [some ⟨0, "broken pipe"⟩] },
    OutOrStderr := Sink.fresh, output := .ok "" }

/-- The cells of a text that are separated by tabs. -/
def tabCells : List Char → List (List Char)
  | [] => [[]]
  | ch :: rest =>
      if ch = '\t' then [] :: tabCells rest
      else
        match tabCells rest with
        | [] => [[ch]]
        | c :: cs => (ch :: c) :: cs

/-- The tab-separated cells of a line. -/
def tabSeparated (line : String) : List String := (tabCells line.data).map String.mk

/-- The items whose printed fields (name, age, and namespace when it is shown)
hold no tab. -/
def tabless (ext : Extern) (p : Params) (allNamespaces : Bool) (items : List TriggerBinding) :
    Prop :=
  ∀ tb ∈ items, '\t' ∉ tb.Name.data ∧ '\t' ∉ (ext.Age tb.CreationTimestamp p.Time).data ∧
    (allNamespaces = true → '\t' ∉ tb.Namespace.data)

instance (ext : Extern) (p : Params) (allNamespaces : Bool) (items : List TriggerBinding) :
    Decidable (tabless ext p allNamespaces items) := by
  unfold tabless; infer_instance

/-- Three items, two of them with a newline in the name; the second name is
longer than the column the first flush leaves behind. -/
def unrulyItems : List TriggerBinding :=
  [⟨"x\ny", "bar", 2800⟩, ⟨"averyveryverylongname\nz", "bar", 2800⟩, ⟨"c", "bar", 2800⟩]

/-- An output stream that fails on its first write and accepts the later ones. -/
def flakySink : Sink := { Sink.fresh with faults := [some ⟨0, "broken pipe"⟩] }

namespace tabwriter

/-- The cells a text without line breaks adds to the current line, and the text
that stays pending after it: the text is cut at its tabs and vertical tabs.
`pend` is the text pending before. -/
def splitCells : List Char → List Char → List cell × List Char
  | pend, [] => ([], pend)
  | pend, ch :: rest =>
      if ch = '\t' ∨ ch = '\x0b' then
        (⟨pend, ch == '\t'⟩ :: (splitCells [] rest).1, (splitCells [] rest).2)
      else splitCells (pend ++ [ch]) rest

/-- The text of a printed line before its newline, read against the cells of
the line: the texts of the cells in order, each but the last followed by
blanks or tabs only, the last by nothing. -/
def Woven : List cell → List Char → Prop
  | [], body => body = []
  | [c], body => body = c.text
  | c :: c' :: cs, body =>
      ∃ pad rest, body = c.text ++ pad ++ rest ∧ (∀ ch ∈ pad, ch = ' ' ∨ ch = '\t') ∧
        Woven (c' :: cs) rest

/-- The text printed for a buffered line: its cells, and a newline unless it is
the last buffered line. -/
def Rendered (l : Bool × List cell) (text : List Char) : Prop :=
  ∃ body, text = body ++ (if l.1 then [] else ['\n']) ∧ Woven l.2 body

/-- Text without a newline and without a form feed. -/
def unbroken (text : String) : Prop := '\n' ∉ text.data ∧ '\x0c' ∉ text.data

instance (text : String) : Decidable (unbroken text) := by
  unfold unbroken; infer_instance

end tabwriter

/-- The row of an item as the tab-stop writer buffers it when its name and age
hold no tab and no line break and its namespace no line break: the cells of the
namespace when it is shown, then the name and the age. -/
def rowLine (ext : Extern) (p : Params) (allNamespaces : Bool) (tb : TriggerBinding) :
    List tabwriter.cell :=
  (if allNamespaces then (tabwriter.splitCells [] (tb.Namespace.data ++ ['\t'])).1 else []) ++
    [⟨tb.Name.data, true⟩, ⟨(ext.Age tb.CreationTimestamp p.Time).data, false⟩]

/-- The items whose name and age hold no tab, vertical tab, newline or form
feed, and whose namespace, when it is shown, holds no newline and no form
feed. -/
def tidy (ext : Extern) (p : Params) (allNamespaces : Bool) (items : List TriggerBinding) :
    Prop :=
  ∀ tb ∈ items, tabwriter.plain tb.Name ∧ tabwriter.plain (ext.Age tb.CreationTimestamp p.Time) ∧
    (allNamespaces = true → tabwriter.unbroken tb.Namespace)

instance (ext : Extern) (p : Params) (allNamespaces : Bool) (items : List TriggerBinding) :
    Decidable (tidy ext p allNamespaces items) := by
  unfold tidy; infer_instance

/-- A text that is exactly one line: it ends with its only newline. -/
def oneLine (line : String) : Prop := ∃ body : String, line = body ++ "\n" ∧ '\n' ∉ body.data

/-- A line that carries two texts: it ends with the first, blanks or tabs, the
second and the newline. -/
def carries (line a b : String) : Prop :=
  ∃ pre pad : String, line = pre ++ a ++ pad ++ b ++ "\n" ∧ ∀ ch ∈ pad.data, ch = ' ' ∨ ch = '\t'

/-- The words of C2 about a text: it consists of exactly one header line, which
carries `NAME` and `AGE`, followed by exactly one data line per item, in the
order of the list, the line of an item carrying its name and its age. -/
def tableOf (ext : Extern) (p : Params) (items : List TriggerBinding) (text : String) : Prop :=
  ∃ (head : String) (rows : List String), text = head ++ String.join rows ∧
    oneLine head ∧ carries head "NAME" "AGE" ∧
    List.Forall₂ (fun tb row => oneLine row ∧
      carries row tb.Name (ext.Age tb.CreationTimestamp p.Time)) items rows

/-- Collaborators that render every age as the given text. -/
def ageExtern (age : String) : Extern :=
  { Age := fun _ _ => age
    PrintObject := fun w _ => (w, none) }

/-- The text handed to the tab-stop writer when the table of `items` is printed
on the example parameters: the arguments of the `Write` calls, joined. -/
def handedText (ext : Extern) (out : Sink) (items : List TriggerBinding) (allNamespaces : Bool) :
    String :=
  String.join (printTable ext out items (exampleParams items) allNamespaces).1.input

/-- What `printFormatted` leaves on the output stream `out` for `items` on the
example parameters. -/
def flushedText (ext : Extern) (out : Sink) (items : List TriggerBinding) (allNamespaces : Bool) :
    String :=
  (printFormatted ext ⟨out, Sink.fresh⟩
    ⟨"TriggerBindingList", "triggers.tekton.dev/v1alpha1", items⟩ (exampleParams items)
    allNamespaces).1.Out.data

/-! ## Theorems -/

/-! ### Writers -/

theorem Sink.Write_of_reliable (w : Sink) (text : String) (h : w.reliable) :
    (w.Write text).2 = none ∧ (w.Write text).1.data = w.data ++ text ∧
      (w.Write text).1.reliable ∧ (w.Write text).1.failed = w.failed := by
  unfold Sink.reliable at h
  unfold Sink.Write
  cases hf : w.faults with
  | nil => simp [Sink.reliable, hf]
  | cons f rest =>
      rw [hf] at h
      have hnone : f = none := h f (List.mem_cons_self _ _)
      subst hnone
      refine ⟨rfl, rfl, ?_, rfl⟩
      intro g hg
      exact h g (List.mem_cons_of_mem _ hg)

theorem Sink.Write_requests (w : Sink) (text : String) :
    (w.Write text).1.requests = w.requests + 1 := by
  unfold Sink.Write
  split <;> rfl

theorem Sink.Write_failed (w : Sink) (text : String) :
    (w.Write text).1.failed = w.failed + (if (w.Write text).2 = none then 0 else 1) := by
  unfold Sink.Write
  split <;> simp

/-! ### The shape of `RunE` and the name-only branch -/

theorem join_cons_eq (a : String) (l : List String) :
    String.join (a :: l) = a ++ String.join l := by
  apply String.ext
  simp [String.data_join]

theorem printNames_of_reliable (items : List TriggerBinding) :
    ∀ w : Sink, w.reliable →
      (printNames w items).2 = none ∧
      (printNames w items).1.data = w.data ++ String.join (nameLines items) ∧
      (printNames w items).1.failed = w.failed := by
  induction items with
  | nil => intro w _; simp [printNames, nameLines, String.join]
  | cons pr rest ih =>
      intro w hw
      obtain ⟨h1, h2, h3, h4⟩ :=
        Sink.Write_of_reliable w ("triggerbinding.triggers.tekton.dev/" ++ pr.Name ++ "\n") hw
      have hstep : printNames w (pr :: rest) =
          printNames (w.Write ("triggerbinding.triggers.tekton.dev/" ++ pr.Name ++ "\n")).1 rest := by
        rw [printNames]
        split
        · rename_i w1 err heq
          rw [heq] at h1
          simp at h1
        · rename_i w1 heq
          rw [heq]
      rw [hstep]
      obtain ⟨i1, i2, i3⟩ := ih _ h3
      refine ⟨i1, ?_, ?_⟩
      · rw [i2, h2]
        simp only [nameLines, List.map_cons]
        rw [join_cons_eq, String.append_assoc]
      · rw [i3, h4]

/-- The shape of `RunE` once the client resolved, the list operation returned
`tbs` and the output flag was read: the three branches on the flag. -/
theorem listCommand_of_listed (ext : Extern) (p : Params) (opts : listOptions)
    (cmd : Command) (cs : Clientset) (tbs : TriggerBindingList) (output : String)
    (hclients : p.Clients = .ok cs)
    (hlist : (list cs (if opts.AllNamespaces then "" else p.Namespace)).2 = .ok tbs)
    (houtput : cmd.output = .ok output) :
    listCommand ext p opts cmd =
      (if output = "name" then
        ⟨(printNames cmd.OutOrStdout tbs.Items).2.map tabwriter.Fail.error,
          (printNames cmd.OutOrStdout tbs.Items).1, cmd.OutOrStderr,
          some (list cs (if opts.AllNamespaces then "" else p.Namespace)).1⟩
      else if output ≠ "" then
        ⟨(ext.PrintObject cmd.OutOrStdout tbs).2.map tabwriter.Fail.error,
          (ext.PrintObject cmd.OutOrStdout tbs).1, cmd.OutOrStderr,
          some (list cs (if opts.AllNamespaces then "" else p.Namespace)).1⟩
      else
        match printFormatted ext ⟨cmd.OutOrStdout, cmd.OutOrStderr⟩ tbs p opts.AllNamespaces with
        | (s, none) => ⟨none, s.Out, s.Err,
            some (list cs (if opts.AllNamespaces then "" else p.Namespace)).1⟩
        | (s, some tabwriter.Fail.crash) => ⟨some .crash, s.Out, s.Err,
            some (list cs (if opts.AllNamespaces then "" else p.Namespace)).1⟩
        | (s, some (tabwriter.Fail.error _)) =>
            ⟨some (.error "failed to print TriggerBindings"), s.Out, s.Err,
              some (list cs (if opts.AllNamespaces then "" else p.Namespace)).1⟩) := by
  unfold listCommand
  rw [hclients]
  simp only []
  cases hl : list cs (if opts.AllNamespaces then "" else p.Namespace) with
  | mk cs1 r =>
      rw [hl] at hlist
      simp only at hlist
      subst hlist
      simp only [houtput]

/-! ### C1: name-only mode -/

/-- C1. Name-only mode: when the client resolves, the list operation returns
`tbs`, the output flag is `name` and no write on the output stream fails, the
command returns `nil`, the output stream gains exactly the lines
`triggerbinding.triggers.tekton.dev/<Name>`, one per item in the order of the
list, for either value of `AllNamespaces`, and the error stream is untouched. -/
theorem listCommand_name_output (ext : Extern) (p : Params) (opts : listOptions)
    (cmd : Command) (cs : Clientset) (tbs : TriggerBindingList)
    (hclients : p.Clients = .ok cs)
    (hlist : (list cs (if opts.AllNamespaces then "" else p.Namespace)).2 = .ok tbs)
    (houtput : cmd.output = .ok "name")
    (hwrites : cmd.OutOrStdout.reliable) :
    (listCommand ext p opts cmd).err = none ∧
    (listCommand ext p opts cmd).Out.data =
      cmd.OutOrStdout.data ++ String.join
        (tbs.Items.map fun pr => "triggerbinding.triggers.tekton.dev/" ++ pr.Name ++ "\n") ∧
    (listCommand ext p opts cmd).Err = cmd.OutOrStderr := by
  obtain ⟨h1, h2, _⟩ := printNames_of_reliable tbs.Items cmd.OutOrStdout hwrites
  unfold listCommand
  rw [hclients]
  simp only []
  cases hl : list cs (if opts.AllNamespaces then "" else p.Namespace) with
  | mk cs1 r =>
      rw [hl] at hlist
      simp only at hlist
      subst hlist
      simp only [houtput, if_true, h1, h2, Option.map_none', nameLines, and_self]

/-- C1, the worked example: items `binding-a` and `binding-b`, all namespaces,
output `name`; the output is the two lines of the example. -/
theorem listCommand_name_output_witness :
    ((listCommand exampleExtern (exampleParams exampleItems) ⟨true⟩ (exampleCommand "name")).err =
        none ∧
      (listCommand exampleExtern (exampleParams exampleItems) ⟨true⟩ (exampleCommand "name")).Out.data =
        "" ++ String.join
          (exampleItems.map fun pr => "triggerbinding.triggers.tekton.dev/" ++ pr.Name ++ "\n") ∧
      (listCommand exampleExtern (exampleParams exampleItems) ⟨true⟩ (exampleCommand "name")).Err =
        Sink.fresh) ∧
    "" ++ String.join
        (exampleItems.map fun pr => "triggerbinding.triggers.tekton.dev/" ++ pr.Name ++ "\n") =
      "triggerbinding.triggers.tekton.dev/binding-a\ntriggerbinding.triggers.tekton.dev/binding-b\n" :=
  ⟨listCommand_name_output exampleExtern (exampleParams exampleItems) ⟨true⟩
      (exampleCommand "name") (exampleClientset exampleItems)
      ⟨"TriggerBindingList", "triggers.tekton.dev/v1alpha1", exampleItems⟩
      rfl rfl rfl (by decide),
    by decide⟩

/-! ### C6: kind and version -/

/-- C6. Whatever kind and version the list returned by the upstream call
carries, the list `list` returns has kind `TriggerBindingList`, version
`triggers.tekton.dev/v1alpha1` and the same items. -/
theorem list_stamps_kind_version (client : Clientset) (ns : String) (tbs : TriggerBindingList)
    (hupstream : client.respond ns = .ok tbs) :
    ∃ stamped, (list client ns).2 = .ok stamped ∧
      stamped.Kind = "TriggerBindingList" ∧
      stamped.APIVersion = "triggers.tekton.dev/v1alpha1" ∧
      stamped.Items = tbs.Items := by
  refine ⟨tbs.SetGroupVersionKind
    { Group := "", Version := "triggers.tekton.dev/v1alpha1", Kind := "TriggerBindingList" },
    ?_, rfl, rfl, rfl⟩
  simp only [list, Clientset.List, hupstream]

/-- C6 at a list that arrives with a foreign kind and version. -/
theorem list_stamps_kind_version_witness :
    ∃ stamped,
      (list { respond := fun _ => .ok ⟨"Pod", "v1", exampleItems⟩, calls := [] } "bar").2 =
        .ok stamped ∧
      stamped.Kind = "TriggerBindingList" ∧
      stamped.APIVersion = "triggers.tekton.dev/v1alpha1" ∧
      stamped.Items = (⟨"Pod", "v1", exampleItems⟩ : TriggerBindingList).Items :=
  list_stamps_kind_version { respond := fun _ => .ok ⟨"Pod", "v1", exampleItems⟩, calls := [] }
    "bar" ⟨"Pod", "v1", exampleItems⟩ rfl

/-! ### C7: a failing list operation -/

/-- C7. When the client resolves and the list operation fails with `e`, the
command returns the error `failed to list TriggerBindings from all namespaces:
<e>` when `AllNamespaces` is set, and otherwise `failed to list TriggerBindings
from <ns> namespace: <e>` with `ns` the caller's namespace, whatever the output
flag is, and writes to neither stream. -/
theorem listCommand_list_failure (ext : Extern) (p : Params) (opts : listOptions)
    (cmd : Command) (cs : Clientset) (e : String)
    (hclients : p.Clients = .ok cs)
    (hlist : (list cs (if opts.AllNamespaces then "" else p.Namespace)).2 = .error e) :
    (listCommand ext p opts cmd).err =
      some (.error (if opts.AllNamespaces
        then "failed to list TriggerBindings from all namespaces: " ++ e
        else "failed to list TriggerBindings from " ++ p.Namespace ++ " namespace: " ++ e)) ∧
    (listCommand ext p opts cmd).Out = cmd.OutOrStdout ∧
    (listCommand ext p opts cmd).Err = cmd.OutOrStderr := by
  unfold listCommand
  rw [hclients]
  simp only []
  cases hl : list cs (if opts.AllNamespaces then "" else p.Namespace) with
  | mk cs1 r =>
      rw [hl] at hlist
      simp only at hlist
      subst hlist
      cases hall : opts.AllNamespaces <;> simp

/-- C7 at namespace `bar`: the message is `failed to list TriggerBindings from
bar namespace: ` followed by the error of the list operation. -/
theorem listCommand_list_failure_witness :
    (listCommand exampleExtern
        { Clients := .ok { respond := fun _ => .error "connection refused", calls := [] },
          Namespace := "bar", Time := 0 } ⟨false⟩ (exampleCommand "")).err =
      some (.error (if (⟨false⟩ : listOptions).AllNamespaces
        then "failed to list TriggerBindings from all namespaces: " ++ "connection refused"
        else "failed to list TriggerBindings from " ++ "bar" ++ " namespace: " ++
          "connection refused")) ∧
    (listCommand exampleExtern
        { Clients := .ok { respond := fun _ => .error "connection refused", calls := [] },
          Namespace := "bar", Time := 0 } ⟨false⟩ (exampleCommand "")).Out = Sink.fresh ∧
    (listCommand exampleExtern
        { Clients := .ok { respond := fun _ => .error "connection refused", calls := [] },
          Namespace := "bar", Time := 0 } ⟨false⟩ (exampleCommand "")).Err = Sink.fresh :=
  listCommand_list_failure exampleExtern
    { Clients := .ok { respond := fun _ => .error "connection refused", calls := [] },
      Namespace := "bar", Time := 0 } ⟨false⟩ (exampleCommand "")
    { respond := fun _ => .error "connection refused", calls := [] } "connection refused" rfl rfl

/-! ### C9: the namespace of the query -/

/-- C9 as stated fails when no client can be resolved: the command returns the
error of `p.Clients()` and the list operation is not invoked at all. -/
theorem listCommand_no_client_no_list :
    (listCommand exampleExtern { Clients := .error "no kubeconfig", Namespace := "bar", Time := 0 }
        ⟨false⟩ (exampleCommand "")).listCalls = [] ∧
    (listCommand exampleExtern { Clients := .error "no kubeconfig", Namespace := "bar", Time := 0 }
        ⟨false⟩ (exampleCommand "")).listCalls ≠ ["bar"] ∧
    (listCommand exampleExtern { Clients := .error "no kubeconfig", Namespace := "bar", Time := 0 }
        ⟨false⟩ (exampleCommand "")).err = some (.error "no kubeconfig") := by
  refine ⟨rfl, ?_, rfl⟩
  simp [listCommand, Outcome.listCalls]

/-- The clientset with which `RunE` ends is the one `list` leaves behind. -/
theorem listCommand_Triggers (ext : Extern) (p : Params) (opts : listOptions)
    (cmd : Command) (cs : Clientset) (hclients : p.Clients = .ok cs) :
    (listCommand ext p opts cmd).Triggers =
      some (list cs (if opts.AllNamespaces then "" else p.Namespace)).1 := by
  unfold listCommand
  rw [hclients]
  simp only []
  repeat' split
  all_goals simp_all

/-- C9, amended. Whenever the client resolves, the command makes exactly one
`List` call on it, whatever the output flag is and however the run ends: for
the namespace `""` when `AllNamespaces` is set and for the caller's namespace
otherwise. Whenever the client does not resolve, with error `e`, the command
makes no `List` call and returns `e`. -/
theorem listCommand_query_namespace (ext : Extern) (p : Params) (opts : listOptions)
    (cmd : Command) :
    (∀ cs, p.Clients = .ok cs →
      (listCommand ext p opts cmd).listCalls =
        cs.calls ++ [if opts.AllNamespaces then "" else p.Namespace]) ∧
    (∀ e, p.Clients = .error e →
      (listCommand ext p opts cmd).listCalls = [] ∧
      (listCommand ext p opts cmd).err = some (.error e)) := by
  constructor
  · intro cs hclients
    have hcalls : ∀ ns, (list cs ns).1.calls = cs.calls ++ [ns] := by
      intro ns
      unfold list Clientset.List
      cases cs.respond ns <;> rfl
    rw [← hcalls, Outcome.listCalls, listCommand_Triggers ext p opts cmd cs hclients]
  · intro e hclients
    unfold listCommand
    rw [hclients]
    exact ⟨rfl, rfl⟩

/-- C9, amended: on the worked example with `AllNamespaces` set the one call is
for the namespace `""`, in namespace `bar` without it the one call is for
`bar`, and without a client there is no call. -/
theorem listCommand_query_namespace_witness :
    ((listCommand exampleExtern (exampleParams exampleItems) ⟨true⟩ (exampleCommand "")).listCalls =
        (exampleClientset exampleItems).calls ++
          [if (⟨true⟩ : listOptions).AllNamespaces then ""
           else (exampleParams exampleItems).Namespace] ∧
      (listCommand exampleExtern (exampleParams exampleItems) ⟨false⟩
          (exampleCommand "name")).listCalls =
        (exampleClientset exampleItems).calls ++
          [if (⟨false⟩ : listOptions).AllNamespaces then ""
           else (exampleParams exampleItems).Namespace]) ∧
    ((listCommand exampleExtern
          { Clients := .error "no kubeconfig", Namespace := "bar", Time := 0 } ⟨true⟩
          (exampleCommand "")).listCalls = [] ∧
      (listCommand exampleExtern
          { Clients := .error "no kubeconfig", Namespace := "bar", Time := 0 } ⟨true⟩
          (exampleCommand "")).err = some (.error "no kubeconfig")) ∧
    [if (⟨true⟩ : listOptions).AllNamespaces then "" else (exampleParams exampleItems).Namespace] =
      [""] ∧
    [if (⟨false⟩ : listOptions).AllNamespaces then "" else (exampleParams exampleItems).Namespace] =
      ["bar"] :=
  ⟨⟨(listCommand_query_namespace exampleExtern (exampleParams exampleItems) ⟨true⟩
        (exampleCommand "")).1 (exampleClientset exampleItems) rfl,
      (listCommand_query_namespace exampleExtern (exampleParams exampleItems) ⟨false⟩
        (exampleCommand "name")).1 (exampleClientset exampleItems) rfl⟩,
    (listCommand_query_namespace exampleExtern
      { Clients := .error "no kubeconfig", Namespace := "bar", Time := 0 } ⟨true⟩
      (exampleCommand "")).2 "no kubeconfig" rfl,
    by decide, by decide⟩

/-! ### C4 and C5: the empty list -/

/-- The empty branch of `printFormatted`: the message goes to the error stream
and `nil` is returned. -/
theorem printFormatted_of_empty (ext : Extern) (s : Stream) (tbs : TriggerBindingList)
    (p : Params) (allNamespaces : Bool) (hempty : tbs.Items = []) :
    printFormatted ext s tbs p allNamespaces =
      ({ s with Err := (s.Err.Write "No TriggerBindings found\n").1 }, none) := by
  have hmsg : emptyMsg ++ "\n" = "No TriggerBindings found\n" := by decide
  simp [printFormatted, hempty, hmsg]

/-- C4. On a list without items `printFormatted` returns `nil`, leaves the
output stream untouched and makes one write on the error stream, of the line
`No TriggerBindings found`; the stream gains exactly that line when the write
succeeds. This holds for either value of `allNamespaces`. -/
theorem printFormatted_empty (ext : Extern) (s : Stream) (tbs : TriggerBindingList) (p : Params)
    (allNamespaces : Bool) (hempty : tbs.Items = []) :
    (printFormatted ext s tbs p allNamespaces).2 = none ∧
    (printFormatted ext s tbs p allNamespaces).1.Out = s.Out ∧
    (printFormatted ext s tbs p allNamespaces).1.Err = (s.Err.Write "No TriggerBindings found\n").1 ∧
    (printFormatted ext s tbs p allNamespaces).1.Err.requests = s.Err.requests + 1 ∧
    (s.Err.reliable →
      (printFormatted ext s tbs p allNamespaces).1.Err.data =
        s.Err.data ++ "No TriggerBindings found\n") := by
  rw [printFormatted_of_empty ext s tbs p allNamespaces hempty]
  refine ⟨rfl, rfl, rfl, Sink.Write_requests _ _, fun h => ?_⟩
  exact (Sink.Write_of_reliable _ _ h).2.1

/-- C4 on fresh streams with `allNamespaces` set. -/
theorem printFormatted_empty_witness :
    (printFormatted exampleExtern ⟨Sink.fresh, Sink.fresh⟩ ⟨"", "", []⟩ (exampleParams []) true).2 =
      none ∧
    (printFormatted exampleExtern ⟨Sink.fresh, Sink.fresh⟩ ⟨"", "", []⟩ (exampleParams []) true).1.Out =
      Sink.fresh ∧
    (printFormatted exampleExtern ⟨Sink.fresh, Sink.fresh⟩ ⟨"", "", []⟩ (exampleParams []) true).1.Err =
      (Sink.fresh.Write "No TriggerBindings found\n").1 ∧
    (printFormatted exampleExtern ⟨Sink.fresh, Sink.fresh⟩ ⟨"", "", []⟩ (exampleParams [])
      true).1.Err.requests = Sink.fresh.requests + 1 ∧
    (Sink.fresh.reliable →
      (printFormatted exampleExtern ⟨Sink.fresh, Sink.fresh⟩ ⟨"", "", []⟩ (exampleParams [])
        true).1.Err.data = Sink.fresh.data ++ "No TriggerBindings found\n") :=
  printFormatted_empty exampleExtern ⟨Sink.fresh, Sink.fresh⟩ ⟨"", "", []⟩ (exampleParams []) true rfl

/-- C5 as stated fails in name-only mode: with an empty list and output `name`
the command returns `nil` without writing anything, so the line `No
TriggerBindings found` does not appear on the error stream. -/
theorem listCommand_name_empty_silent :
    (listCommand exampleExtern (exampleParams []) ⟨false⟩ (exampleCommand "name")).err = none ∧
    (listCommand exampleExtern (exampleParams []) ⟨false⟩ (exampleCommand "name")).Err.data = "" ∧
    (listCommand exampleExtern (exampleParams []) ⟨false⟩ (exampleCommand "name")).Err.requests = 0 ∧
    (listCommand exampleExtern (exampleParams []) ⟨false⟩ (exampleCommand "name")).Err.data ≠
      "No TriggerBindings found\n" := by
  refine ⟨rfl, rfl, rfl, ?_⟩
  decide

/-- C5, amended. When the client resolves and the list operation returns a list
without items, for either value of `AllNamespaces`: with output `""` the
command returns `nil`, leaves the output stream untouched and makes one write
on the error stream, of the line `No TriggerBindings found` (which the stream
gains when the write succeeds); with output `name` the command returns `nil`
and writes to neither stream. -/
theorem listCommand_empty (ext : Extern) (p : Params) (opts : listOptions)
    (cmd : Command) (cs : Clientset) (tbs : TriggerBindingList) (output : String)
    (hclients : p.Clients = .ok cs)
    (hlist : (list cs (if opts.AllNamespaces then "" else p.Namespace)).2 = .ok tbs)
    (hempty : tbs.Items = [])
    (houtput : cmd.output = .ok output) :
    (output = "" →
      (listCommand ext p opts cmd).err = none ∧
      (listCommand ext p opts cmd).Out = cmd.OutOrStdout ∧
      (listCommand ext p opts cmd).Err = (cmd.OutOrStderr.Write "No TriggerBindings found\n").1 ∧
      (cmd.OutOrStderr.reliable →
        (listCommand ext p opts cmd).Err.data =
          cmd.OutOrStderr.data ++ "No TriggerBindings found\n")) ∧
    (output = "name" →
      (listCommand ext p opts cmd).err = none ∧
      (listCommand ext p opts cmd).Out = cmd.OutOrStdout ∧
      (listCommand ext p opts cmd).Err = cmd.OutOrStderr) := by
  have hpf := printFormatted_of_empty ext ⟨cmd.OutOrStdout, cmd.OutOrStderr⟩ tbs p
    opts.AllNamespaces hempty
  have hrun : listCommand ext p opts cmd =
      (if output = "name" then
        ⟨(printNames cmd.OutOrStdout tbs.Items).2.map tabwriter.Fail.error,
          (printNames cmd.OutOrStdout tbs.Items).1, cmd.OutOrStderr,
          some (list cs (if opts.AllNamespaces then "" else p.Namespace)).1⟩
      else if output ≠ "" then
        ⟨(ext.PrintObject cmd.OutOrStdout tbs).2.map tabwriter.Fail.error,
          (ext.PrintObject cmd.OutOrStdout tbs).1, cmd.OutOrStderr,
          some (list cs (if opts.AllNamespaces then "" else p.Namespace)).1⟩
      else
        match printFormatted ext ⟨cmd.OutOrStdout, cmd.OutOrStderr⟩ tbs p opts.AllNamespaces with
        | (s, none) => ⟨none, s.Out, s.Err,
            some (list cs (if opts.AllNamespaces then "" else p.Namespace)).1⟩
        | (s, some tabwriter.Fail.crash) => ⟨some .crash, s.Out, s.Err,
            some (list cs (if opts.AllNamespaces then "" else p.Namespace)).1⟩
        | (s, some (tabwriter.Fail.error _)) =>
            ⟨some (.error "failed to print TriggerBindings"), s.Out, s.Err,
              some (list cs (if opts.AllNamespaces then "" else p.Namespace)).1⟩) :=
    listCommand_of_listed ext p opts cmd cs tbs output hclients hlist houtput
  constructor
  · intro ho
    subst ho
    rw [hrun, hpf]
    simp only [show ¬ ("" = "name") by decide, if_false, ne_eq, not_true_eq_false]
    exact ⟨trivial, trivial, trivial, fun h => (Sink.Write_of_reliable _ _ h).2.1⟩
  · intro ho
    subst ho
    rw [hrun]
    simp [hempty, printNames]

/-- C5, amended, on an empty list in namespace `bar` with fresh streams and
tabular output. -/
theorem listCommand_empty_witness :
    ("" = "" →
      (listCommand exampleExtern (exampleParams []) ⟨false⟩ (exampleCommand "")).err = none ∧
      (listCommand exampleExtern (exampleParams []) ⟨false⟩ (exampleCommand "")).Out =
        (exampleCommand "").OutOrStdout ∧
      (listCommand exampleExtern (exampleParams []) ⟨false⟩ (exampleCommand "")).Err =
        ((exampleCommand "").OutOrStderr.Write "No TriggerBindings found\n").1 ∧
      ((exampleCommand "").OutOrStderr.reliable →
        (listCommand exampleExtern (exampleParams []) ⟨false⟩ (exampleCommand "")).Err.data =
          (exampleCommand "").OutOrStderr.data ++ "No TriggerBindings found\n")) ∧
    ("" = "name" →
      (listCommand exampleExtern (exampleParams []) ⟨false⟩ (exampleCommand "")).err = none ∧
      (listCommand exampleExtern (exampleParams []) ⟨false⟩ (exampleCommand "")).Out =
        (exampleCommand "").OutOrStdout ∧
      (listCommand exampleExtern (exampleParams []) ⟨false⟩ (exampleCommand "")).Err =
        (exampleCommand "").OutOrStderr) :=
  listCommand_empty exampleExtern (exampleParams []) ⟨false⟩ (exampleCommand "")
    (exampleClientset []) ⟨"TriggerBindingList", "triggers.tekton.dev/v1alpha1", []⟩ ""
    rfl rfl rfl rfl

namespace tabwriter

/-! ### What `printFormatted` hands to the tab-stop writer -/

theorem Writer.flushNoDefers_input (b : Writer) : b.flushNoDefers.1.input = b.input := by
  unfold Writer.flushNoDefers
  simp only []
  split <;> split <;> simp_all [Writer.reset, Writer.terminateCell]

theorem Writer.step_input (b : Writer) (ch : Char) : (b.step ch).1.input = b.input := by
  unfold Writer.step
  simp only []
  split
  · split
    · split
      · rw [Writer.flushNoDefers_input]; rfl
      · rfl
    · rfl
  · rfl

theorem Writer.writeChars_input (text : List Char) :
    ∀ b : Writer, (Writer.writeChars b text).1.input = b.input := by
  induction text with
  | nil => intro b; rfl
  | cons ch rest ih =>
      intro b
      rw [Writer.writeChars]
      have hstep := Writer.step_input b ch
      split
      · rename_i b1 heq
        rw [heq] at hstep
        rw [ih b1]; exact hstep
      · rename_i b1 fail heq
        rw [heq] at hstep
        exact hstep

theorem Writer.Write_input (b : Writer) (text : String) :
    (b.Write text).1.input = b.input ++ [text] := by
  unfold Writer.Write
  rw [Writer.writeChars_input]

end tabwriter

/-- The rows the loop of `printFormatted` hands over: all of them when no write
panics, otherwise those up to and including the one that did. -/
theorem printRows_input (ext : Extern) (p : Params) (allNamespaces : Bool)
    (items : List TriggerBinding) :
    ∀ w : tabwriter.Writer,
      (∃ k, k ≤ items.length ∧
        (printRows ext p allNamespaces w items).1.input =
          w.input ++ (items.take k).map (rowText ext p allNamespaces)) ∧
      ((printRows ext p allNamespaces w items).2 = none →
        (printRows ext p allNamespaces w items).1.input =
          w.input ++ items.map (rowText ext p allNamespaces)) := by
  induction items with
  | nil => intro w; exact ⟨⟨0, le_refl _, by simp [printRows]⟩, fun _ => by simp [printRows]⟩
  | cons tb rest ih =>
      intro w
      have hin := tabwriter.Writer.Write_input w (rowText ext p allNamespaces tb)
      rw [printRows]
      split
      · rename_i w1 heq
        rw [heq] at hin
        simp only at hin
        refine ⟨⟨1, by simp, by simp [hin]⟩, fun h => by simp at h⟩
      · rename_i w1 r hne heq
        rw [heq] at hin
        simp only at hin
        obtain ⟨⟨k, hk, hpre⟩, hall⟩ := ih w1
        refine ⟨⟨k + 1, by simpa using hk, ?_⟩, fun h => ?_⟩
        · rw [hpre, hin]; simp
        · rw [hall h, hin]; simp

/-- What `printTable` hands over: the header line, then the rows of a prefix of
the items; of all items when no write panics. -/
theorem printTable_input (ext : Extern) (out : Sink) (items : List TriggerBinding) (p : Params)
    (allNamespaces : Bool) :
    ∃ k, k ≤ items.length ∧
      ((printTable ext out items p allNamespaces).2 = none → k = items.length) ∧
      (printTable ext out items p allNamespaces).1.input =
        (headers allNamespaces ++ "\n") :: (items.take k).map (rowText ext p allNamespaces) := by
  have hin := tabwriter.Writer.Write_input (tabwriter.NewWriter out 0 5 3 ' ' true)
    (headers allNamespaces ++ "\n")
  unfold printTable
  split
  · rename_i w1 heq
    rw [heq] at hin
    refine ⟨0, Nat.zero_le _, fun h => by simp at h, ?_⟩
    simpa [tabwriter.NewWriter] using hin
  · rename_i w1 r hne heq
    rw [heq] at hin
    simp only [tabwriter.NewWriter, List.nil_append] at hin
    obtain ⟨⟨k, hk, hpre⟩, hall⟩ := printRows_input ext p allNamespaces items w1
    by_cases hrun : (printRows ext p allNamespaces w1 items).2 = none
    · refine ⟨items.length, le_refl _, fun _ => rfl, ?_⟩
      rw [hall hrun, hin]; simp
    · refine ⟨k, hk, fun h => absurd h hrun, ?_⟩
      rw [hpre, hin]; simp

namespace tabwriter

/-! ### Writing text without tabs and line breaks -/

theorem Writer.step_plain (b : Writer) (ch : Char) (h : ¬ special ch) :
    b.step ch = ({ b with cell := b.cell ++ [ch] }, none) := by
  unfold special at h
  unfold Writer.step
  simp only [h, if_false]

theorem Writer.writeChars_plain (cs : List Char) (rest : List Char) :
    ∀ b : Writer, (∀ ch ∈ cs, ¬ special ch) →
      Writer.writeChars b (cs ++ rest) = Writer.writeChars { b with cell := b.cell ++ cs } rest := by
  induction cs with
  | nil => intro b _; simp
  | cons ch cs ih =>
      intro b h
      rw [List.cons_append, Writer.writeChars,
        Writer.step_plain b ch (h ch (List.mem_cons_self _ _))]
      simp only []
      rw [ih _ (fun c hc => h c (List.mem_cons_of_mem _ hc))]
      simp

theorem Writer.terminateCell_concat (b : Writer) (htab : Bool) (done : List (List tabwriter.cell))
    (cur : List tabwriter.cell) (hlines : b.lines = done ++ [cur]) :
    b.terminateCell htab =
      ({ b with cell := [], lines := done ++ [cur ++ [⟨b.cell, htab⟩]] }, cur.length + 1) := by
  unfold Writer.terminateCell
  simp [hlines]

theorem Writer.writeChars_tab (b : Writer) (rest : List Char) (done : List (List tabwriter.cell))
    (cur : List tabwriter.cell) (hlines : b.lines = done ++ [cur]) :
    Writer.writeChars b ('\t' :: rest) =
      Writer.writeChars { b with cell := [], lines := done ++ [cur ++ [⟨b.cell, true⟩]] } rest := by
  rw [Writer.writeChars]
  have hstep : b.step '\t' =
      ({ b with cell := [], lines := done ++ [cur ++ [⟨b.cell, true⟩]] }, none) := by
    unfold Writer.step
    rw [Writer.terminateCell_concat b _ done cur hlines]
    simp
  rw [hstep]

theorem Writer.writeChars_newline (b : Writer) (rest : List Char) (done : List (List tabwriter.cell))
    (cur : List tabwriter.cell) (hlines : b.lines = done ++ [cur]) (hcur : cur ≠ []) :
    Writer.writeChars b ('\n' :: rest) =
      Writer.writeChars
        { b with cell := [], lines := done ++ [cur ++ [⟨b.cell, false⟩], []] } rest := by
  rw [Writer.writeChars]
  have hlen : cur.length + 1 ≠ 1 := by
    cases cur with
    | nil => exact absurd rfl hcur
    | cons c cs => simp
  have hstep : b.step '\n' =
      ({ b with cell := [], lines := done ++ [cur ++ [⟨b.cell, false⟩], []] }, none) := by
    unfold Writer.step
    rw [Writer.terminateCell_concat b _ done cur hlines]
    simp [Writer.addLine, hlen]
  rw [hstep]

/-- Writing one line of tab-terminated cells and a last cell, none of which
holds a tab or a line break, onto an empty pending cell: the cells join the
current line and a new line is begun; nothing is flushed when the line has at
least two cells. -/
theorem Writer.writeChars_line (cells : List (List Char)) (last : List Char) :
    ∀ (b : Writer) (done : List (List tabwriter.cell)) (cur : List tabwriter.cell),
      b.lines = done ++ [cur] → b.cell = [] →
      (∀ c ∈ cells, ∀ ch ∈ c, ¬ special ch) → (∀ ch ∈ last, ¬ special ch) →
      (cur ≠ [] ∨ cells ≠ []) →
      Writer.writeChars b ((cells.map (· ++ ['\t'])).flatten ++ (last ++ ['\n'])) =
        ({ b with lines := done ++
            [cur ++ cells.map (fun c => ⟨c, true⟩) ++ [⟨last, false⟩], []] }, none) := by
  induction cells with
  | nil =>
      intro b done cur hlines hcell _ hlast hne
      have hcur : cur ≠ [] := by
        rcases hne with h | h
        · exact h
        · exact absurd rfl h
      simp only [List.map_nil, List.flatten_nil, List.nil_append, List.append_nil]
      rw [Writer.writeChars_plain last ['\n'] b hlast]
      rw [Writer.writeChars_newline { b with cell := b.cell ++ last } [] done cur hlines hcur]
      simp [Writer.writeChars, hcell]
  | cons c cells ih =>
      intro b done cur hlines hcell hcells hlast _
      simp only [List.map_cons, List.flatten_cons, List.append_assoc, List.singleton_append,
        List.cons_append, List.nil_append]
      rw [Writer.writeChars_plain c _ b (hcells c (List.mem_cons_self _ _))]
      rw [Writer.writeChars_tab { b with cell := b.cell ++ c } _ done cur hlines]
      dsimp only
      rw [ih _ done (cur ++ [⟨b.cell ++ c, true⟩]) rfl rfl
        (fun c' hc' => hcells c' (List.mem_cons_of_mem _ hc')) hlast (Or.inl (by simp))]
      simp [hcell]

end tabwriter

/-! ### The buffered table -/

theorem Write_rowText (ext : Extern) (p : Params) (allNamespaces : Bool) (tb : TriggerBinding)
    (w : tabwriter.Writer) (done : List (List tabwriter.cell))
    (hlines : w.lines = done ++ [[]]) (hcell : w.cell = [])
    (hreg : regular ext p allNamespaces [tb]) :
    w.Write (rowText ext p allNamespaces tb) =
      ({ w with lines := done ++ [rowCells ext p allNamespaces tb, []],
                input := w.input ++ [rowText ext p allNamespaces tb] }, none) := by
  obtain ⟨hname, hage, hns⟩ := hreg tb (List.mem_singleton_self _)
  unfold tabwriter.Writer.Write
  cases allNamespaces
  · have hdata : (rowText ext p false tb).data =
        (([tb.Name.data].map (· ++ ['\t'])).flatten ++
          ((ext.Age tb.CreationTimestamp p.Time).data ++ ['\n'])) := by
      simp [rowText, String.data_append]
    rw [hdata, tabwriter.Writer.writeChars_line [tb.Name.data] _
      { w with input := w.input ++ [rowText ext p false tb] } done [] hlines hcell
      (by simpa using hname) hage (Or.inr (by simp))]
    simp [rowCells]
  · have hdata : (rowText ext p true tb).data =
        (([tb.Namespace.data, tb.Name.data].map (· ++ ['\t'])).flatten ++
          ((ext.Age tb.CreationTimestamp p.Time).data ++ ['\n'])) := by
      simp [rowText, String.data_append]
    rw [hdata, tabwriter.Writer.writeChars_line [tb.Namespace.data, tb.Name.data] _
      { w with input := w.input ++ [rowText ext p true tb] } done []
      hlines hcell (by
        intro c hc
        simp only [List.mem_cons, List.mem_singleton, List.not_mem_nil, or_false] at hc
        rcases hc with h | h
        · subst h; exact hns rfl
        · subst h; exact hname) hage (Or.inr (by simp))]
    simp [rowCells]

theorem printRows_regular (ext : Extern) (p : Params) (allNamespaces : Bool)
    (items : List TriggerBinding) :
    ∀ (w : tabwriter.Writer) (done : List (List tabwriter.cell)),
      w.lines = done ++ [[]] → w.cell = [] → regular ext p allNamespaces items →
      printRows ext p allNamespaces w items =
        ({ w with lines := done ++ items.map (rowCells ext p allNamespaces) ++ [[]],
                  input := w.input ++ items.map (rowText ext p allNamespaces) }, none) := by
  induction items with
  | nil =>
      intro w done hlines hcell _
      simp [printRows, ← hlines]
  | cons tb rest ih =>
      intro w done hlines hcell hreg
      have htb : regular ext p allNamespaces [tb] := by
        intro x hx
        exact hreg x (by simp only [List.mem_singleton] at hx; simp [hx])
      have hrest : regular ext p allNamespaces rest :=
        fun x hx => hreg x (List.mem_cons_of_mem _ hx)
      rw [printRows, Write_rowText ext p allNamespaces tb w done hlines hcell htb]
      simp only []
      rw [ih { w with lines := done ++ [rowCells ext p allNamespaces tb, []],
                      input := w.input ++ [rowText ext p allNamespaces tb] }
        (done ++ [rowCells ext p allNamespaces tb]) (by simp) hcell hrest]
      simp

theorem Write_headers (out : Sink) (allNamespaces : Bool) :
    (tabwriter.NewWriter out 0 5 3 ' ' true).Write (headers allNamespaces ++ "\n") =
      ({ output := out, cfg := ⟨0, 5, 3, ' ', true⟩, cell := [],
         lines := [headerCells allNamespaces, []], widths := [],
         input := [headers allNamespaces ++ "\n"] }, none) := by
  unfold tabwriter.Writer.Write tabwriter.NewWriter
  simp only [List.nil_append]
  cases allNamespaces
  · have hdata : (headers false ++ "\n").data =
        ((["NAME".data].map (· ++ ['\t'])).flatten ++ ("AGE".data ++ ['\n'])) := by decide
    rw [hdata, tabwriter.Writer.writeChars_line ["NAME".data] "AGE".data
      { output := out, cfg := ⟨0, 5, 3, ' ', true⟩, cell := [], lines := [[]], widths := [],
        input := [headers false ++ "\n"] }
      [] [] rfl rfl (by decide) (by decide) (Or.inr (by simp))]
    simp [headerCells]
  · have hdata : (headers true ++ "\n").data =
        ((["NAMESPACE".data, "NAME".data].map (· ++ ['\t'])).flatten ++
          ("AGE".data ++ ['\n'])) := by decide
    rw [hdata, tabwriter.Writer.writeChars_line ["NAMESPACE".data, "NAME".data] "AGE".data
      { output := out, cfg := ⟨0, 5, 3, ' ', true⟩, cell := [], lines := [[]], widths := [],
        input := [headers true ++ "\n"] }
      [] [] rfl rfl (by decide) (by decide) (Or.inr (by simp))]
    simp [headerCells]

/-- The tab-stop writer before the flush, for items whose fields hold no tab
and no line break: header and rows are buffered, nothing was written to the
output stream, and no write ended badly. -/
theorem printTable_regular (ext : Extern) (out : Sink) (items : List TriggerBinding) (p : Params)
    (allNamespaces : Bool) (hreg : regular ext p allNamespaces items) :
    printTable ext out items p allNamespaces =
      ({ output := out, cfg := ⟨0, 5, 3, ' ', true⟩, cell := [],
         lines := headerCells allNamespaces :: items.map (rowCells ext p allNamespaces) ++ [[]],
         widths := [],
         input := (headers allNamespaces ++ "\n") :: items.map (rowText ext p allNamespaces) },
        none) := by
  unfold printTable
  rw [Write_headers]
  simp only []
  rw [printRows_regular ext p allNamespaces items
    { output := out, cfg := ⟨0, 5, 3, ' ', true⟩, cell := [],
      lines := [headerCells allNamespaces, []], widths := [],
      input := [headers allNamespaces ++ "\n"] } [headerCells allNamespaces] rfl rfl hreg]
  simp

namespace tabwriter

/-! ### Formatting lines of equally many cells -/

theorem format_nil (cfg : Config) (fuel : Nat) (widths : List Nat) :
    format cfg (fuel + 1) widths [] = [] := by
  simp [format, writeLines]

/-- A block all of whose lines have `m` more tab-terminated cells than there
are widths is printed with the widths of these `m` columns pushed. -/
theorem format_block (cfg : Config) (m : Nat) :
    ∀ (fuel : Nat) (widths : List Nat) (block : List (Bool × List cell)),
      m + 1 ≤ fuel → block ≠ [] →
      (∀ l ∈ block, l.2.length = widths.length + m + 1) →
      format cfg fuel widths block =
        writeLines cfg (widths ++ colWidths cfg block widths.length m) block := by
  induction m with
  | zero =>
      intro fuel widths block hfuel _ hlen
      obtain ⟨fuel, rfl⟩ : ∃ k, fuel = k + 1 := ⟨fuel - 1, by omega⟩
      have hnone : ∀ l ∈ block, (!hasColumn widths.length l) = true := by
        intro l hl
        simp [hasColumn, hlen l hl]
      have hdrop : block.dropWhile (fun l => !hasColumn widths.length l) = [] :=
        List.dropWhile_eq_nil_iff.mpr hnone
      rw [format]
      simp only [hdrop, colWidths, List.append_nil]
  | succ m ih =>
      intro fuel widths block hfuel hne hlen
      obtain ⟨fuel, rfl⟩ : ∃ k, fuel = k + 1 := ⟨fuel - 1, by omega⟩
      have hall : ∀ l ∈ block, hasColumn widths.length l = true := by
        intro l hl
        simp [hasColumn, hlen l hl]
      obtain ⟨l0, rest, rfl⟩ : ∃ l0 rest, block = l0 :: rest := by
        cases block with
        | nil => exact absurd rfl hne
        | cons a b => exact ⟨a, b, rfl⟩
      have h0 : hasColumn widths.length l0 = true := hall l0 (List.mem_cons_self _ _)
      have hdrop : (l0 :: rest).dropWhile (fun l => !hasColumn widths.length l) = l0 :: rest := by
        rw [List.dropWhile_cons_of_neg]; simp [h0]
      have htake : (l0 :: rest).takeWhile (fun l => !hasColumn widths.length l) = [] := by
        rw [List.takeWhile_cons_of_neg]; simp [h0]
      have htake2 : (l0 :: rest).takeWhile (hasColumn widths.length) = l0 :: rest :=
        List.takeWhile_eq_self_iff.mpr hall
      have hdrop2 : (l0 :: rest).dropWhile (hasColumn widths.length) = [] :=
        List.dropWhile_eq_nil_iff.mpr hall
      obtain ⟨fuel1, rfl⟩ : ∃ k, fuel = k + 1 := ⟨fuel - 1, by omega⟩
      rw [format]
      simp only [hdrop, htake, htake2, hdrop2]
      rw [format_nil, List.append_nil, show writeLines cfg widths [] = [] from rfl,
        List.nil_append]
      rw [ih (fuel1 + 1) (widths ++ [blockWidth cfg widths.length (l0 :: rest)]) (l0 :: rest)
        (by omega) hne (by
          intro l hl
          rw [hlen l hl]
          simp
          omega)]
      simp [colWidths]

theorem mark_concat (lines : List (List cell)) (line : List cell) :
    mark (lines ++ [line]) = lines.map (fun l => (false, l)) ++ [(true, line)] := by
  induction lines with
  | nil => rfl
  | cons l ls ih =>
      cases hls : ls ++ [line] with
      | nil => simp at hls
      | cons a b =>
          rw [List.cons_append, hls, mark, ← hls, ih]
          · simp
          · intro h; simp at h

theorem le_fuelFor (lines : List (List cell)) (l : List cell) (hl : l ∈ lines) :
    l.length + 1 ≤ fuelFor lines := by
  have hmax : ∀ (ls : List (List cell)), l ∈ ls → l.length ≤ (ls.map List.length).foldr max 0 := by
    intro ls
    induction ls with
    | nil => intro h; simp at h
    | cons a b ih =>
        intro h
        simp only [List.map_cons, List.foldr_cons]
        rcases List.mem_cons.mp h with h | h
        · subst h; exact le_max_left _ _
        · exact le_trans (ih h) (le_max_right _ _)
  have := hmax lines hl
  unfold fuelFor
  omega

/-- The formatter on a buffer of `rows`, each with `n + 1` tab-terminated
cells and a last cell, followed by the empty last line: the rows are printed
with the widths of their `n + 1` columns, then the empty line. -/
theorem format_table (cfg : Config) (n : Nat) (rows : List (List cell)) (hne : rows ≠ [])
    (hlen : ∀ l ∈ rows, l.length = n + 2) :
    format cfg (fuelFor (rows ++ [[]])) [] (mark (rows ++ [[]])) =
      writeLines cfg (colWidths cfg (rows.map fun l => (false, l)) 0 (n + 1))
        (rows.map fun l => (false, l)) ++ [Chunk.write [] []] := by
  obtain ⟨l0, rest, rfl⟩ : ∃ l0 rest, rows = l0 :: rest := by
    cases rows with
    | nil => exact absurd rfl hne
    | cons a b => exact ⟨a, b, rfl⟩
  have hfuel : n + 3 ≤ fuelFor ((l0 :: rest) ++ [[]]) := by
    have := le_fuelFor ((l0 :: rest) ++ [[]]) l0 (by simp)
    rw [hlen l0 (List.mem_cons_self _ _)] at this
    exact this
  obtain ⟨fuel, hfueleq⟩ : ∃ k, fuelFor ((l0 :: rest) ++ [[]]) = k + 1 :=
    ⟨fuelFor ((l0 :: rest) ++ [[]]) - 1, by omega⟩
  rw [hfueleq, mark_concat]
  have hall : ∀ l ∈ (l0 :: rest).map (fun l => (false, l)), hasColumn 0 l = true := by
    intro l hl
    obtain ⟨x, hx, rfl⟩ := List.mem_map.mp hl
    simp [hasColumn, hlen x hx]
  have hlast : hasColumn 0 (true, ([] : List cell)) = false := by simp [hasColumn]
  have h0 : hasColumn 0 (false, l0) = true := hall _ (by simp)
  rw [format]
  simp only [List.length_nil, List.map_cons, List.cons_append]
  rw [List.dropWhile_cons_of_neg (by simp [h0]), List.takeWhile_cons_of_neg (by simp [h0])]
  rw [show writeLines cfg [] [] = [] from rfl, List.nil_append]
  have htake : ((false, l0) :: (rest.map (fun l => (false, l)) ++ [(true, [])])).takeWhile
      (hasColumn 0) = (false, l0) :: rest.map (fun l => (false, l)) := by
    have := @List.takeWhile_append_of_pos _ (hasColumn 0)
      ((l0 :: rest).map (fun l => (false, l))) [(true, ([] : List cell))] hall
    simpa [hlast] using this
  have hdrop : ((false, l0) :: (rest.map (fun l => (false, l)) ++ [(true, [])])).dropWhile
      (hasColumn 0) = [(true, [])] := by
    have := @List.dropWhile_append_of_pos _ (hasColumn 0)
      ((l0 :: rest).map (fun l => (false, l))) [(true, ([] : List cell))] hall
    simpa [hlast] using this
  rw [htake, hdrop]
  obtain ⟨fuel1, rfl⟩ : ∃ k, fuel = k + 1 := ⟨fuel - 1, by omega⟩
  have hblock := format_block cfg n (fuel1 + 1)
    [blockWidth cfg 0 ((false, l0) :: rest.map (fun l => (false, l)))]
    ((false, l0) :: rest.map (fun l => (false, l))) (by omega) (by simp) (by
      intro l hl
      have hl' : l ∈ (l0 :: rest).map (fun l => (false, l)) := by simpa using hl
      obtain ⟨x, hx, rfl⟩ := List.mem_map.mp hl'
      simp [hlen x hx]
      omega)
  have hend : format cfg (fuel1 + 1) [] [(true, ([] : List cell))] = [Chunk.write [] []] := by
    simp [format, hasColumn, writeLines, writeCells]
  simp only [List.nil_append]
  rw [hblock, hend]
  simp [colWidths]

/-! ### Performing the writes -/

theorem noCrash_nil : noCrash [] := by
  intro c hc; simp at hc

theorem noCrash_append {a b : List Chunk} (ha : noCrash a) (hb : noCrash b) : noCrash (a ++ b) := by
  intro c hc
  rcases List.mem_append.mp hc with h | h
  · exact ha c h
  · exact hb c h

theorem noCrash_cons_write (widths : List Nat) (text : List Char) {rest : List Chunk}
    (h : noCrash rest) : noCrash (Chunk.write widths text :: rest) := by
  intro c hc
  rcases List.mem_cons.mp hc with h1 | h1
  · subst h1; intro ws; simp
  · exact h c h1

theorem chunkText_append (a b : List Chunk) : chunkText (a ++ b) = chunkText a ++ chunkText b := by
  induction a with
  | nil => rfl
  | cons c rest ih =>
      cases c with
      | write ws t => simp [chunkText, ih]
      | crash ws => simp [chunkText, ih]

/-- On a writer whose writes succeed, steps without a panic all go through:
the text is appended and no failure is counted. -/
theorem emit_of_reliable (chunks : List Chunk) :
    ∀ w : Sink, w.reliable → noCrash chunks →
      (emit w chunks).2 = none ∧
      (emit w chunks).1.data = w.data ++ String.mk (chunkText chunks) ∧
      (emit w chunks).1.failed = w.failed := by
  induction chunks with
  | nil =>
      intro w _ _
      refine ⟨rfl, ?_, rfl⟩
      apply String.ext
      simp [emit, chunkText]
  | cons c rest ih =>
      intro w hw hnc
      cases c with
      | crash ws => exact absurd rfl (hnc _ (List.mem_cons_self _ _) ws)
      | write ws text =>
          obtain ⟨h1, h2, h3, h4⟩ := Sink.Write_of_reliable w (String.mk text) hw
          have hrest : noCrash rest := fun c hc => hnc c (List.mem_cons_of_mem _ hc)
          have hstep : emit w (Chunk.write ws text :: rest) =
              emit (w.Write (String.mk text)).1 rest := by
            rw [emit]
            split
            · rename_i w1 heq; rw [heq]
            · rename_i w1 err heq
              rw [heq] at h1
              simp at h1
          rw [hstep]
          obtain ⟨i1, i2, i3⟩ := ih _ h3 hrest
          refine ⟨i1, ?_, by rw [i3, h4]⟩
          rw [i2, h2]
          apply String.ext
          simp [chunkText]

/-- Steps without a panic end without an error exactly when no write failed,
and a failed write is returned as an error. -/
theorem emit_failed (chunks : List Chunk) :
    ∀ w : Sink, noCrash chunks →
      ((emit w chunks).2 = none ∧ (emit w chunks).1.failed = w.failed) ∨
      (∃ ws err, (emit w chunks).2 = some (ws, Fail.error err)) := by
  induction chunks with
  | nil => intro w _; exact Or.inl ⟨rfl, rfl⟩
  | cons c rest ih =>
      intro w hnc
      cases c with
      | crash ws => exact absurd rfl (hnc _ (List.mem_cons_self _ _) ws)
      | write ws text =>
          have hrest : noCrash rest := fun c hc => hnc c (List.mem_cons_of_mem _ hc)
          have hf := Sink.Write_failed w (String.mk text)
          rw [emit]
          split
          · rename_i w1 heq
            rw [heq] at hf
            simp only [if_true, Nat.add_zero] at hf
            rcases ih w1 hrest with ⟨i1, i2⟩ | h
            · exact Or.inl ⟨i1, by rw [i2, hf]⟩
            · exact Or.inr h
          · rename_i w1 err heq
            exact Or.inr ⟨ws, err, rfl⟩

/-! ### The formatter does not panic on the widths it computes -/

theorem writeN_noCrash (widths : List Nat) (c : Char) (n : Nat) : noCrash (writeN widths c n) := by
  intro x hx ws
  unfold writeN at hx
  rcases List.mem_append.mp hx with h | h
  · rw [List.eq_of_mem_replicate h]; simp
  · rw [List.mem_singleton.mp h]; simp

theorem chunkText_replicate (widths : List Nat) (text : List Char) (k : Nat) :
    chunkText (List.replicate k (Chunk.write widths text)) = (List.replicate k text).flatten := by
  induction k with
  | zero => rfl
  | succ k ih => simp [List.replicate_succ, chunkText, ih]

theorem chunkText_writeN (widths : List Nat) (c : Char) (n : Nat) :
    chunkText (writeN widths c n) = List.replicate n c := by
  unfold writeN
  rw [chunkText_append, chunkText_replicate]
  simp only [chunkText, List.append_nil]
  have hflat : ∀ k : Nat, (List.replicate k (List.replicate 8 c)).flatten =
      List.replicate (8 * k) c := by
    intro k
    induction k with
    | zero => rfl
    | succ k ih =>
        rw [List.replicate_succ, List.flatten_cons, ih, ← List.replicate_add]
        congr 1
        omega
  rw [hflat, ← List.replicate_add]
  congr 1
  omega

theorem roundUp_ge (cellw tabwidth : Nat) (h : tabwidth ≠ 0) :
    cellw ≤ (cellw + tabwidth - 1) / tabwidth * tabwidth := by
  have hpos : 0 < tabwidth := Nat.pos_of_ne_zero h
  have h1 := Nat.div_add_mod (cellw + tabwidth - 1) tabwidth
  have h2 := Nat.mod_lt (cellw + tabwidth - 1) hpos
  have h3 : (cellw + tabwidth - 1) / tabwidth * tabwidth =
      tabwidth * ((cellw + tabwidth - 1) / tabwidth) := Nat.mul_comm _ _
  omega

theorem writePadding_noCrash (cfg : Config) (widths : List Nat) (textw cellw : Nat)
    (useTabs : Bool) (h : textw ≤ cellw) : noCrash (writePadding cfg widths textw cellw useTabs) := by
  unfold writePadding
  split
  · split
    · exact noCrash_nil
    · rename_i htw
      have := roundUp_ge cellw cfg.tabwidth htw
      simp only []
      rw [if_neg (by omega)]
      exact writeN_noCrash _ _ _
  · rw [if_neg (by omega)]
    exact writeN_noCrash _ _ _

theorem writeCells_noCrash (cfg : Config) (widths : List Nat) (cells : List cell) :
    ∀ (j : Nat) (useTabs : Bool),
      (∀ i c, cells[i]? = some c → j + i < widths.length → c.width ≤ widths.getD (j + i) 0) →
      noCrash (writeCells cfg widths j useTabs cells) := by
  induction cells with
  | nil => intro j useTabs _; exact noCrash_nil
  | cons c cs ih =>
      intro j useTabs h
      have hpad : ∀ u, noCrash (if j < widths.length
          then writePadding cfg widths c.width (widths.getD j 0) u else []) := by
        intro u
        split
        · rename_i hj
          exact writePadding_noCrash cfg widths _ _ u (by simpa using h 0 c (by simp) (by simpa using hj))
        · exact noCrash_nil
      have htail : ∀ u, noCrash (writeCells cfg widths (j + 1) u cs) := by
        intro u
        apply ih
        intro i c' hc' hlt
        have := h (i + 1) c' (by simpa using hc') (by omega)
        rw [show j + 1 + i = j + (i + 1) by omega]
        exact this
      rw [writeCells]
      split
      · exact noCrash_append (hpad _) (htail _)
      · exact noCrash_cons_write _ _ (noCrash_append (hpad _) (htail _))

theorem writeLines_noCrash (cfg : Config) (widths : List Nat) (lines : List (Bool × List cell))
    (h : ∀ l ∈ lines, ∀ i c, l.2[i]? = some c → i < widths.length → c.width ≤ widths.getD i 0) :
    noCrash (writeLines cfg widths lines) := by
  induction lines with
  | nil => exact noCrash_nil
  | cons l rest ih =>
      obtain ⟨last, line⟩ := l
      rw [writeLines]
      apply noCrash_append
      · apply writeCells_noCrash
        intro i c hc hlt
        have := h (last, line) (List.mem_cons_self _ _) i c hc (by omega)
        simpa using this
      · exact noCrash_cons_write _ _ (ih (fun l hl => h l (List.mem_cons_of_mem _ hl)))

theorem foldl_max_ge {α : Type} (f : α → Nat) (xs : List α) :
    ∀ a : Nat, a ≤ xs.foldl (fun w x => max w (f x)) a ∧
      ∀ x ∈ xs, f x ≤ xs.foldl (fun w x => max w (f x)) a := by
  induction xs with
  | nil => intro a; exact ⟨le_refl _, fun x hx => by simp at hx⟩
  | cons y ys ih =>
      intro a
      obtain ⟨h1, h2⟩ := ih (max a (f y))
      refine ⟨le_trans (le_max_left _ _) h1, fun x hx => ?_⟩
      rcases List.mem_cons.mp hx with h | h
      · subst h; exact le_trans (le_max_right _ _) h1
      · exact h2 x h

theorem blockWidth_ge (cfg : Config) (column : Nat) (block : List (Bool × List cell))
    (l : Bool × List cell) (hl : l ∈ block) :
    (l.2.getD column ⟨[], false⟩).width + cfg.padding ≤ blockWidth cfg column block :=
  (foldl_max_ge (fun line : Bool × List cell =>
    (line.2.getD column ⟨[], false⟩).width + cfg.padding) block cfg.minwidth).2 l hl

theorem colWidths_length (cfg : Config) (block : List (Bool × List cell)) (m : Nat) :
    ∀ start, (colWidths cfg block start m).length = m := by
  induction m with
  | zero => intro start; rfl
  | succ m ih => intro start; simp [colWidths, ih]

theorem colWidths_getD (cfg : Config) (block : List (Bool × List cell)) (m : Nat) :
    ∀ start i, i < m →
      (colWidths cfg block start m).getD i 0 = blockWidth cfg (start + i) block := by
  induction m with
  | zero => intro start i hi; omega
  | succ m ih =>
      intro start i hi
      cases i with
      | zero => simp [colWidths]
      | succ i =>
          simp only [colWidths, List.getD_cons_succ]
          rw [ih (start + 1) i (by omega)]
          congr 1
          omega

/-- The lines of a block are printed without a panic under the widths of the
columns of that block. -/
theorem writeLines_colWidths_noCrash (cfg : Config) (block : List (Bool × List cell)) (m : Nat) :
    noCrash (writeLines cfg (colWidths cfg block 0 m) block) := by
  apply writeLines_noCrash
  intro l hl i c hc hlt
  rw [colWidths_length] at hlt
  rw [colWidths_getD cfg block m 0 i hlt, Nat.zero_add]
  have hge := blockWidth_ge cfg i block l hl
  have hget : l.2.getD i ⟨[], false⟩ = c := by
    simp [List.getD, hc]
  rw [hget] at hge
  omega

end tabwriter

/-! ### Flushing the buffered table -/

theorem tabwriter.Writer.Flush_table (b : tabwriter.Writer) (n : Nat)
    (rows : List (List tabwriter.cell)) (hne : rows ≠ [])
    (hlen : ∀ l ∈ rows, l.length = n + 2)
    (hcell : b.cell = []) (hwidths : b.widths = []) (hlines : b.lines = rows ++ [[]]) :
    b.Flush =
      ({ b with output := (tabwriter.emit b.output
            (tabwriter.writeLines b.cfg
              (tabwriter.colWidths b.cfg (rows.map fun l => (false, l)) 0 (n + 1))
              (rows.map fun l => (false, l)) ++ [tabwriter.Chunk.write [] []])).1 }.reset,
        (tabwriter.emit b.output
            (tabwriter.writeLines b.cfg
              (tabwriter.colWidths b.cfg (rows.map fun l => (false, l)) 0 (n + 1))
              (rows.map fun l => (false, l)) ++ [tabwriter.Chunk.write [] []])).2.map Prod.snd) := by
  have hfmt := tabwriter.format_table b.cfg n rows hne hlen
  unfold tabwriter.Writer.Flush tabwriter.Writer.flushNoDefers
  simp only [hcell, ne_eq, not_true_eq_false, if_false, hwidths, hlines, hfmt]
  cases hemit : tabwriter.emit b.output
      (tabwriter.writeLines b.cfg
        (tabwriter.colWidths b.cfg (rows.map fun l => (false, l)) 0 (n + 1))
        (rows.map fun l => (false, l)) ++ [tabwriter.Chunk.write [] []]) with
  | mk out r =>
      cases r with
      | none => rfl
      | some wf =>
          obtain ⟨ws, f⟩ := wf
          simp [tabwriter.Writer.reset]

theorem tableChunks_noCrash (ext : Extern) (p : Params) (allNamespaces : Bool)
    (items : List TriggerBinding) : tabwriter.noCrash (tableChunks ext p allNamespaces items) := by
  unfold tableChunks
  apply tabwriter.noCrash_append
  · exact tabwriter.writeLines_colWidths_noCrash _ _ _
  · exact tabwriter.noCrash_cons_write _ _ tabwriter.noCrash_nil

/-- On a non-empty list of items whose fields hold no tab and no line break,
`printFormatted` performs the writes of the final flush on the output stream
and returns the error of the first that fails. -/
theorem printFormatted_regular (ext : Extern) (s : Stream) (tbs : TriggerBindingList)
    (p : Params) (allNamespaces : Bool) (hne : tbs.Items ≠ [])
    (hreg : regular ext p allNamespaces tbs.Items) :
    printFormatted ext s tbs p allNamespaces =
      ({ s with Out := (tabwriter.emit s.Out (tableChunks ext p allNamespaces tbs.Items)).1 },
        (tabwriter.emit s.Out (tableChunks ext p allNamespaces tbs.Items)).2.map Prod.snd) := by
  have hlen0 : tbs.Items.length ≠ 0 := by
    intro h; exact hne (List.length_eq_zero.mp h)
  unfold printFormatted
  rw [if_neg hlen0, printTable_regular ext s.Out tbs.Items p allNamespaces hreg]
  simp only []
  have hflush := tabwriter.Writer.Flush_table
    { output := s.Out, cfg := ⟨0, 5, 3, ' ', true⟩, cell := [],
      lines := headerCells allNamespaces :: tbs.Items.map (rowCells ext p allNamespaces) ++ [[]],
      widths := [],
      input := (headers allNamespaces ++ "\n") :: tbs.Items.map (rowText ext p allNamespaces) }
    (if allNamespaces then 1 else 0)
    (headerCells allNamespaces :: tbs.Items.map (rowCells ext p allNamespaces))
    (by simp)
    (by
      intro l hl
      rcases List.mem_cons.mp hl with h | h
      · subst h; cases allNamespaces <;> rfl
      · obtain ⟨tb, _, rfl⟩ := List.mem_map.mp h
        cases allNamespaces <;> rfl)
    rfl rfl rfl
  rw [hflush]
  have hn : (if allNamespaces = true then 1 else 0) + 1 = if allNamespaces = true then 2 else 1 := by
    cases allNamespaces <;> rfl
  simp only [hn, tabwriter.Writer.reset, tableChunks]

/-! ### The name-only loop when a write fails -/

/-- The name-only loop when a write fails: the failing write is the first one
scheduled to fail, say for item `k`; its error is returned, the lines of the
items before `k` were written in full, of line `k` the part the writer
accepted, and no write was made for a later item. -/
theorem printNames_failure (items : List TriggerBinding) :
    ∀ w : Sink, (printNames w items).1.failed ≠ w.failed →
      ∃ k f, k < items.length ∧ w.faults[k]? = some (some f) ∧
        (∀ i, i < k → w.faults[i]? = some none) ∧
        (printNames w items).2 = some f.err ∧
        (printNames w items).1.requests = w.requests + (k + 1) ∧
        (printNames w items).1.data =
          w.data ++ String.join (nameLines (items.take k)) ++
            String.mk ((String.join (nameLines ((items.drop k).take 1))).data.take f.accepted) := by
  induction items with
  | nil => intro w h; exact absurd rfl h
  | cons pr rest ih =>
      intro w h
      cases hf : w.faults with
      | nil =>
          have hw : w.Write ("triggerbinding.triggers.tekton.dev/" ++ pr.Name ++ "\n") =
              ({ w with data := w.data ++ ("triggerbinding.triggers.tekton.dev/" ++ pr.Name ++ "\n"),
                        requests := w.requests + 1 }, none) := by
            simp [Sink.Write, hf]
          rw [printNames, hw] at h
          simp only [] at h
          obtain ⟨k, f, _, hk, _⟩ := ih _ h
          simp [hf] at hk
      | cons o fs =>
          cases o with
          | none =>
              have hw : w.Write ("triggerbinding.triggers.tekton.dev/" ++ pr.Name ++ "\n") =
                  ({ w with data := w.data ++
                              ("triggerbinding.triggers.tekton.dev/" ++ pr.Name ++ "\n"),
                            faults := fs, requests := w.requests + 1 }, none) := by
                simp [Sink.Write, hf]
              rw [printNames, hw] at h
              simp only [] at h
              obtain ⟨k, f, hk, hfault, hbefore, herr, hreq, hdata⟩ := ih _ h
              refine ⟨k + 1, f, by simpa using hk, by simpa using hfault, ?_, ?_, ?_, ?_⟩
              · intro i hi
                cases i with
                | zero => simp
                | succ i => simpa using hbefore i (by omega)
              · rw [printNames, hw]; exact herr
              · rw [printNames, hw]; simp only []; rw [hreq]; simp only []; omega
              · rw [printNames, hw]; simp only []; rw [hdata]
                simp only [List.take_succ_cons, List.drop_succ_cons, nameLines, List.map_cons,
                  join_cons_eq, String.append_assoc]
          | some f =>
              have hw : w.Write ("triggerbinding.triggers.tekton.dev/" ++ pr.Name ++ "\n") =
                  ({ data := w.data ++ String.mk
                        (("triggerbinding.triggers.tekton.dev/" ++ pr.Name ++ "\n").data.take
                          f.accepted),
                     faults := fs, requests := w.requests + 1, failed := w.failed + 1 },
                    some f.err) := by
                simp [Sink.Write, hf]
              refine ⟨0, f, by simp, by simp, fun i hi => by omega, ?_, ?_, ?_⟩
              · rw [printNames, hw]
              · rw [printNames, hw]
              · rw [printNames, hw]
                simp [nameLines, String.join]

/-! ### C10: column alignment -/

theorem foldl_max_add {α : Type} (f : α → Nat) (k : Nat) (xs : List α) :
    ∀ a : Nat, xs.foldl (fun w x => max w (f x + k)) (a + k) =
      xs.foldl (fun w x => max w (f x)) a + k := by
  induction xs with
  | nil => intro a; rfl
  | cons x xs ih =>
      intro a
      simp only [List.foldl_cons]
      rw [← ih (max a (f x))]
      congr 1
      omega

theorem foldl_max_add_zero {α : Type} (f : α → Nat) (k : Nat) (xs : List α) (hne : xs ≠ []) :
    xs.foldl (fun w x => max w (f x + k)) 0 = xs.foldl (fun w x => max w (f x)) 0 + k := by
  cases xs with
  | nil => exact absurd rfl hne
  | cons x xs =>
      simp only [List.foldl_cons]
      rw [← foldl_max_add f k xs (max 0 (f x))]
      congr 1
      omega

theorem width_headerCells (allNamespaces : Bool) (j : Nat) :
    ((headerCells allNamespaces).getD j ⟨[], false⟩).width =
      ((headerStrings allNamespaces).getD j "").length := by
  cases allNamespaces
  · rcases j with _ | _ | j <;> rfl
  · rcases j with _ | _ | _ | j <;> rfl

theorem width_rowCells (ext : Extern) (p : Params) (allNamespaces : Bool) (tb : TriggerBinding)
    (j : Nat) :
    ((rowCells ext p allNamespaces tb).getD j ⟨[], false⟩).width =
      ((rowStrings ext p allNamespaces tb).getD j "").length := by
  cases allNamespaces
  · rcases j with _ | _ | j <;> rfl
  · rcases j with _ | _ | _ | j <;> rfl

/-- The width the formatter gives a column of the buffered table is the width
of the claim: longest cell plus 3. -/
theorem blockWidth_eq_columnWidth (ext : Extern) (p : Params) (allNamespaces : Bool)
    (items : List TriggerBinding) (j : Nat) :
    tabwriter.blockWidth ⟨0, 5, 3, ' ', true⟩ j
        ((headerCells allNamespaces :: items.map (rowCells ext p allNamespaces)).map
          fun l => (false, l)) =
      columnWidth (headerStrings allNamespaces :: items.map (rowStrings ext p allNamespaces)) j := by
  unfold tabwriter.blockWidth columnWidth
  rw [List.foldl_map, List.foldl_map]
  simp only []
  rw [foldl_max_add_zero (fun l : List tabwriter.cell => (l.getD j ⟨[], false⟩).width) 3 _
    (by simp)]
  congr 1
  simp only [List.foldl_cons, List.foldl_map, width_headerCells, width_rowCells]

theorem chunkText_writeLines (cfg : tabwriter.Config) (widths : List Nat)
    (lines : List (List tabwriter.cell)) :
    tabwriter.chunkText (tabwriter.writeLines cfg widths (lines.map fun l => (false, l))) =
      (lines.map fun l =>
        tabwriter.chunkText (tabwriter.writeCells cfg widths 0 cfg.tabIndent l) ++ ['\n']).flatten := by
  induction lines with
  | nil => rfl
  | cons l rest ih =>
      simp only [List.map_cons, tabwriter.writeLines, tabwriter.chunkText_append,
        tabwriter.chunkText, List.flatten_cons, ih]
      simp

theorem data_ne_nil {a : String} (h : a ≠ "") : a.data ≠ [] := by
  intro hd
  apply h
  apply String.ext
  simpa using hd

theorem chunkText_writePadding (widths : List Nat) (textw cellw : Nat) (h : textw ≤ cellw) :
    tabwriter.chunkText (tabwriter.writePadding ⟨0, 5, 3, ' ', true⟩ widths textw cellw false) =
      List.replicate (cellw - textw) ' ' := by
  unfold tabwriter.writePadding
  rw [if_neg (by decide), if_neg (by omega), tabwriter.chunkText_writeN]

theorem chunkText_writeCells (widths : List Nat) (cells : List tabwriter.cell) :
    ∀ j : Nat,
      (∀ i c, cells[i]? = some c → j + i < widths.length → c.width ≤ widths.getD (j + i) 0) →
      tabwriter.chunkText (tabwriter.writeCells ⟨0, 5, 3, ' ', true⟩ widths j false cells) =
        paddedCells widths j cells := by
  induction cells with
  | nil => intro j _; rfl
  | cons c cs ih =>
      intro j h
      have htail := ih (j + 1) (by
        intro i c' hc' hlt
        have := h (i + 1) c' (by simpa using hc') (by omega)
        rw [show j + 1 + i = j + (i + 1) by omega]
        exact this)
      have hpad : tabwriter.chunkText (if j < widths.length
          then tabwriter.writePadding ⟨0, 5, 3, ' ', true⟩ widths c.width (widths.getD j 0) false
          else []) =
          (if j < widths.length then List.replicate (widths.getD j 0 - c.width) ' ' else []) := by
        split
        · rename_i hj
          exact chunkText_writePadding widths _ _
            (by simpa using h 0 c (by simp) (by simpa using hj))
        · rfl
      rw [tabwriter.writeCells, paddedCells]
      split
      · rename_i hempty
        rw [tabwriter.chunkText_append, hpad, htail, hempty]
        simp
      · rw [tabwriter.chunkText, tabwriter.chunkText_append, hpad, htail]
        simp

theorem writeCells_first (cfg : tabwriter.Config) (widths : List Nat) (j : Nat)
    (c : tabwriter.cell) (cs : List tabwriter.cell) (hc : c.text ≠ []) :
    tabwriter.writeCells cfg widths j true (c :: cs) =
      tabwriter.writeCells cfg widths j false (c :: cs) := by
  rw [tabwriter.writeCells, tabwriter.writeCells, if_neg hc, if_neg hc]

/-- A buffered line of two cells whose first cell is not empty, as the
formatter prints it under a width that fits. -/
theorem chunkText_line2 (a b : String) (w0 : Nat) (ha : a ≠ "") (hw : a.length ≤ w0) :
    tabwriter.chunkText (tabwriter.writeCells ⟨0, 5, 3, ' ', true⟩ [w0] 0 true
        [⟨a.data, true⟩, ⟨b.data, false⟩]) ++ ['\n'] =
      (padRight a w0 ++ (b ++ "\n")).data := by
  have hlen : a.data.length ≤ w0 := hw
  rw [writeCells_first _ _ _ _ _ (data_ne_nil ha), chunkText_writeCells [w0] _ 0 (by
    intro i c hc hlt
    have hi : i = 0 := by simpa using hlt
    subst hi
    simp only [List.getElem?_cons_zero, Option.some.injEq] at hc
    subst hc
    simpa [tabwriter.cell.width] using hlen)]
  have hnl : "\n".data = ['\n'] := rfl
  simp only [paddedCells, padRight, tabwriter.cell.width, String.length, String.data_append, hnl,
    List.length_cons, List.length_nil, List.getD_cons_zero, Nat.lt_irrefl, if_false,
    Nat.zero_lt_succ, if_true, List.append_nil, List.append_assoc, Nat.zero_add]

/-- A buffered line of three cells whose first cell is not empty, as the
formatter prints it under widths that fit. -/
theorem chunkText_line3 (a b c : String) (w0 w1 : Nat) (ha : a ≠ "") (hw0 : a.length ≤ w0)
    (hw1 : b.length ≤ w1) :
    tabwriter.chunkText (tabwriter.writeCells ⟨0, 5, 3, ' ', true⟩ [w0, w1] 0 true
        [⟨a.data, true⟩, ⟨b.data, true⟩, ⟨c.data, false⟩]) ++ ['\n'] =
      (padRight a w0 ++ (padRight b w1 ++ (c ++ "\n"))).data := by
  have hlen0 : a.data.length ≤ w0 := hw0
  have hlen1 : b.data.length ≤ w1 := hw1
  rw [writeCells_first _ _ _ _ _ (data_ne_nil ha), chunkText_writeCells [w0, w1] _ 0 (by
    intro i x hx hlt
    rcases i with _ | _ | i
    · simp only [List.getElem?_cons_zero, Option.some.injEq] at hx
      subst hx
      simpa [tabwriter.cell.width] using hlen0
    · simp only [List.getElem?_cons_succ, List.getElem?_cons_zero, Option.some.injEq] at hx
      subst hx
      simpa [tabwriter.cell.width] using hlen1
    · simp only [List.length_cons, List.length_nil] at hlt
      omega)]
  have hnl : "\n".data = ['\n'] := rfl
  simp only [paddedCells, padRight, tabwriter.cell.width, String.length, String.data_append, hnl,
    List.length_cons, List.length_nil, List.getD_cons_zero, List.getD_cons_succ, Nat.lt_irrefl,
    if_false, Nat.zero_lt_succ, if_true, List.append_nil, List.append_assoc, Nat.zero_add,
    Nat.lt_add_one, Nat.reduceAdd, Nat.reduceLT]

theorem columnWidth_ge (table : List (List String)) (line : List String) (hl : line ∈ table)
    (j : Nat) : (line.getD j "").length ≤ columnWidth table j := by
  unfold columnWidth
  rw [List.foldl_map]
  have := (tabwriter.foldl_max_ge (fun l : List String => (l.getD j "").length) table 0).2 line hl
  omega

/-- The text of the final flush is the aligned table, when the first cell of
every row is not empty. -/
theorem tableChunks_text (ext : Extern) (p : Params) (allNamespaces : Bool)
    (items : List TriggerBinding)
    (hfirst : ∀ tb ∈ items, (if allNamespaces then tb.Namespace else tb.Name) ≠ "") :
    tabwriter.chunkText (tableChunks ext p allNamespaces items) =
      (aligned (headerStrings allNamespaces :: items.map (rowStrings ext p allNamespaces))).data := by
  have hw := blockWidth_eq_columnWidth ext p allNamespaces items
  have hge := columnWidth_ge
    (headerStrings allNamespaces :: items.map (rowStrings ext p allNamespaces))
  have hcw : tabwriter.colWidths ⟨0, 5, 3, ' ', true⟩
      ((headerCells allNamespaces :: items.map (rowCells ext p allNamespaces)).map
        fun l => (false, l)) 0 (if allNamespaces then 2 else 1) =
      if allNamespaces then
        [columnWidth (headerStrings allNamespaces :: items.map (rowStrings ext p allNamespaces)) 0,
         columnWidth (headerStrings allNamespaces :: items.map (rowStrings ext p allNamespaces)) 1]
      else
        [columnWidth (headerStrings allNamespaces :: items.map (rowStrings ext p allNamespaces)) 0] := by
    cases allNamespaces
    · simp only [Bool.false_eq_true, if_false, tabwriter.colWidths, hw, Nat.zero_add]
    · simp only [if_true, tabwriter.colWidths, hw, Nat.zero_add]
  unfold tableChunks aligned
  rw [hcw, tabwriter.chunkText_append, chunkText_writeLines, String.data_join]
  simp only [tabwriter.chunkText, List.append_nil]
  congr 1
  rw [List.map_map, List.map_cons, List.map_cons, List.map_map, List.map_map]
  cases allNamespaces
  · congr 1
    · exact chunkText_line2 "NAME" "AGE" _ (by decide)
        (by simpa [headerStrings] using hge (headerStrings false) (List.mem_cons_self _ _) 0)
    · apply List.map_congr_left
      intro tb htb
      have hrow : rowStrings ext p false tb ∈
          headerStrings false :: items.map (rowStrings ext p false) :=
        List.mem_cons_of_mem _ (List.mem_map_of_mem _ htb)
      exact chunkText_line2 tb.Name (ext.Age tb.CreationTimestamp p.Time) _
        (by simpa using hfirst tb htb) (by simpa [rowStrings] using hge _ hrow 0)
  · congr 1
    · exact chunkText_line3 "NAMESPACE" "NAME" "AGE" _ _ (by decide)
        (by simpa [headerStrings] using hge (headerStrings true) (List.mem_cons_self _ _) 0)
        (by simpa [headerStrings] using hge (headerStrings true) (List.mem_cons_self _ _) 1)
    · apply List.map_congr_left
      intro tb htb
      have hrow : rowStrings ext p true tb ∈
          headerStrings true :: items.map (rowStrings ext p true) :=
        List.mem_cons_of_mem _ (List.mem_map_of_mem _ htb)
      exact chunkText_line3 tb.Namespace tb.Name (ext.Age tb.CreationTimestamp p.Time) _ _
        (by simpa using hfirst tb htb) (by simpa [rowStrings] using hge _ hrow 0)
        (by simpa [rowStrings] using hge _ hrow 1)

/-- C10 as stated fails for an item whose first cell is empty: the writer is
created with `TabIndent`, so the empty namespace cell of the row is filled with
tabs, not with spaces. -/
theorem printFormatted_empty_namespace_tabs :
    (printFormatted exampleExtern ⟨Sink.fresh, Sink.fresh⟩ ⟨"", "", [⟨"binding-a", "", 2800⟩]⟩
        (exampleParams []) true).1.Out.data =
      "NAMESPACE   NAME        AGE\n\t\t\tbinding-a   2h\n" ∧
    aligned (headerStrings true ::
        [⟨"binding-a", "", 2800⟩].map (rowStrings exampleExtern (exampleParams []) true)) =
      "NAMESPACE   NAME        AGE\n            binding-a   2h\n" ∧
    (printFormatted exampleExtern ⟨Sink.fresh, Sink.fresh⟩ ⟨"", "", [⟨"binding-a", "", 2800⟩]⟩
        (exampleParams []) true).1.Out.data ≠
      aligned (headerStrings true ::
        [⟨"binding-a", "", 2800⟩].map (rowStrings exampleExtern (exampleParams []) true)) := by
  have h1 : (printFormatted exampleExtern ⟨Sink.fresh, Sink.fresh⟩
      ⟨"", "", [⟨"binding-a", "", 2800⟩]⟩ (exampleParams []) true).1.Out.data =
      "NAMESPACE   NAME        AGE\n\t\t\tbinding-a   2h\n" := by rfl
  have h2 : aligned (headerStrings true ::
      [⟨"binding-a", "", 2800⟩].map (rowStrings exampleExtern (exampleParams []) true)) =
      "NAMESPACE   NAME        AGE\n            binding-a   2h\n" := by rfl
  refine ⟨h1, h2, ?_⟩
  rw [h1, h2]
  decide

/-- C10, amended. For a non-empty list whose items have a non-empty first cell
(the namespace when `allNamespaces` is set, the name otherwise) and whose name,
age and shown namespace hold no tab, vertical tab, newline or form feed, and an
output stream whose writes succeed: `printFormatted` returns `nil`, leaves the
error stream untouched, and appends to the output stream the aligned table, in
which every cell but the last of its line is padded on the right with spaces to
the length of the longest cell of its column, header included, plus 3, and the
last cell of each line is followed by a newline. -/
theorem printFormatted_aligned (ext : Extern) (s : Stream) (tbs : TriggerBindingList)
    (p : Params) (allNamespaces : Bool) (hne : tbs.Items ≠ [])
    (hreg : regular ext p allNamespaces tbs.Items)
    (hfirst : ∀ tb ∈ tbs.Items, (if allNamespaces then tb.Namespace else tb.Name) ≠ "")
    (hout : s.Out.reliable) :
    (printFormatted ext s tbs p allNamespaces).2 = none ∧
    (printFormatted ext s tbs p allNamespaces).1.Err = s.Err ∧
    (printFormatted ext s tbs p allNamespaces).1.Out.data =
      s.Out.data ++
        aligned (headerStrings allNamespaces :: tbs.Items.map (rowStrings ext p allNamespaces)) := by
  rw [printFormatted_regular ext s tbs p allNamespaces hne hreg]
  obtain ⟨h1, h2, _⟩ := tabwriter.emit_of_reliable (tableChunks ext p allNamespaces tbs.Items)
    s.Out hout (tableChunks_noCrash ext p allNamespaces tbs.Items)
  refine ⟨by rw [h1]; rfl, rfl, ?_⟩
  simp only []
  rw [h2, tableChunks_text ext p allNamespaces tbs.Items hfirst]

/-- C10, amended, on the worked example: items `binding-a` and `binding-b` with
ages `2h` and `10m`, without the namespace column. -/
theorem printFormatted_aligned_witness :
    ((printFormatted exampleExtern ⟨Sink.fresh, Sink.fresh⟩ ⟨"", "", exampleItems⟩
        (exampleParams exampleItems) false).2 = none ∧
      (printFormatted exampleExtern ⟨Sink.fresh, Sink.fresh⟩ ⟨"", "", exampleItems⟩
        (exampleParams exampleItems) false).1.Err = Sink.fresh ∧
      (printFormatted exampleExtern ⟨Sink.fresh, Sink.fresh⟩ ⟨"", "", exampleItems⟩
        (exampleParams exampleItems) false).1.Out.data =
        Sink.fresh.data ++ aligned (headerStrings false ::
          exampleItems.map (rowStrings exampleExtern (exampleParams exampleItems) false))) ∧
    Sink.fresh.data ++ aligned (headerStrings false ::
        exampleItems.map (rowStrings exampleExtern (exampleParams exampleItems) false)) =
      "NAME        AGE\nbinding-a   2h\nbinding-b   10m\n" :=
  ⟨printFormatted_aligned exampleExtern ⟨Sink.fresh, Sink.fresh⟩ ⟨"", "", exampleItems⟩
      (exampleParams exampleItems) false (by decide) (by decide) (by decide) (by decide),
    by rfl⟩

/-! ### On an output stream whose writes succeed the table is printed without panic -/

namespace tabwriter

theorem le_maxCells (ls : List (Bool × List cell)) (l : Bool × List cell) (hl : l ∈ ls) :
    l.2.length ≤ maxCells ls := by
  unfold maxCells
  induction ls with
  | nil => simp at hl
  | cons a b ih =>
      simp only [List.map_cons, List.foldr_cons]
      rcases List.mem_cons.mp hl with h | h
      · subst h; exact le_max_left _ _
      · exact le_trans (ih h) (le_max_right _ _)

theorem maxCells_le (ls : List (Bool × List cell)) (bound : Nat)
    (h : ∀ l ∈ ls, l.2.length ≤ bound) : maxCells ls ≤ bound := by
  unfold maxCells
  induction ls with
  | nil => simp
  | cons a b ih =>
      simp only [List.map_cons, List.foldr_cons]
      exact max_le (h a (List.mem_cons_self _ _)) (ih (fun l hl => h l (List.mem_cons_of_mem _ hl)))

theorem maxCells_mono (ls ls' : List (Bool × List cell)) (h : ∀ l ∈ ls', l ∈ ls) :
    maxCells ls' ≤ maxCells ls :=
  maxCells_le ls' _ (fun l hl => le_maxCells ls l (h l hl))

theorem getD_append_left (widths : List Nat) (w i : Nat) (hi : i < widths.length) :
    (widths ++ [w]).getD i 0 = widths.getD i 0 := by
  simp [List.getD, List.getElem?_append_left hi]

theorem getD_append_self (widths : List Nat) (w : Nat) :
    (widths ++ [w]).getD widths.length 0 = w := by
  simp [List.getD]

/-- The formatter neither runs out of fuel nor asks for negative padding, when
the fuel covers the lines and the columns still to come and every cell that
already has a width fits it. -/
theorem format_noCrash (cfg : Config) :
    ∀ (fuel : Nat) (widths : List Nat) (ls : List (Bool × List cell)),
      ls.length + (maxCells ls - widths.length) + 1 ≤ fuel →
      (∀ l ∈ ls, ∀ i c, l.2[i]? = some c → i < widths.length → c.width ≤ widths.getD i 0) →
      noCrash (format cfg fuel widths ls) := by
  intro fuel
  induction fuel with
  | zero => intro widths ls h _; omega
  | succ fuel ih =>
      intro widths ls hfuel hinv
      rw [format]
      simp only []
      cases hrest : ls.dropWhile (fun l => !hasColumn widths.length l) with
      | nil => exact writeLines_noCrash cfg widths ls hinv
      | cons x xs =>
          simp only []
          have hsub : ∀ l ∈ x :: xs, l ∈ ls := by
            intro l hl
            rw [← hrest] at hl
            exact (List.dropWhile_sublist _).subset hl
          have hx : hasColumn widths.length x = true := by
            have := List.head_dropWhile_not (fun l => !hasColumn widths.length l) ls
              (by rw [hrest]; simp)
            simp only [hrest, List.head_cons] at this
            simpa using this
          have hxlen : widths.length + 1 < x.2.length := by simpa [hasColumn] using hx
          have hmaxls : widths.length + 2 ≤ maxCells ls :=
            le_trans hxlen (le_maxCells ls x (hsub x (List.mem_cons_self _ _)))
          have hlenrest : (x :: xs).length ≤ ls.length := by
            rw [← hrest]; exact (List.dropWhile_sublist _).length_le
          apply noCrash_append
          · apply noCrash_append
            · apply writeLines_noCrash
              intro l hl
              exact hinv l ((List.takeWhile_sublist _).subset hl)
            · have hblocksub : ∀ l ∈ (x :: xs).takeWhile (hasColumn widths.length), l ∈ ls :=
                fun l hl => hsub l ((List.takeWhile_sublist _).subset hl)
              apply ih
              · have h1 : ((x :: xs).takeWhile (hasColumn widths.length)).length ≤ ls.length :=
                  le_trans (List.takeWhile_sublist _).length_le hlenrest
                have h2 := maxCells_mono ls _ hblocksub
                simp only [List.length_append, List.length_singleton]
                omega
              · intro l hl i c hc hi
                simp only [List.length_append, List.length_singleton] at hi
                by_cases hlt : i < widths.length
                · rw [getD_append_left widths _ i hlt]
                  exact hinv l (hblocksub l hl) i c hc hlt
                · have hieq : i = widths.length := by omega
                  subst hieq
                  rw [getD_append_self]
                  have hge := blockWidth_ge cfg widths.length _ l hl
                  have hget : l.2.getD widths.length ⟨[], false⟩ = c := by
                    simp [List.getD, hc]
                  rw [hget] at hge
                  omega
          · have hdrop : (x :: xs).dropWhile (hasColumn widths.length) =
                xs.dropWhile (hasColumn widths.length) := by
              rw [List.dropWhile_cons_of_pos hx]
            rw [hdrop]
            have hsub2 : ∀ l ∈ xs.dropWhile (hasColumn widths.length), l ∈ ls :=
              fun l hl => hsub l (List.mem_cons_of_mem _ ((List.dropWhile_sublist _).subset hl))
            apply ih
            · have h1 : (xs.dropWhile (hasColumn widths.length)).length ≤ xs.length :=
                (List.dropWhile_sublist _).length_le
              have h2 := maxCells_mono ls _ hsub2
              simp only [List.length_cons] at hlenrest
              omega
            · intro l hl
              exact hinv l (hsub2 l hl)

theorem mark_length (lines : List (List cell)) : (mark lines).length = lines.length := by
  induction lines with
  | nil => rfl
  | cons l ls ih =>
      cases ls with
      | nil => rfl
      | cons a b => simp only [mark, List.length_cons] at ih ⊢; omega

theorem mark_snd (lines : List (List cell)) : (mark lines).map Prod.snd = lines := by
  induction lines with
  | nil => rfl
  | cons l ls ih =>
      cases ls with
      | nil => rfl
      | cons a b => simp only [mark, List.map_cons] at ih ⊢; rw [ih]

theorem maxCells_mark (lines : List (List cell)) :
    maxCells (mark lines) = (lines.map List.length).foldr max 0 := by
  unfold maxCells
  have h : (mark lines).map (fun l => l.2.length) = lines.map List.length := by
    have hcomp : (fun l : Bool × List cell => l.2.length) = List.length ∘ Prod.snd := rfl
    rw [hcomp, ← List.map_map, mark_snd]
  rw [h]

/-- A flush of the whole buffer with no widths pushed does not panic. -/
theorem format_top_noCrash (cfg : Config) (lines : List (List cell)) :
    noCrash (format cfg (fuelFor lines) [] (mark lines)) := by
  apply format_noCrash
  · rw [mark_length, maxCells_mark]
    unfold fuelFor
    simp
  · intro l _ i c _ hi
    simp at hi

/-- The two recursive calls of `format` are on smaller arguments: the block
with one more width, and the lines after the block. -/
theorem format_calls_bound (widths : List Nat) (ls : List (Bool × List cell))
    (x : Bool × List cell) (xs : List (Bool × List cell))
    (hrest : ls.dropWhile (fun l => !hasColumn widths.length l) = x :: xs) :
    ((x :: xs).takeWhile (hasColumn widths.length)).length +
        (maxCells ((x :: xs).takeWhile (hasColumn widths.length)) - (widths ++ [0]).length) + 1 ≤
      ls.length + (maxCells ls - widths.length) ∧
    ((x :: xs).dropWhile (hasColumn widths.length)).length +
        (maxCells ((x :: xs).dropWhile (hasColumn widths.length)) - widths.length) + 1 ≤
      ls.length + (maxCells ls - widths.length) := by
  have hsub : ∀ l ∈ x :: xs, l ∈ ls := by
    intro l hl
    rw [← hrest] at hl
    exact (List.dropWhile_sublist _).subset hl
  have hx : hasColumn widths.length x = true := by
    have := List.head_dropWhile_not (fun l => !hasColumn widths.length l) ls
      (by rw [hrest]; simp)
    simp only [hrest, List.head_cons] at this
    simpa using this
  have hxlen : widths.length + 1 < x.2.length := by simpa [hasColumn] using hx
  have hmaxls : widths.length + 2 ≤ maxCells ls :=
    le_trans hxlen (le_maxCells ls x (hsub x (List.mem_cons_self _ _)))
  have hlenrest : (x :: xs).length ≤ ls.length := by
    rw [← hrest]; exact (List.dropWhile_sublist _).length_le
  constructor
  · have h1 : ((x :: xs).takeWhile (hasColumn widths.length)).length ≤ ls.length :=
      le_trans (List.takeWhile_sublist _).length_le hlenrest
    have h2 := maxCells_mono ls ((x :: xs).takeWhile (hasColumn widths.length))
      (fun l hl => hsub l ((List.takeWhile_sublist _).subset hl))
    simp only [List.length_append, List.length_singleton]
    omega
  · rw [List.dropWhile_cons_of_pos hx]
    have h1 : (xs.dropWhile (hasColumn widths.length)).length ≤ xs.length :=
      (List.dropWhile_sublist _).length_le
    have h2 := maxCells_mono ls (xs.dropWhile (hasColumn widths.length))
      (fun l hl => hsub l (List.mem_cons_of_mem _ ((List.dropWhile_sublist _).subset hl)))
    simp only [List.length_cons] at hlenrest
    omega

/-- Fuel beyond the number of lines plus the number of columns still to come
does not change what `format` does: the bound on the recursion is never the
reason to stop. -/
theorem format_fuel (cfg : Config) :
    ∀ (fuel : Nat) (widths : List Nat) (ls : List (Bool × List cell)),
      ls.length + (maxCells ls - widths.length) + 1 ≤ fuel →
      format cfg (fuel + 1) widths ls = format cfg fuel widths ls := by
  intro fuel
  induction fuel with
  | zero => intro widths ls h; omega
  | succ fuel ih =>
      intro widths ls hfuel
      rw [format]
      conv_rhs => rw [format]
      simp only []
      cases hrest : ls.dropWhile (fun l => !hasColumn widths.length l) with
      | nil => rfl
      | cons x xs =>
          simp only []
          obtain ⟨hb1, hb2⟩ := format_calls_bound widths ls x xs hrest
          rw [ih _ _ (by
              simp only [List.length_append, List.length_singleton] at hb1 ⊢
              omega),
            ih _ _ (by omega)]

/-- The fuel `fuelFor` gives is enough for a flush of the whole buffer. -/
theorem format_fuelFor (cfg : Config) (lines : List (List cell)) (extra : Nat) :
    format cfg (fuelFor lines + extra) [] (mark lines) =
      format cfg (fuelFor lines) [] (mark lines) := by
  induction extra with
  | zero => rfl
  | succ k ih =>
      rw [← Nat.add_assoc, format_fuel cfg (fuelFor lines + k) [] (mark lines) (by
        rw [mark_length, maxCells_mark]
        unfold fuelFor
        simp only [List.length_nil, Nat.sub_zero]
        omega), ih]

theorem emit_reliable (chunks : List Chunk) :
    ∀ w : Sink, w.reliable → noCrash chunks → (emit w chunks).1.reliable := by
  induction chunks with
  | nil => intro w hw _; exact hw
  | cons c rest ih =>
      intro w hw hnc
      cases c with
      | crash ws => exact absurd rfl (hnc _ (List.mem_cons_self _ _) ws)
      | write ws text =>
          obtain ⟨h1, _, h3, _⟩ := Sink.Write_of_reliable w (String.mk text) hw
          have hrest : noCrash rest := fun c hc => hnc c (List.mem_cons_of_mem _ hc)
          rw [emit]
          split
          · rename_i w1 heq
            rw [heq] at h3
            exact ih w1 h3 hrest
          · rename_i w1 err heq
            rw [heq] at h1
            simp at h1

/-- A flush with no widths pushed onto a writer whose writes succeed goes
through, and leaves no widths behind. -/
theorem Writer.flushNoDefers_of_reliable (b : Writer) (hout : b.output.reliable)
    (hw : b.widths = []) :
    b.flushNoDefers.2 = none ∧ b.flushNoDefers.1.output.reliable ∧
      b.flushNoDefers.1.widths = [] := by
  have key : ∀ b' : Writer, b'.output = b.output → b'.widths = [] →
      (match emit b'.output (format b'.cfg (fuelFor b'.lines) b'.widths (mark b'.lines)) with
        | (out, none) => (({ b' with output := out } : Writer).reset, (none : Option Fail))
        | (out, some (widths, fail)) =>
            ({ b' with output := out, widths := widths }, some fail)).2 = none ∧
      (match emit b'.output (format b'.cfg (fuelFor b'.lines) b'.widths (mark b'.lines)) with
        | (out, none) => (({ b' with output := out } : Writer).reset, (none : Option Fail))
        | (out, some (widths, fail)) =>
            ({ b' with output := out, widths := widths }, some fail)).1.output.reliable ∧
      (match emit b'.output (format b'.cfg (fuelFor b'.lines) b'.widths (mark b'.lines)) with
        | (out, none) => (({ b' with output := out } : Writer).reset, (none : Option Fail))
        | (out, some (widths, fail)) =>
            ({ b' with output := out, widths := widths }, some fail)).1.widths = [] := by
    intro b' hb' hw'
    rw [hw']
    have hnc := format_top_noCrash b'.cfg b'.lines
    have hrel : b'.output.reliable := by rw [hb']; exact hout
    obtain ⟨h1, _, _⟩ := emit_of_reliable _ b'.output hrel hnc
    have h2 := emit_reliable _ b'.output hrel hnc
    cases hemit : emit b'.output (format b'.cfg (fuelFor b'.lines) [] (mark b'.lines)) with
    | mk out r =>
        rw [hemit] at h1 h2
        simp only at h1 h2
        subst h1
        exact ⟨rfl, h2, rfl⟩
  have ho : (if b.cell ≠ [] then (b.terminateCell false).1 else b).output = b.output := by
    split <;> rfl
  have hwd : (if b.cell ≠ [] then (b.terminateCell false).1 else b).widths = [] := by
    split
    · exact hw
    · exact hw
  unfold Writer.flushNoDefers
  exact key _ ho hwd

theorem Writer.step_of_reliable (b : Writer) (ch : Char) (hout : b.output.reliable)
    (hw : b.widths = []) :
    (b.step ch).2 = none ∧ (b.step ch).1.output.reliable ∧ (b.step ch).1.widths = [] := by
  unfold Writer.step
  simp only []
  split
  · split
    · split
      · exact Writer.flushNoDefers_of_reliable _ hout hw
      · exact ⟨rfl, hout, hw⟩
    · exact ⟨rfl, hout, hw⟩
  · exact ⟨rfl, hout, hw⟩

theorem Writer.writeChars_of_reliable (text : List Char) :
    ∀ b : Writer, b.output.reliable → b.widths = [] →
      (Writer.writeChars b text).2 = none ∧ (Writer.writeChars b text).1.output.reliable ∧
        (Writer.writeChars b text).1.widths = [] := by
  induction text with
  | nil => intro b hout hw; exact ⟨rfl, hout, hw⟩
  | cons ch rest ih =>
      intro b hout hw
      obtain ⟨h1, h2, h3⟩ := Writer.step_of_reliable b ch hout hw
      rw [Writer.writeChars]
      split
      · rename_i b1 heq
        rw [heq] at h2 h3
        exact ih b1 h2 h3
      · rename_i b1 fail heq
        rw [heq] at h1
        simp at h1

theorem Writer.Write_succeeds (b : Writer) (text : String) (hout : b.output.reliable)
    (hw : b.widths = []) :
    (b.Write text).2 = none ∧ (b.Write text).1.output.reliable ∧ (b.Write text).1.widths = [] :=
  Writer.writeChars_of_reliable text.data _ hout hw

theorem Writer.Flush_of_reliable (b : Writer) (hout : b.output.reliable) (hw : b.widths = []) :
    b.Flush.2 = none := by
  obtain ⟨h1, _, _⟩ := Writer.flushNoDefers_of_reliable b hout hw
  unfold Writer.Flush
  split
  · rfl
  · rename_i b1 fail heq
    rw [heq] at h1
    simp at h1

end tabwriter

theorem printRows_of_reliable (ext : Extern) (p : Params) (allNamespaces : Bool)
    (items : List TriggerBinding) :
    ∀ w : tabwriter.Writer, w.output.reliable → w.widths = [] →
      (printRows ext p allNamespaces w items).2 = none ∧
      (printRows ext p allNamespaces w items).1.output.reliable ∧
      (printRows ext p allNamespaces w items).1.widths = [] := by
  induction items with
  | nil => intro w hout hw; exact ⟨rfl, hout, hw⟩
  | cons tb rest ih =>
      intro w hout hw
      obtain ⟨h1, h2, h3⟩ :=
        tabwriter.Writer.Write_succeeds w (rowText ext p allNamespaces tb) hout hw
      rw [printRows]
      split
      · rename_i w1 heq
        rw [heq] at h1
        simp at h1
      · rename_i w1 r hne heq
        rw [heq] at h2 h3
        exact ih w1 h2 h3

/-- Whatever the items hold, on an output stream whose writes succeed no write
to the tab-stop writer ends in a panic. -/
theorem printTable_of_reliable (ext : Extern) (out : Sink) (items : List TriggerBinding)
    (p : Params) (allNamespaces : Bool) (hout : out.reliable) :
    (printTable ext out items p allNamespaces).2 = none ∧
    (printTable ext out items p allNamespaces).1.output.reliable ∧
    (printTable ext out items p allNamespaces).1.widths = [] := by
  obtain ⟨h1, h2, h3⟩ := tabwriter.Writer.Write_succeeds
    (tabwriter.NewWriter out 0 5 3 ' ' true) (headers allNamespaces ++ "\n") hout rfl
  unfold printTable
  split
  · rename_i w1 heq
    rw [heq] at h1
    simp at h1
  · rename_i w1 r hne heq
    rw [heq] at h2 h3
    exact printRows_of_reliable ext p allNamespaces items w1 h2 h3

/-- Whatever the items hold, `printFormatted` returns `nil` when the writes on
the output stream succeed. -/
theorem printFormatted_of_reliable (ext : Extern) (s : Stream) (tbs : TriggerBindingList)
    (p : Params) (allNamespaces : Bool) (hout : s.Out.reliable) :
    (printFormatted ext s tbs p allNamespaces).2 = none := by
  obtain ⟨h1, h2, h3⟩ := printTable_of_reliable ext s.Out tbs.Items p allNamespaces hout
  unfold printFormatted
  split
  · rfl
  · split
    · rename_i w fail heq
      rw [heq] at h1
      simp at h1
    · rename_i w heq
      rw [heq] at h2 h3
      exact tabwriter.Writer.Flush_of_reliable w h2 h3

/-! ### Rows that do not make the writer flush early -/

namespace tabwriter

theorem Writer.pending_terminateCell (b : Writer) (htab : Bool) :
    (b.terminateCell htab).1.pending = b.pending + 1 ∧
      (b.terminateCell htab).2 = b.pending + 1 := by
  simp [Writer.terminateCell, Writer.pending]

/-- A text that `scanSeen` lets through is buffered without a flush: no write
reaches the output stream and no widths are pushed. -/
theorem Writer.writeChars_scan (text : List Char) :
    ∀ (b : Writer) (seen : Bool),
      scanSeen (decide (0 < b.pending)) text = some seen →
      ∃ b', Writer.writeChars b text = (b', none) ∧ b'.output = b.output ∧
        b'.widths = b.widths ∧ b'.input = b.input ∧ decide (0 < b'.pending) = seen := by
  induction text with
  | nil =>
      intro b seen h
      simp only [scanSeen, Option.some.injEq] at h
      exact ⟨b, rfl, rfl, rfl, rfl, h⟩
  | cons ch rest ih =>
      intro b seen h
      rw [scanSeen] at h
      by_cases hff : ch = '\x0c'
      · simp [hff] at h
      · rw [if_neg hff] at h
        by_cases hnl : ch = '\n'
        · rw [if_pos hnl] at h
          by_cases hseen : 0 < b.pending
          · simp only [hseen, decide_True, if_true] at h
            obtain ⟨hp, hn⟩ := Writer.pending_terminateCell b false
            have hstep : b.step ch = ((b.terminateCell false).1.addLine, none) := by
              subst hnl
              have hne : (b.terminateCell false).2 ≠ 1 := by omega
              unfold Writer.step
              simp [hne]
            have hpend : (b.terminateCell false).1.addLine.pending = 0 := by
              simp [Writer.addLine, Writer.pending]
            obtain ⟨b', h1, h2, h3, h4, h5⟩ := ih (b.terminateCell false).1.addLine seen
              (by rw [hpend]; simpa using h)
            refine ⟨b', ?_, h2, h3, h4, h5⟩
            rw [Writer.writeChars, hstep]
            exact h1
          · simp [hseen] at h
        · rw [if_neg hnl] at h
          by_cases htab : ch = '\t' ∨ ch = '\x0b'
          · rw [if_pos htab] at h
            have hstep : b.step ch = ((b.terminateCell (ch == '\t')).1, none) := by
              rcases htab with h1 | h1
              · subst h1
                unfold Writer.step
                simp
              · subst h1
                unfold Writer.step
                simp
            obtain ⟨hp, _⟩ := Writer.pending_terminateCell b (ch == '\t')
            obtain ⟨b', h1, h2, h3, h4, h5⟩ := ih (b.terminateCell (ch == '\t')).1 seen
              (by rw [hp]; simpa using h)
            refine ⟨b', ?_, h2, h3, h4, h5⟩
            rw [Writer.writeChars, hstep]
            exact h1
          · rw [if_neg htab] at h
            have hstep : b.step ch = ({ b with cell := b.cell ++ [ch] }, none) := by
              unfold Writer.step
              have hc : ¬ (ch = '\t' ∨ ch = '\x0b' ∨ ch = '\n' ∨ ch = '\x0c') := by
                intro hc
                rcases hc with h1 | h1 | h1 | h1
                · exact htab (Or.inl h1)
                · exact htab (Or.inr h1)
                · exact hnl h1
                · exact hff h1
              simp [hc]
            obtain ⟨b', h1, h2, h3, h4, h5⟩ := ih { b with cell := b.cell ++ [ch] } seen h
            refine ⟨b', ?_, h2, h3, h4, h5⟩
            rw [Writer.writeChars, hstep]
            exact h1

/-- A flush with no widths pushed either goes through, without a failed write,
or returns the error of a failed write; it does not panic. -/
theorem Writer.Flush_failed (b : Writer) (hw : b.widths = []) :
    (b.Flush.2 = none ∧ b.Flush.1.output.failed = b.output.failed) ∨
      ∃ err, b.Flush.2 = some (Fail.error err) := by
  have key : ∀ b' : Writer, b'.output = b.output → b'.widths = [] →
      ((match (match emit b'.output (format b'.cfg (fuelFor b'.lines) b'.widths (mark b'.lines)) with
          | (out, none) => (({ b' with output := out } : Writer).reset, (none : Option Fail))
          | (out, some (widths, fail)) =>
              ({ b' with output := out, widths := widths }, some fail)) with
        | (b, none) => (b, (none : Option Fail))
        | (b, some fail) => (b.reset, some fail)).2 = none ∧
       (match (match emit b'.output (format b'.cfg (fuelFor b'.lines) b'.widths (mark b'.lines)) with
          | (out, none) => (({ b' with output := out } : Writer).reset, (none : Option Fail))
          | (out, some (widths, fail)) =>
              ({ b' with output := out, widths := widths }, some fail)) with
        | (b, none) => (b, (none : Option Fail))
        | (b, some fail) => (b.reset, some fail)).1.output.failed = b.output.failed) ∨
      ∃ err,
       (match (match emit b'.output (format b'.cfg (fuelFor b'.lines) b'.widths (mark b'.lines)) with
          | (out, none) => (({ b' with output := out } : Writer).reset, (none : Option Fail))
          | (out, some (widths, fail)) =>
              ({ b' with output := out, widths := widths }, some fail)) with
        | (b, none) => (b, (none : Option Fail))
        | (b, some fail) => (b.reset, some fail)).2 = some (Fail.error err) := by
    intro b' hb' hw'
    rw [hw']
    have hnc := format_top_noCrash b'.cfg b'.lines
    rcases emit_failed _ b'.output hnc with ⟨h1, h2⟩ | ⟨ws, err, h1⟩
    · left
      cases hemit : emit b'.output (format b'.cfg (fuelFor b'.lines) [] (mark b'.lines)) with
      | mk out r =>
          rw [hemit] at h1 h2
          simp only at h1 h2
          subst h1
          rw [← hb']
          exact ⟨rfl, h2⟩
    · right
      cases hemit : emit b'.output (format b'.cfg (fuelFor b'.lines) [] (mark b'.lines)) with
      | mk out r =>
          rw [hemit] at h1
          simp only at h1
          subst h1
          exact ⟨err, rfl⟩
  have ho : (if b.cell ≠ [] then (b.terminateCell false).1 else b).output = b.output := by
    split <;> rfl
  have hwd : (if b.cell ≠ [] then (b.terminateCell false).1 else b).widths = [] := by
    split
    · exact hw
    · exact hw
  unfold Writer.Flush Writer.flushNoDefers
  exact key _ ho hwd

end tabwriter

theorem printRows_steady (ext : Extern) (p : Params) (allNamespaces : Bool)
    (items : List TriggerBinding) :
    ∀ w : tabwriter.Writer, w.pending = 0 → steady ext p allNamespaces items →
      ∃ w', printRows ext p allNamespaces w items = (w', none) ∧ w'.output = w.output ∧
        w'.widths = w.widths ∧ w'.pending = 0 := by
  induction items with
  | nil => intro w hp _; exact ⟨w, rfl, rfl, rfl, hp⟩
  | cons tb rest ih =>
      intro w hp hsteady
      have htb := hsteady tb (List.mem_cons_self _ _)
      obtain ⟨w1, h1, h2, h3, _, h5⟩ := tabwriter.Writer.writeChars_scan
        (rowText ext p allNamespaces tb).data
        { w with input := w.input ++ [rowText ext p allNamespaces tb] } false
        (by
          have hp' : ({ w with input := w.input ++ [rowText ext p allNamespaces tb] } :
              tabwriter.Writer).pending = 0 := hp
          rw [hp']
          exact htb)
      have hp1 : w1.pending = 0 := by
        by_contra hne
        have : 0 < w1.pending := Nat.pos_of_ne_zero hne
        simp [this] at h5
      obtain ⟨w', i1, i2, i3, i4⟩ := ih w1 hp1
        (fun x hx => hsteady x (List.mem_cons_of_mem _ hx))
      refine ⟨w', ?_, by rw [i2, h2], by rw [i3, h3], i4⟩
      rw [printRows]
      have hW : w.Write (rowText ext p allNamespaces tb) = (w1, none) := h1
      rw [hW]
      exact i1

/-- For items none of whose rows makes the writer flush early, header and rows
are buffered without a write to the output stream and without a panic. -/
theorem printTable_steady (ext : Extern) (out : Sink) (items : List TriggerBinding)
    (p : Params) (allNamespaces : Bool) (hsteady : steady ext p allNamespaces items) :
    ∃ w, printTable ext out items p allNamespaces = (w, none) ∧ w.output = out ∧
      w.widths = [] := by
  obtain ⟨w1, h1, h2, h3, _, h5⟩ := tabwriter.Writer.writeChars_scan
    (headers allNamespaces ++ "\n").data
    { tabwriter.NewWriter out 0 5 3 ' ' true with input := [] ++ [headers allNamespaces ++ "\n"] }
    false (by
      have hp0 : ({ tabwriter.NewWriter out 0 5 3 ' ' true with
          input := [] ++ [headers allNamespaces ++ "\n"] } : tabwriter.Writer).pending = 0 := rfl
      rw [hp0]
      cases allNamespaces <;> decide)
  have hp1 : w1.pending = 0 := by
    by_contra hne
    have : 0 < w1.pending := Nat.pos_of_ne_zero hne
    simp [this] at h5
  obtain ⟨w', i1, i2, i3, _⟩ := printRows_steady ext p allNamespaces items w1 hp1 hsteady
  refine ⟨w', ?_, by rw [i2, h2]; rfl, by rw [i3, h3]; rfl⟩
  unfold printTable
  have hW : (tabwriter.NewWriter out 0 5 3 ' ' true).Write (headers allNamespaces ++ "\n") =
      (w1, none) := h1
  rw [hW]
  exact i1

/-! ### C8: failing writes -/

/-- C8 as stated fails in two ways. With an empty list and tabular output the
line `No TriggerBindings found` goes to the error stream, and when that write
fails the command still returns `nil`. With tabular output and a name that
holds a newline, the writer flushes before the end, the error of that write on
the output stream is dropped with the result of `Fprintf`, and when the later
writes succeed the command returns `nil` although a write failed. -/
theorem listCommand_write_failure_ignored :
    ((listCommand exampleExtern (exampleParams []) ⟨false⟩
        { OutOrStdout := Sink.fresh,
          OutOrStderr := { Sink.fresh with faults := [some ⟨0, "broken pipe"⟩] },
          output := .ok "" }).err = none ∧
      (listCommand exampleExtern (exampleParams []) ⟨false⟩
        { OutOrStdout := Sink.fresh,
          OutOrStderr := { Sink.fresh with faults := [some ⟨0, "broken pipe"⟩] },
          output := .ok "" }).Err.failed = 1) ∧
    ((listCommand exampleExtern (exampleParams brokenItems) ⟨false⟩ flakyTable).err = none ∧
      (listCommand exampleExtern (exampleParams brokenItems) ⟨false⟩ flakyTable).Out.failed = 1 ∧
      flakyTable.OutOrStdout.failed = 0) := by
  refine ⟨⟨rfl, rfl⟩, rfl, rfl, rfl⟩

/-- C8, amended. When the client resolves and the list operation returns `tbs`,
a failed write on the output stream (the count `failed` of the stream goes up
during the run) makes the command return an error. With output `name` the
error is that of the failed write, returned at once: the lines of the items
before it were written and no write is made for a later item. With output `""`
and items none of whose rows makes the tab-stop writer flush before the end (no
form feed in a row, and a tab or vertical tab on every line of a row), the
error is `failed to print TriggerBindings`. A failure of the write on the error
stream is not reported: with output `""` and no items the command writes the
line `No TriggerBindings found` to the error stream and returns `nil` whether
that write fails or not. -/
theorem listCommand_output_write_failure (ext : Extern) (p : Params) (opts : listOptions)
    (cmd : Command) (cs : Clientset) (tbs : TriggerBindingList) (output : String)
    (hclients : p.Clients = .ok cs)
    (hlist : (list cs (if opts.AllNamespaces then "" else p.Namespace)).2 = .ok tbs)
    (houtput : cmd.output = .ok output) :
    (output = "name" → (listCommand ext p opts cmd).Out.failed ≠ cmd.OutOrStdout.failed →
      ∃ k f, k < tbs.Items.length ∧ cmd.OutOrStdout.faults[k]? = some (some f) ∧
        (listCommand ext p opts cmd).err = some (.error f.err) ∧
        (listCommand ext p opts cmd).Out.requests = cmd.OutOrStdout.requests + (k + 1) ∧
        (listCommand ext p opts cmd).Out.data =
          cmd.OutOrStdout.data ++ String.join (nameLines (tbs.Items.take k)) ++
            String.mk ((String.join (nameLines ((tbs.Items.drop k).take 1))).data.take
              f.accepted)) ∧
    (output = "" → steady ext p opts.AllNamespaces tbs.Items →
      (listCommand ext p opts cmd).Out.failed ≠ cmd.OutOrStdout.failed →
      (listCommand ext p opts cmd).err = some (.error "failed to print TriggerBindings")) ∧
    (output = "" → tbs.Items = [] →
      (listCommand ext p opts cmd).err = none ∧
      (listCommand ext p opts cmd).Out = cmd.OutOrStdout ∧
      (listCommand ext p opts cmd).Err =
        (cmd.OutOrStderr.Write "No TriggerBindings found\n").1) := by
  have hrun := listCommand_of_listed ext p opts cmd cs tbs output hclients hlist houtput
  refine ⟨?_, ?_, ?_⟩
  · intro ho hfail
    subst ho
    rw [hrun] at hfail ⊢
    simp only [if_true] at hfail ⊢
    obtain ⟨k, f, hk, hfault, _, herr, hreq, hdata⟩ :=
      printNames_failure tbs.Items cmd.OutOrStdout hfail
    exact ⟨k, f, hk, hfault, by rw [herr]; rfl, hreq, hdata⟩
  · intro ho hsteady hfail
    subst ho
    rw [hrun] at hfail ⊢
    simp only [show ¬ ("" = "name") by decide, if_false, ne_eq, not_true_eq_false] at hfail ⊢
    by_cases hne : tbs.Items = []
    · rw [printFormatted_of_empty ext ⟨cmd.OutOrStdout, cmd.OutOrStderr⟩ tbs p
        opts.AllNamespaces hne] at hfail
      exact absurd rfl hfail
    · obtain ⟨w, hw1, hw2, hw3⟩ := printTable_steady ext cmd.OutOrStdout tbs.Items p
        opts.AllNamespaces hsteady
      have hlen0 : tbs.Items.length ≠ 0 := by
        intro h; exact hne (List.length_eq_zero.mp h)
      have hpf : printFormatted ext ⟨cmd.OutOrStdout, cmd.OutOrStderr⟩ tbs p opts.AllNamespaces =
          ({ Out := w.Flush.1.output, Err := cmd.OutOrStderr }, w.Flush.2) := by
        unfold printFormatted
        rw [if_neg hlen0]
        simp only []
        rw [hw1]
      rw [hpf] at hfail ⊢
      rcases tabwriter.Writer.Flush_failed w hw3 with ⟨hnone, hsame⟩ | ⟨err, herr⟩
      · rw [hnone] at hfail
        simp only [] at hfail
        rw [hsame, hw2] at hfail
        exact absurd rfl hfail
      · rw [herr]
  · intro ho hempty
    subst ho
    rw [hrun]
    simp only [show ¬ ("" = "name") by decide, if_false, ne_eq, not_true_eq_false]
    rw [printFormatted_of_empty ext ⟨cmd.OutOrStdout, cmd.OutOrStderr⟩ tbs p
      opts.AllNamespaces hempty]
    exact ⟨rfl, rfl, rfl⟩

/-- C8, amended, at concrete inputs. With an output stream that fails on its
second write: the worked example in name-only mode (the first line is written,
three characters of the second, and the error of that write is returned) and in
tabular mode, names that hold a tab and a vertical tab, and a name that holds a
newline while the namespace is shown; in tabular mode the command returns
`failed to print TriggerBindings` each time. With no items and an error stream
that fails, the command returns `nil`. -/
theorem listCommand_output_write_failure_witness :
    ((listCommand exampleExtern (exampleParams exampleItems) ⟨true⟩ failingCommand).err =
        some (.error "broken pipe") ∧
      (listCommand exampleExtern (exampleParams exampleItems) ⟨true⟩ failingCommand).Out.data =
        "triggerbinding.triggers.tekton.dev/binding-a\ntri" ∧
      ∃ k f, k < exampleItems.length ∧
        failingCommand.OutOrStdout.faults[k]? = some (some f) ∧
        (listCommand exampleExtern (exampleParams exampleItems) ⟨true⟩ failingCommand).err =
          some (.error f.err) ∧
        (listCommand exampleExtern (exampleParams exampleItems) ⟨true⟩ failingCommand).Out.requests =
          failingCommand.OutOrStdout.requests + (k + 1) ∧
        (listCommand exampleExtern (exampleParams exampleItems) ⟨true⟩ failingCommand).Out.data =
          failingCommand.OutOrStdout.data ++ String.join (nameLines (exampleItems.take k)) ++
            String.mk ((String.join (nameLines ((exampleItems.drop k).take 1))).data.take
              f.accepted)) ∧
    (listCommand exampleExtern (exampleParams exampleItems) ⟨true⟩ failingTable).err =
      some (.error "failed to print TriggerBindings") ∧
    (listCommand exampleExtern (exampleParams [⟨"a\tb", "bar", 2800⟩, ⟨"c\x0bd", "bar", 2800⟩])
      ⟨false⟩ failingTable).err = some (.error "failed to print TriggerBindings") ∧
    (listCommand exampleExtern (exampleParams brokenItems) ⟨true⟩ failingTable).err =
      some (.error "failed to print TriggerBindings") ∧
    ((listCommand exampleExtern (exampleParams []) ⟨false⟩
        { OutOrStdout := Sink.fresh, OutOrStderr := flakySink, output := .ok "" }).err = none ∧
      (listCommand exampleExtern (exampleParams []) ⟨false⟩
        { OutOrStdout := Sink.fresh, OutOrStderr := flakySink, output := .ok "" }).Out =
        Sink.fresh ∧
      (listCommand exampleExtern (exampleParams []) ⟨false⟩
        { OutOrStdout := Sink.fresh, OutOrStderr := flakySink, output := .ok "" }).Err =
        (flakySink.Write "No TriggerBindings found\n").1 ∧
      (flakySink.Write "No TriggerBindings found\n").2 = some "broken pipe") :=
  ⟨⟨rfl, rfl,
      (listCommand_output_write_failure exampleExtern (exampleParams exampleItems) ⟨true⟩
        failingCommand (exampleClientset exampleItems)
        ⟨"TriggerBindingList", "triggers.tekton.dev/v1alpha1", exampleItems⟩ "name"
        rfl rfl rfl).1 rfl (by decide)⟩,
    (listCommand_output_write_failure exampleExtern (exampleParams exampleItems) ⟨true⟩
      failingTable (exampleClientset exampleItems)
      ⟨"TriggerBindingList", "triggers.tekton.dev/v1alpha1", exampleItems⟩ ""
      rfl rfl rfl).2.1 rfl (by decide) (by decide),
    (listCommand_output_write_failure exampleExtern
      (exampleParams [⟨"a\tb", "bar", 2800⟩, ⟨"c\x0bd", "bar", 2800⟩]) ⟨false⟩
      failingTable (exampleClientset [⟨"a\tb", "bar", 2800⟩, ⟨"c\x0bd", "bar", 2800⟩])
      ⟨"TriggerBindingList", "triggers.tekton.dev/v1alpha1",
        [⟨"a\tb", "bar", 2800⟩, ⟨"c\x0bd", "bar", 2800⟩]⟩ ""
      rfl rfl rfl).2.1 rfl (by decide) (by decide),
    (listCommand_output_write_failure exampleExtern (exampleParams brokenItems) ⟨true⟩
      failingTable (exampleClientset brokenItems)
      ⟨"TriggerBindingList", "triggers.tekton.dev/v1alpha1", brokenItems⟩ ""
      rfl rfl rfl).2.1 rfl (by decide) (by decide),
    ⟨((listCommand_output_write_failure exampleExtern (exampleParams []) ⟨false⟩
        { OutOrStdout := Sink.fresh, OutOrStderr := flakySink, output := .ok "" }
        (exampleClientset [])
        ⟨"TriggerBindingList", "triggers.tekton.dev/v1alpha1", []⟩ ""
        rfl rfl rfl).2.2 rfl rfl).1,
      ((listCommand_output_write_failure exampleExtern (exampleParams []) ⟨false⟩
        { OutOrStdout := Sink.fresh, OutOrStderr := flakySink, output := .ok "" }
        (exampleClientset [])
        ⟨"TriggerBindingList", "triggers.tekton.dev/v1alpha1", []⟩ ""
        rfl rfl rfl).2.2 rfl rfl).2.1,
      ((listCommand_output_write_failure exampleExtern (exampleParams []) ⟨false⟩
        { OutOrStdout := Sink.fresh, OutOrStderr := flakySink, output := .ok "" }
        (exampleClientset [])
        ⟨"TriggerBindingList", "triggers.tekton.dev/v1alpha1", []⟩ ""
        rfl rfl rfl).2.2 rfl rfl).2.2,
      rfl⟩⟩

/-! ### C3: the namespace column -/

theorem tabCells_append_tab (a rest : List Char) (ha : '\t' ∉ a) :
    tabCells (a ++ '\t' :: rest) = a :: tabCells rest := by
  induction a with
  | nil => simp [tabCells]
  | cons ch a ih =>
      have hch : ch ≠ '\t' := fun h => ha (by simp [h])
      have ha' : '\t' ∉ a := fun h => ha (List.mem_cons_of_mem _ h)
      rw [List.cons_append, tabCells, if_neg hch, ih ha']

theorem tabCells_of_tabless (a : List Char) (ha : '\t' ∉ a) : tabCells a = [a] := by
  induction a with
  | nil => rfl
  | cons ch a ih =>
      have hch : ch ≠ '\t' := fun h => ha (by simp [h])
      have ha' : '\t' ∉ a := fun h => ha (List.mem_cons_of_mem _ h)
      rw [tabCells, if_neg hch, ih ha']

theorem tabSeparated_two (a b : String) (ha : '\t' ∉ a.data) (hb : '\t' ∉ b.data) :
    tabSeparated (String.intercalate "\t" [a, b]) = [a, b] := by
  have hdata : (String.intercalate "\t" [a, b]).data = a.data ++ '\t' :: b.data := by
    show (a ++ "\t" ++ b).data = _
    simp [String.data_append]
  unfold tabSeparated
  rw [hdata, tabCells_append_tab _ _ ha, tabCells_of_tabless _ hb]
  rfl

theorem tabSeparated_three (a b c : String) (ha : '\t' ∉ a.data) (hb : '\t' ∉ b.data)
    (hc : '\t' ∉ c.data) :
    tabSeparated (String.intercalate "\t" [a, b, c]) = [a, b, c] := by
  have hdata : (String.intercalate "\t" [a, b, c]).data =
      a.data ++ '\t' :: (b.data ++ '\t' :: c.data) := by
    show (a ++ "\t" ++ b ++ "\t" ++ c).data = _
    simp [String.data_append]
  unfold tabSeparated
  rw [hdata, tabCells_append_tab _ _ ha, tabCells_append_tab _ _ hb, tabCells_of_tabless _ hc]
  rfl

/-- C3 as stated fails in two ways. A name that holds a tab gives its row four
tab-separated cells where three are claimed. And when names hold newlines and a
write on the output stream fails, a later `Fprintf` ends in a run-time panic of
the tab-stop writer and the row of the third item is never handed over. -/
theorem printTable_cells_broken :
    ((printTable exampleExtern Sink.fresh [⟨"a\tb", "bar", 2800⟩] (exampleParams []) true).1.input =
        ["NAMESPACE\tNAME\tAGE\n", "bar\ta\tb\t2h\n"] ∧
      tabSeparated "bar\ta\tb\t2h" = ["bar", "a", "b", "2h"] ∧
      (tabSeparated "bar\ta\tb\t2h").length ≠ 3) ∧
    ((printTable exampleExtern flakySink unrulyItems (exampleParams []) false).2 =
        some tabwriter.Fail.crash ∧
      (printTable exampleExtern flakySink unrulyItems (exampleParams []) false).1.input =
        ["NAME\tAGE\n", "x\ny\t2h\n", "averyveryverylongname\nz\t2h\n"] ∧
      unrulyItems.length = 3) := by
  refine ⟨⟨rfl, rfl, by decide⟩, rfl, rfl, rfl⟩

/-- C3, amended. For items whose name, age and shown namespace hold no tab:
with `allNamespaces` set the header has the tab-separated cells `NAMESPACE`,
`NAME`, `AGE` and the row of an item exactly three tab-separated cells, its
namespace, its name and its age; otherwise the header has the cells `NAME`,
`AGE` and the row of an item exactly the two cells name and age, the namespace
being in none. When no write to the tab-stop writer ends in a run-time panic,
the texts handed to the writer are this header and then the row of every item,
in the order of the list; and no write ends in a panic when the writes on the
output stream succeed. -/
theorem printTable_cells (ext : Extern) (out : Sink) (items : List TriggerBinding) (p : Params)
    (allNamespaces : Bool) (htab : tabless ext p allNamespaces items) :
    ((printTable ext out items p allNamespaces).2 = none →
      (printTable ext out items p allNamespaces).1.input =
        (String.intercalate "\t" (headerStrings allNamespaces) ++ "\n") ::
          items.map (fun tb =>
            String.intercalate "\t" (rowStrings ext p allNamespaces tb) ++ "\n")) ∧
    (out.reliable → (printTable ext out items p allNamespaces).2 = none) ∧
    tabSeparated (String.intercalate "\t" (headerStrings allNamespaces)) =
      headerStrings allNamespaces ∧
    (∀ tb ∈ items,
      tabSeparated (String.intercalate "\t" (rowStrings ext p allNamespaces tb)) =
        rowStrings ext p allNamespaces tb) ∧
    headerStrings allNamespaces =
      (if allNamespaces then ["NAMESPACE", "NAME", "AGE"] else ["NAME", "AGE"]) ∧
    (∀ tb : TriggerBinding, rowStrings ext p allNamespaces tb =
      (if allNamespaces then [tb.Namespace, tb.Name, ext.Age tb.CreationTimestamp p.Time]
       else [tb.Name, ext.Age tb.CreationTimestamp p.Time])) := by
  refine ⟨?_, fun hout => (printTable_of_reliable ext out items p allNamespaces hout).1, ?_, ?_,
    rfl, fun _ => rfl⟩
  · intro hrun
    obtain ⟨k, _, hk, hin⟩ := printTable_input ext out items p allNamespaces
    have hkN := hk hrun
    subst hkN
    rw [hin, List.take_length]
    cases allNamespaces
    · have hh : headers false = String.intercalate "\t" (headerStrings false) := by decide
      rw [hh]
      rfl
    · have hh : headers true = String.intercalate "\t" (headerStrings true) := by decide
      rw [hh]
      rfl
  · cases allNamespaces <;> decide
  · intro tb htb
    obtain ⟨hname, hage, hns⟩ := htab tb htb
    cases allNamespaces
    · exact tabSeparated_two _ _ hname hage
    · exact tabSeparated_three _ _ _ (hns rfl) hname hage

/-- C3, amended, on the worked example, with and without the namespace column:
the texts handed over are the header and the two rows of the example, of three
cells each with the namespace column and of two without. -/
theorem printTable_cells_witness :
    (printTable exampleExtern Sink.fresh exampleItems (exampleParams exampleItems) true).2 = none ∧
    (printTable exampleExtern Sink.fresh exampleItems (exampleParams exampleItems) true).1.input =
      ["NAMESPACE\tNAME\tAGE\n", "bar\tbinding-a\t2h\n", "bar\tbinding-b\t10m\n"] ∧
    (printTable exampleExtern Sink.fresh exampleItems (exampleParams exampleItems) false).1.input =
      ["NAME\tAGE\n", "binding-a\t2h\n", "binding-b\t10m\n"] ∧
    tabSeparated "NAMESPACE\tNAME\tAGE" = ["NAMESPACE", "NAME", "AGE"] ∧
    tabSeparated "NAME\tAGE" = ["NAME", "AGE"] ∧
    (∀ tb ∈ exampleItems,
      tabSeparated (String.intercalate "\t"
          (rowStrings exampleExtern (exampleParams exampleItems) true tb)) =
        rowStrings exampleExtern (exampleParams exampleItems) true tb) ∧
    exampleItems.map (fun tb => tabSeparated (String.intercalate "\t"
        (rowStrings exampleExtern (exampleParams exampleItems) true tb))) =
      [["bar", "binding-a", "2h"], ["bar", "binding-b", "10m"]] ∧
    exampleItems.map (fun tb => tabSeparated (String.intercalate "\t"
        (rowStrings exampleExtern (exampleParams exampleItems) false tb))) =
      [["binding-a", "2h"], ["binding-b", "10m"]] :=
  ⟨(printTable_cells exampleExtern Sink.fresh exampleItems (exampleParams exampleItems) true
      (by decide)).2.1 (by decide),
    ((printTable_cells exampleExtern Sink.fresh exampleItems (exampleParams exampleItems) true
      (by decide)).1 (by decide)).trans (by decide),
    ((printTable_cells exampleExtern Sink.fresh exampleItems (exampleParams exampleItems) false
      (by decide)).1 (by decide)).trans (by decide),
    (printTable_cells exampleExtern Sink.fresh exampleItems (exampleParams exampleItems) true
      (by decide)).2.2.1,
    (printTable_cells exampleExtern Sink.fresh exampleItems (exampleParams exampleItems) false
      (by decide)).2.2.1,
    (printTable_cells exampleExtern Sink.fresh exampleItems (exampleParams exampleItems) true
      (by decide)).2.2.2.1,
    by decide, by decide⟩

/-! ### Buffering rows whose namespace may hold tabs -/

namespace tabwriter

theorem Writer.writeChars_vtab (b : Writer) (rest : List Char) (done : List (List tabwriter.cell))
    (cur : List tabwriter.cell) (hlines : b.lines = done ++ [cur]) :
    Writer.writeChars b ('\x0b' :: rest) =
      Writer.writeChars { b with cell := [], lines := done ++ [cur ++ [⟨b.cell, false⟩]] } rest := by
  rw [Writer.writeChars]
  have hstep : b.step '\x0b' =
      ({ b with cell := [], lines := done ++ [cur ++ [⟨b.cell, false⟩]] }, none) := by
    unfold Writer.step
    rw [Writer.terminateCell_concat b _ done cur hlines]
    simp
  rw [hstep]

/-- A text without line breaks is cut into cells at its tabs and vertical tabs;
the cells join the current line and nothing is flushed. -/
theorem Writer.writeChars_unbroken (text : List Char) :
    ∀ (b : Writer) (done : List (List tabwriter.cell)) (cur : List tabwriter.cell),
      b.lines = done ++ [cur] → '\n' ∉ text → '\x0c' ∉ text →
      Writer.writeChars b text =
        ({ b with cell := (splitCells b.cell text).2,
                  lines := done ++ [cur ++ (splitCells b.cell text).1] }, none) := by
  induction text with
  | nil =>
      intro b done cur hlines _ _
      simp [Writer.writeChars, splitCells, ← hlines]
  | cons ch rest ih =>
      intro b done cur hlines hnl hff
      have hnl' : '\n' ∉ rest := fun h => hnl (List.mem_cons_of_mem _ h)
      have hff' : '\x0c' ∉ rest := fun h => hff (List.mem_cons_of_mem _ h)
      have hch1 : ch ≠ '\n' := fun h => hnl (by simp [h])
      have hch2 : ch ≠ '\x0c' := fun h => hff (by simp [h])
      by_cases htab : ch = '\t'
      · subst htab
        rw [Writer.writeChars_tab b rest done cur hlines,
          ih _ done (cur ++ [⟨b.cell, true⟩]) rfl hnl' hff']
        simp [splitCells]
      · by_cases hvtab : ch = '\x0b'
        · subst hvtab
          rw [Writer.writeChars_vtab b rest done cur hlines,
            ih _ done (cur ++ [⟨b.cell, false⟩]) rfl hnl' hff']
          simp [splitCells]
        · have hplain : ¬ special ch := by
            unfold special
            intro h
            rcases h with h | h | h | h
            · exact htab h
            · exact hvtab h
            · exact hch1 h
            · exact hch2 h
          rw [Writer.writeChars, Writer.step_plain b ch hplain]
          simp only []
          rw [ih { b with cell := b.cell ++ [ch] } done cur hlines hnl' hff']
          simp [splitCells, htab, hvtab]

theorem splitCells_plain (a : List Char) :
    ∀ (pend rest : List Char), (∀ ch ∈ a, ¬ special ch) →
      splitCells pend (a ++ rest) = splitCells (pend ++ a) rest := by
  induction a with
  | nil => intro pend rest _; simp
  | cons ch a ih =>
      intro pend rest h
      have hch : ¬ special ch := h ch (List.mem_cons_self _ _)
      have h1 : ¬ (ch = '\t' ∨ ch = '\x0b') := by
        intro hc
        apply hch
        unfold special
        rcases hc with hc | hc
        · exact Or.inl hc
        · exact Or.inr (Or.inl hc)
      rw [List.cons_append, splitCells, if_neg h1,
        ih _ _ (fun c hc => h c (List.mem_cons_of_mem _ hc))]
      simp

/-- The cells of a name, a tab and an age. -/
theorem splitCells_name_age (name age : List Char) (hname : ∀ ch ∈ name, ¬ special ch)
    (hage : ∀ ch ∈ age, ¬ special ch) :
    splitCells [] (name ++ '\t' :: age) = ([⟨name, true⟩], age) := by
  have hage' : splitCells [] age = ([], age) := by
    have := splitCells_plain age [] [] hage
    simpa [splitCells] using this
  rw [splitCells_plain name [] _ hname]
  simp [splitCells, hage']

/-- The cells of a namespace, a tab, a name, a tab and an age. -/
theorem splitCells_row (ns name age : List Char) (hname : ∀ ch ∈ name, ¬ special ch)
    (hage : ∀ ch ∈ age, ¬ special ch) :
    ∀ pend : List Char,
      splitCells pend (ns ++ '\t' :: (name ++ '\t' :: age)) =
        ((splitCells pend (ns ++ ['\t'])).1 ++ [⟨name, true⟩], age) := by
  induction ns with
  | nil =>
      intro pend
      simp [splitCells, splitCells_name_age name age hname hage]
  | cons ch ns ih =>
      intro pend
      by_cases h : ch = '\t' ∨ ch = '\x0b'
      · rw [List.cons_append, List.cons_append, splitCells, splitCells, if_pos h, if_pos h, ih []]
        simp
      · rw [List.cons_append, List.cons_append, splitCells, splitCells, if_neg h, if_neg h,
          ih (pend ++ [ch])]

/-- The characters of the cells of a text come from the text or from what was
pending. -/
theorem splitCells_mem (text : List Char) :
    ∀ (pend : List Char) (c : cell), c ∈ (splitCells pend text).1 →
      ∀ ch ∈ c.text, ch ∈ pend ∨ ch ∈ text := by
  induction text with
  | nil => intro pend c hc; simp [splitCells] at hc
  | cons x text ih =>
      intro pend c hc ch hch
      rw [splitCells] at hc
      by_cases h : x = '\t' ∨ x = '\x0b'
      · rw [if_pos h] at hc
        rcases List.mem_cons.mp hc with h1 | h1
        · subst h1
          exact Or.inl hch
        · rcases ih [] c h1 ch hch with h2 | h2
          · simp at h2
          · exact Or.inr (List.mem_cons_of_mem _ h2)
      · rw [if_neg h] at hc
        rcases ih (pend ++ [x]) c hc ch hch with h2 | h2
        · rcases List.mem_append.mp h2 with h3 | h3
          · exact Or.inl h3
          · right
            simp only [List.mem_singleton] at h3
            simp [h3]
        · exact Or.inr (List.mem_cons_of_mem _ h2)

theorem Writer.writeChars_append (a : List Char) :
    ∀ (b b' : Writer) (c : List Char), Writer.writeChars b a = (b', none) →
      Writer.writeChars b (a ++ c) = Writer.writeChars b' c := by
  induction a with
  | nil =>
      intro b b' c h
      simp only [Writer.writeChars, Prod.mk.injEq, and_true] at h
      subst h
      rfl
  | cons ch a ih =>
      intro b b' c h
      rw [Writer.writeChars] at h
      rw [List.cons_append, Writer.writeChars]
      cases hstep : b.step ch with
      | mk b1 r =>
          cases r with
          | none =>
              rw [hstep] at h
              exact ih b1 b' c h
          | some fail =>
              rw [hstep] at h
              simp at h

end tabwriter

theorem Write_rowLine (ext : Extern) (p : Params) (allNamespaces : Bool) (tb : TriggerBinding)
    (w : tabwriter.Writer) (done : List (List tabwriter.cell))
    (hlines : w.lines = done ++ [[]]) (hcell : w.cell = [])
    (htidy : tidy ext p allNamespaces [tb]) :
    w.Write (rowText ext p allNamespaces tb) =
      ({ w with lines := done ++ [rowLine ext p allNamespaces tb, []],
                input := w.input ++ [rowText ext p allNamespaces tb] }, none) := by
  obtain ⟨hname, hage, hns⟩ := htidy tb (List.mem_singleton_self _)
  have hname1 : '\n' ∉ tb.Name.data := fun h => hname _ h (Or.inr (Or.inr (Or.inl rfl)))
  have hname2 : '\x0c' ∉ tb.Name.data := fun h => hname _ h (Or.inr (Or.inr (Or.inr rfl)))
  have hage1 : '\n' ∉ (ext.Age tb.CreationTimestamp p.Time).data :=
    fun h => hage _ h (Or.inr (Or.inr (Or.inl rfl)))
  have hage2 : '\x0c' ∉ (ext.Age tb.CreationTimestamp p.Time).data :=
    fun h => hage _ h (Or.inr (Or.inr (Or.inr rfl)))
  unfold tabwriter.Writer.Write
  cases allNamespaces
  · have hdata : (rowText ext p false tb).data =
        (tb.Name.data ++ '\t' :: (ext.Age tb.CreationTimestamp p.Time).data) ++ ['\n'] := by
      simp [rowText, String.data_append]
    have hfirst := tabwriter.Writer.writeChars_unbroken
      (tb.Name.data ++ '\t' :: (ext.Age tb.CreationTimestamp p.Time).data)
      { w with input := w.input ++ [rowText ext p false tb] } done [] hlines
      (by simp [hname1, hage1]) (by simp [hname2, hage2])
    rw [hdata, tabwriter.Writer.writeChars_append _ _ _ _ hfirst]
    simp only [hcell, List.nil_append]
    rw [tabwriter.splitCells_name_age _ _ hname hage]
    rw [tabwriter.Writer.writeChars_newline _ [] done [⟨tb.Name.data, true⟩] rfl (by simp)]
    simp [tabwriter.Writer.writeChars, rowLine]
  · obtain ⟨hns1, hns2⟩ := hns rfl
    have hdata : (rowText ext p true tb).data =
        (tb.Namespace.data ++ '\t' ::
          (tb.Name.data ++ '\t' :: (ext.Age tb.CreationTimestamp p.Time).data)) ++ ['\n'] := by
      simp [rowText, String.data_append]
    have hfirst := tabwriter.Writer.writeChars_unbroken
      (tb.Namespace.data ++ '\t' ::
        (tb.Name.data ++ '\t' :: (ext.Age tb.CreationTimestamp p.Time).data))
      { w with input := w.input ++ [rowText ext p true tb] } done [] hlines
      (by simp [hns1, hname1, hage1]) (by simp [hns2, hname2, hage2])
    rw [hdata, tabwriter.Writer.writeChars_append _ _ _ _ hfirst]
    simp only [hcell, List.nil_append]
    rw [tabwriter.splitCells_row _ _ _ hname hage]
    rw [tabwriter.Writer.writeChars_newline _ [] done
      ((tabwriter.splitCells [] (tb.Namespace.data ++ ['\t'])).1 ++ [⟨tb.Name.data, true⟩])
      rfl (by simp)]
    simp [tabwriter.Writer.writeChars, rowLine]

theorem printRows_tidy (ext : Extern) (p : Params) (allNamespaces : Bool)
    (items : List TriggerBinding) :
    ∀ (w : tabwriter.Writer) (done : List (List tabwriter.cell)),
      w.lines = done ++ [[]] → w.cell = [] → tidy ext p allNamespaces items →
      printRows ext p allNamespaces w items =
        ({ w with lines := done ++ items.map (rowLine ext p allNamespaces) ++ [[]],
                  input := w.input ++ items.map (rowText ext p allNamespaces) }, none) := by
  induction items with
  | nil =>
      intro w done hlines hcell _
      simp [printRows, ← hlines]
  | cons tb rest ih =>
      intro w done hlines hcell htidy
      have htb : tidy ext p allNamespaces [tb] := by
        intro x hx
        exact htidy x (by simp only [List.mem_singleton] at hx; simp [hx])
      have hrest : tidy ext p allNamespaces rest :=
        fun x hx => htidy x (List.mem_cons_of_mem _ hx)
      rw [printRows, Write_rowLine ext p allNamespaces tb w done hlines hcell htb]
      simp only []
      rw [ih { w with lines := done ++ [rowLine ext p allNamespaces tb, []],
                      input := w.input ++ [rowText ext p allNamespaces tb] }
        (done ++ [rowLine ext p allNamespaces tb]) (by simp) hcell hrest]
      simp

/-- The tab-stop writer before the flush, for items whose name and age hold no
tab and no line break and whose shown namespace holds no line break: header and
rows are buffered, nothing was written to the output stream, and no write ended
badly. -/
theorem printTable_tidy (ext : Extern) (out : Sink) (items : List TriggerBinding) (p : Params)
    (allNamespaces : Bool) (htidy : tidy ext p allNamespaces items) :
    printTable ext out items p allNamespaces =
      ({ output := out, cfg := ⟨0, 5, 3, ' ', true⟩, cell := [],
         lines := headerCells allNamespaces :: items.map (rowLine ext p allNamespaces) ++ [[]],
         widths := [],
         input := (headers allNamespaces ++ "\n") :: items.map (rowText ext p allNamespaces) },
        none) := by
  unfold printTable
  rw [Write_headers]
  simp only []
  rw [printRows_tidy ext p allNamespaces items
    { output := out, cfg := ⟨0, 5, 3, ' ', true⟩, cell := [],
      lines := [headerCells allNamespaces, []], widths := [],
      input := [headers allNamespaces ++ "\n"] } [headerCells allNamespaces] rfl rfl htidy]
  simp
/-! ### What the formatter prints for each buffered line -/

theorem forall₂_append_of {α β : Type} {R : α → β → Prop} :
    ∀ {a : List α} {b : List β} {c : List α} {d : List β},
      List.Forall₂ R a b → List.Forall₂ R c d → List.Forall₂ R (a ++ c) (b ++ d) := by
  intro a b c d hab hcd
  induction hab with
  | nil => exact hcd
  | cons h _ ih => exact List.Forall₂.cons h ih

theorem forall₂_append_split {α β : Type} {R : α → β → Prop} (a : List α) :
    ∀ (c : List α) (texts : List β), List.Forall₂ R (a ++ c) texts →
      ∃ t1 t2, texts = t1 ++ t2 ∧ List.Forall₂ R a t1 ∧ List.Forall₂ R c t2 := by
  induction a with
  | nil => intro c texts h; exact ⟨[], texts, rfl, List.Forall₂.nil, h⟩
  | cons x a ih =>
      intro c texts h
      cases h with
      | cons hx hrest =>
          obtain ⟨t1, t2, h1, h2, h3⟩ := ih c _ hrest
          exact ⟨_ :: t1, t2, by rw [h1]; rfl, List.Forall₂.cons hx h2, h3⟩

namespace tabwriter

theorem chunkText_writePadding_blank (cfg : Config) (hpad : cfg.padchar = ' ')
    (widths : List Nat) (textw cellw : Nat) (useTabs : Bool) :
    ∀ ch ∈ chunkText (writePadding cfg widths textw cellw useTabs), ch = ' ' ∨ ch = '\t' := by
  intro ch hch
  unfold writePadding at hch
  split at hch
  · split at hch
    · simp [chunkText] at hch
    · simp only [] at hch
      split at hch
      · simp [chunkText] at hch
      · rw [chunkText_writeN] at hch
        exact Or.inr (List.eq_of_mem_replicate hch)
  · split at hch
    · simp [chunkText] at hch
    · rw [chunkText_writeN, hpad] at hch
      exact Or.inl (List.eq_of_mem_replicate hch)

/-- The text printed for the cells of a line none of whose cells but the last
has a width beyond the pushed ones: the cells in order, each but the last
followed by its padding. -/
theorem writeCells_woven (cfg : Config) (hpad : cfg.padchar = ' ') (widths : List Nat)
    (cells : List cell) :
    ∀ (j : Nat) (useTabs : Bool), (cells ≠ [] → widths.length < j + cells.length) →
      Woven cells (chunkText (writeCells cfg widths j useTabs cells)) := by
  induction cells with
  | nil => intro j useTabs _; simp [writeCells, chunkText, Woven]
  | cons c cs ih =>
      intro j useTabs hlen
      have hlen' := hlen (by simp)
      have hblank : ∀ u, ∀ ch ∈ chunkText (if j < widths.length
          then writePadding cfg widths c.width (widths.getD j 0) u else []),
          ch = ' ' ∨ ch = '\t' := by
        intro u ch hch
        split at hch
        · exact chunkText_writePadding_blank cfg hpad widths _ _ u ch hch
        · simp [chunkText] at hch
      cases cs with
      | nil =>
          have hj : ¬ j < widths.length := by
            simp only [List.length_singleton] at hlen'
            omega
          rw [writeCells]
          split
          · rename_i hempty
            simp [hj, writeCells, chunkText, Woven, hempty]
          · simp [hj, writeCells, chunkText, Woven]
      | cons c' cs' =>
          have htail : ∀ u, Woven (c' :: cs')
              (chunkText (writeCells cfg widths (j + 1) u (c' :: cs'))) := by
            intro u
            apply ih
            intro _
            simp only [List.length_cons] at hlen' ⊢
            omega
          rw [writeCells]
          split
          · rename_i hempty
            rw [chunkText_append, Woven]
            exact ⟨chunkText (if j < widths.length
                then writePadding cfg widths c.width (widths.getD j 0) useTabs else []),
              chunkText (writeCells cfg widths (j + 1) useTabs (c' :: cs')),
              by rw [hempty]; rfl, hblank useTabs, htail useTabs⟩
          · rw [chunkText, chunkText_append, Woven]
            exact ⟨chunkText (if j < widths.length
                then writePadding cfg widths c.width (widths.getD j 0) false else []),
              chunkText (writeCells cfg widths (j + 1) false (c' :: cs')),
              (List.append_assoc _ _ _).symm, hblank false, htail false⟩

theorem writeLines_rendered (cfg : Config) (hpad : cfg.padchar = ' ') (widths : List Nat)
    (ls : List (Bool × List cell)) (hlen : ∀ l ∈ ls, l.2 ≠ [] → widths.length < l.2.length) :
    ∃ texts : List (List Char), chunkText (writeLines cfg widths ls) = texts.flatten ∧
      List.Forall₂ Rendered ls texts := by
  induction ls with
  | nil => exact ⟨[], rfl, List.Forall₂.nil⟩
  | cons l rest ih =>
      obtain ⟨last, line⟩ := l
      obtain ⟨texts, h1, h2⟩ := ih (fun l hl => hlen l (List.mem_cons_of_mem _ hl))
      refine ⟨(chunkText (writeCells cfg widths 0 cfg.tabIndent line) ++
          (if last then [] else ['\n'])) :: texts, ?_, ?_⟩
      · rw [writeLines, chunkText_append, chunkText, h1]
        simp
      · refine List.Forall₂.cons ⟨_, rfl, ?_⟩ h2
        apply writeCells_woven cfg hpad
        intro hne
        have := hlen (last, line) (List.mem_cons_self _ _) hne
        simpa using this

/-- What `format` prints: for every line its cells in order, each but the last
followed by blanks or tabs only, and a newline unless it is the last buffered
line. -/
theorem format_rendered (cfg : Config) (hpad : cfg.padchar = ' ') :
    ∀ (fuel : Nat) (widths : List Nat) (ls : List (Bool × List cell)),
      ls.length + (maxCells ls - widths.length) + 1 ≤ fuel →
      (∀ l ∈ ls, l.2 ≠ [] → widths.length < l.2.length) →
      ∃ texts : List (List Char), chunkText (format cfg fuel widths ls) = texts.flatten ∧
        List.Forall₂ Rendered ls texts := by
  intro fuel
  induction fuel with
  | zero => intro widths ls h _; omega
  | succ fuel ih =>
      intro widths ls hfuel hlen
      rw [format]
      simp only []
      cases hrest : ls.dropWhile (fun l => !hasColumn widths.length l) with
      | nil => exact writeLines_rendered cfg hpad widths ls hlen
      | cons x xs =>
          simp only []
          have hsub : ∀ l ∈ x :: xs, l ∈ ls := by
            intro l hl
            rw [← hrest] at hl
            exact (List.dropWhile_sublist _).subset hl
          obtain ⟨hb1, hb2⟩ := format_calls_bound widths ls x xs hrest
          obtain ⟨t1, h11, h12⟩ := writeLines_rendered cfg hpad widths
            (ls.takeWhile (fun l => !hasColumn widths.length l))
            (fun l hl => hlen l ((List.takeWhile_sublist _).subset hl))
          obtain ⟨t2, h21, h22⟩ := ih
            (widths ++ [blockWidth cfg widths.length ((x :: xs).takeWhile (hasColumn widths.length))])
            ((x :: xs).takeWhile (hasColumn widths.length))
            (by
              simp only [List.length_append, List.length_singleton] at hb1 ⊢
              omega)
            (by
              intro l hl _
              have hcol : hasColumn widths.length l = true := List.mem_takeWhile_imp hl
              simp only [hasColumn, decide_eq_true_eq] at hcol
              simp only [List.length_append, List.length_singleton]
              omega)
          obtain ⟨t3, h31, h32⟩ := ih widths ((x :: xs).dropWhile (hasColumn widths.length))
            (by omega)
            (fun l hl => hlen l (hsub l ((List.dropWhile_sublist _).subset hl)))
          refine ⟨t1 ++ (t2 ++ t3), ?_, ?_⟩
          · rw [chunkText_append, chunkText_append, h11, h21, h31]
            simp
          · have hsplit : ls = ls.takeWhile (fun l => !hasColumn widths.length l) ++
                ((x :: xs).takeWhile (hasColumn widths.length) ++
                  (x :: xs).dropWhile (hasColumn widths.length)) := by
              rw [List.takeWhile_append_dropWhile, ← hrest, List.takeWhile_append_dropWhile]
            have hall := forall₂_append_of h12 (forall₂_append_of h22 h32)
            rw [← hsplit] at hall
            exact hall

/-- A flush of a buffer without pending cell and without widths, onto a writer
whose writes succeed: the text the formatter asks for is appended. -/
theorem Writer.Flush_output (b : Writer) (hcell : b.cell = []) (hwidths : b.widths = [])
    (hout : b.output.reliable) :
    b.Flush.2 = none ∧
      b.Flush.1.output.data =
        b.output.data ++ String.mk (chunkText (format b.cfg (fuelFor b.lines) [] (mark b.lines))) := by
  have hnc := format_top_noCrash b.cfg b.lines
  obtain ⟨h1, h2, _⟩ := emit_of_reliable _ b.output hout hnc
  unfold Writer.Flush Writer.flushNoDefers
  simp only [hcell, ne_eq, not_true_eq_false, if_false, hwidths]
  cases hemit : emit b.output (format b.cfg (fuelFor b.lines) [] (mark b.lines)) with
  | mk out r =>
      rw [hemit] at h1 h2
      simp only at h1 h2
      subst h1
      exact ⟨rfl, h2⟩

/-- A flush of buffered `rows` followed by the empty last line, onto a writer
whose writes succeed: one text per row is appended, the cells of the row in
order and a newline. -/
theorem Writer.Flush_rendered (b : Writer) (rows : List (List tabwriter.cell)) (hcell : b.cell = [])
    (hwidths : b.widths = []) (hout : b.output.reliable) (hpad : b.cfg.padchar = ' ')
    (hlines : b.lines = rows ++ [[]]) :
    b.Flush.2 = none ∧
      ∃ texts : List (List Char),
        b.Flush.1.output.data = b.output.data ++ String.mk texts.flatten ∧
        List.Forall₂ (fun row text => Rendered (false, row) text) rows texts := by
  obtain ⟨h1, h2⟩ := Writer.Flush_output b hcell hwidths hout
  refine ⟨h1, ?_⟩
  obtain ⟨texts, h3, h4⟩ := format_rendered b.cfg hpad (fuelFor b.lines) [] (mark b.lines)
    (by
      rw [mark_length, maxCells_mark]
      unfold fuelFor
      simp)
    (by
      intro l _ hne
      exact List.length_pos.mpr hne)
  rw [hlines, mark_concat] at h4
  obtain ⟨t1, t2, h5, h6, h7⟩ := forall₂_append_split _ _ _ h4
  cases h7 with
  | cons hx hnil =>
      cases hnil
      obtain ⟨body, hb1, hb2⟩ := hx
      simp only [Woven] at hb2
      subst hb2
      simp only [if_true, List.append_nil] at hb1
      subst hb1
      refine ⟨t1, ?_, ?_⟩
      · rw [h2, h3, h5]
        simp
      · exact (List.forall₂_map_left_iff).mp h6

end tabwriter
/-! ### From the printed lines to the words of C2 -/

namespace tabwriter

theorem Woven_cons_cons (c c' : cell) (cs : List cell) (body : List Char) :
    Woven (c :: c' :: cs) body ↔
      ∃ pad rest, body = c.text ++ pad ++ rest ∧ (∀ ch ∈ pad, ch = ' ' ∨ ch = '\t') ∧
        Woven (c' :: cs) rest := by
  rw [Woven]

/-- A printed line whose last two cells are `c1` and `c2` ends with the text of
`c1`, blanks or tabs, and the text of `c2`; before them stand the earlier cells
and their padding. -/
theorem Woven_row (c1 c2 : cell) :
    ∀ (front : List cell) (body : List Char), Woven (front ++ [c1, c2]) body →
      ∃ pre pad, body = pre ++ c1.text ++ pad ++ c2.text ∧ (∀ ch ∈ pad, ch = ' ' ∨ ch = '\t') ∧
        ∀ ch ∈ pre, ch = ' ' ∨ ch = '\t' ∨ ∃ c ∈ front, ch ∈ c.text := by
  intro front
  induction front with
  | nil =>
      intro body h
      rw [List.nil_append, Woven_cons_cons] at h
      obtain ⟨pad, rest, hb, hpad, hrest⟩ := h
      rw [Woven] at hrest
      refine ⟨[], pad, ?_, hpad, ?_⟩
      · rw [hb, hrest]; simp
      · intro ch hch; simp at hch
  | cons c front ih =>
      intro body h
      obtain ⟨c', cs, hcs⟩ : ∃ c' cs, front ++ [c1, c2] = c' :: cs := by
        cases front with
        | nil => exact ⟨_, _, rfl⟩
        | cons x xs => exact ⟨_, _, rfl⟩
      rw [List.cons_append, hcs, Woven_cons_cons] at h
      obtain ⟨pad, rest, hb, hpad, hrest⟩ := h
      rw [← hcs] at hrest
      obtain ⟨pre', pad', hb', hpad', hpre'⟩ := ih rest hrest
      refine ⟨c.text ++ pad ++ pre', pad', ?_, hpad', ?_⟩
      · rw [hb, hb']; simp [List.append_assoc]
      · intro ch hch
        rcases List.mem_append.mp hch with h1 | h1
        · rcases List.mem_append.mp h1 with h2 | h2
          · exact Or.inr (Or.inr ⟨c, List.mem_cons_self _ _, h2⟩)
          · rcases hpad ch h2 with h3 | h3
            · exact Or.inl h3
            · exact Or.inr (Or.inl h3)
        · rcases hpre' ch h1 with h3 | h3 | ⟨x, hx, h3⟩
          · exact Or.inl h3
          · exact Or.inr (Or.inl h3)
          · exact Or.inr (Or.inr ⟨x, List.mem_cons_of_mem _ hx, h3⟩)

end tabwriter

/-- The printed text of a buffered line that ends with the cells `a` and `b`,
none of whose cells holds a newline: exactly one line, which carries `a` and
`b`. -/
theorem line_of_rendered (front : List tabwriter.cell) (a b : String) (text : List Char)
    (h : tabwriter.Rendered (false, front ++ [⟨a.data, true⟩, ⟨b.data, false⟩]) text)
    (hfront : ∀ c ∈ front, '\n' ∉ c.text) (ha : '\n' ∉ a.data) (hb : '\n' ∉ b.data) :
    oneLine (String.mk text) ∧ carries (String.mk text) a b := by
  obtain ⟨body, ht, hw⟩ := h
  simp only [Bool.false_eq_true, if_false] at ht
  obtain ⟨pre, pad, hbody, hpad, hpre⟩ := tabwriter.Woven_row _ _ front body hw
  simp only [] at hbody
  have hpre' : '\n' ∉ pre := by
    intro hmem
    rcases hpre _ hmem with h1 | h1 | ⟨c, hc, h1⟩
    · exact absurd h1 (by decide)
    · exact absurd h1 (by decide)
    · exact hfront c hc h1
  have hpad' : '\n' ∉ pad := by
    intro hmem
    rcases hpad _ hmem with h1 | h1
    · exact absurd h1 (by decide)
    · exact absurd h1 (by decide)
  constructor
  · refine ⟨String.mk body, ?_, ?_⟩
    · apply String.ext
      simp [ht, String.data_append]
    · rw [hbody]
      simp [hpre', hpad', ha, hb]
  · refine ⟨String.mk pre, String.mk pad, ?_, hpad⟩
    apply String.ext
    simp [ht, hbody, String.data_append]

theorem headerCells_eq (allNamespaces : Bool) :
    headerCells allNamespaces =
      (if allNamespaces then [(⟨"NAMESPACE".data, true⟩ : tabwriter.cell)] else []) ++
        [⟨"NAME".data, true⟩, ⟨"AGE".data, false⟩] := by
  cases allNamespaces <;> rfl

theorem join_mk (texts : List (List Char)) :
    String.mk texts.flatten = String.join (texts.map String.mk) := by
  induction texts with
  | nil => rfl
  | cons t ts ih =>
      rw [List.map_cons, join_cons_eq, ← ih]
      apply String.ext
      simp [String.data_append]

theorem rows_of_rendered (ext : Extern) (p : Params) (allNamespaces : Bool) :
    ∀ (items : List TriggerBinding) (texts : List (List Char)),
      tidy ext p allNamespaces items →
      List.Forall₂ (fun tb text => tabwriter.Rendered (false, rowLine ext p allNamespaces tb) text)
        items texts →
      List.Forall₂ (fun tb row => oneLine row ∧
        carries row tb.Name (ext.Age tb.CreationTimestamp p.Time)) items (texts.map String.mk) := by
  intro items
  induction items with
  | nil =>
      intro texts _ h
      cases h
      exact List.Forall₂.nil
  | cons tb rest ih =>
      intro texts htidy h
      cases h with
      | cons hx hrest =>
          obtain ⟨hname, hage, hns⟩ := htidy tb (List.mem_cons_self _ _)
          refine List.Forall₂.cons ?_
            (ih _ (fun x hx => htidy x (List.mem_cons_of_mem _ hx)) hrest)
          apply line_of_rendered _ _ _ _ hx
          · intro c hc hmem
            cases allNamespaces with
            | false => simp at hc
            | true =>
                simp only [if_true] at hc
                rcases tabwriter.splitCells_mem _ [] c hc _ hmem with h1 | h1
                · simp at h1
                · rcases List.mem_append.mp h1 with h2 | h2
                  · exact (hns rfl).1 h2
                  · simp at h2
          · exact fun hmem => hname _ hmem (Or.inr (Or.inr (Or.inl rfl)))
          · exact fun hmem => hage _ hmem (Or.inr (Or.inr (Or.inl rfl)))

/-- The flushed table, for items whose name and age hold no tab and no line
break and whose shown namespace holds no line break, on an output stream whose
writes succeed: `nil` is returned and the text appended to the output stream is
one header line and one line per item. -/
theorem printFormatted_tidy (ext : Extern) (s : Stream) (tbs : TriggerBindingList)
    (p : Params) (allNamespaces : Bool) (hne : tbs.Items ≠ [])
    (htidy : tidy ext p allNamespaces tbs.Items) (hout : s.Out.reliable) :
    (printFormatted ext s tbs p allNamespaces).2 = none ∧
    (printFormatted ext s tbs p allNamespaces).1.Err = s.Err ∧
    ∃ text, (printFormatted ext s tbs p allNamespaces).1.Out.data = s.Out.data ++ text ∧
      tableOf ext p tbs.Items text := by
  have hlen0 : tbs.Items.length ≠ 0 := by
    intro h; exact hne (List.length_eq_zero.mp h)
  unfold printFormatted
  rw [if_neg hlen0, printTable_tidy ext s.Out tbs.Items p allNamespaces htidy]
  simp only []
  obtain ⟨h1, texts, h2, h3⟩ := tabwriter.Writer.Flush_rendered
    { output := s.Out, cfg := ⟨0, 5, 3, ' ', true⟩, cell := [],
      lines := headerCells allNamespaces :: tbs.Items.map (rowLine ext p allNamespaces) ++ [[]],
      widths := [],
      input := (headers allNamespaces ++ "\n") :: tbs.Items.map (rowText ext p allNamespaces) }
    (headerCells allNamespaces :: tbs.Items.map (rowLine ext p allNamespaces))
    rfl rfl hout rfl rfl
  refine ⟨h1, trivial, ?_⟩
  cases h3 with
  | cons hx hrest =>
      rename_i thead trows
      have hrest' := (List.forall₂_map_left_iff).mp hrest
      have hrows := rows_of_rendered ext p allNamespaces tbs.Items trows htidy hrest'
      rw [headerCells_eq] at hx
      obtain ⟨hh1, hh2⟩ := line_of_rendered _ "NAME" "AGE" thead hx
        (by
          intro c hc
          cases allNamespaces with
          | false => simp at hc
          | true =>
              simp only [if_true, List.mem_singleton] at hc
              subst hc
              decide)
        (by decide) (by decide)
      refine ⟨String.mk (thead :: trows).flatten, h2, String.mk thead,
        trows.map String.mk, ?_, hh1, hh2, hrows⟩
      rw [join_mk, List.map_cons, join_cons_eq]

theorem empty_append (a : String) : "" ++ a = a := by
  apply String.ext
  simp [String.data_append]

/-- What `printFormatted` hands to the tab-stop writer, for items whose name and
age hold no tab and no line break and whose shown namespace holds no line
break: one header line and one line per item. -/
theorem tableOf_input (ext : Extern) (p : Params) (allNamespaces : Bool)
    (items : List TriggerBinding) (htidy : tidy ext p allNamespaces items) :
    tableOf ext p items
      (String.join ((headers allNamespaces ++ "\n") :: items.map (rowText ext p allNamespaces))) := by
  refine ⟨headers allNamespaces ++ "\n", items.map (rowText ext p allNamespaces),
    join_cons_eq _ _, ?_, ?_, ?_⟩
  · cases allNamespaces
    · exact ⟨"NAME\tAGE", by decide, by decide⟩
    · exact ⟨"NAMESPACE\tNAME\tAGE", by decide, by decide⟩
  · cases allNamespaces
    · exact ⟨"", "\t", by decide, by decide⟩
    · exact ⟨"NAMESPACE\t", "\t", by decide, by decide⟩
  · rw [List.forall₂_map_right_iff]
    induction items with
    | nil => exact List.Forall₂.nil
    | cons tb rest ih =>
        obtain ⟨hname, hage, hns⟩ := htidy tb (List.mem_cons_self _ _)
        have hname1 : '\n' ∉ tb.Name.data := fun h => hname _ h (Or.inr (Or.inr (Or.inl rfl)))
        have hage1 : '\n' ∉ (ext.Age tb.CreationTimestamp p.Time).data :=
          fun h => hage _ h (Or.inr (Or.inr (Or.inl rfl)))
        refine List.Forall₂.cons ?_ (ih (fun x hx => htidy x (List.mem_cons_of_mem _ hx)))
        cases allNamespaces
        · constructor
          · refine ⟨tb.Name ++ "\t" ++ ext.Age tb.CreationTimestamp p.Time, rfl, ?_⟩
            simp [String.data_append, hname1, hage1]
          · refine ⟨"", "\t", ?_, by decide⟩
            rw [empty_append]
            rfl
        · have hns1 : '\n' ∉ tb.Namespace.data := (hns rfl).1
          constructor
          · refine ⟨tb.Namespace ++ "\t" ++ tb.Name ++ "\t" ++ ext.Age tb.CreationTimestamp p.Time,
              rfl, ?_⟩
            simp [String.data_append, hns1, hname1, hage1]
          · exact ⟨tb.Namespace ++ "\t", "\t", rfl, by decide⟩

theorem oneLine_newlines (line : String) (h : oneLine line) : line.data.count '\n' = 1 := by
  obtain ⟨body, rfl, hbody⟩ := h
  rw [String.data_append, List.count_append, List.count_eq_zero.mpr hbody]
  rfl

/-- A text of one header line and one line per item holds one newline more than
there are items. -/
theorem tableOf_newlines (ext : Extern) (p : Params) (items : List TriggerBinding)
    (text : String) (h : tableOf ext p items text) :
    text.data.count '\n' = items.length + 1 := by
  obtain ⟨head, rows, rfl, hhead, _, hrows⟩ := h
  rw [String.data_append, List.count_append, oneLine_newlines head hhead]
  have hjoin : (String.join rows).data.count '\n' = items.length := by
    induction hrows with
    | nil => rfl
    | cons hx _ ih =>
        rw [join_cons_eq, String.data_append, List.count_append, oneLine_newlines _ hx.1, ih,
          List.length_cons]
        omega
  rw [hjoin]
  omega

/-- A text of one header line and one line per item holds the name of every
item. -/
theorem tableOf_names (ext : Extern) (p : Params) (items : List TriggerBinding)
    (text : String) (h : tableOf ext p items text) :
    ∀ tb ∈ items, tb.Name.data <:+: text.data := by
  obtain ⟨head, rows, rfl, _, _, hrows⟩ := h
  have hjoin : ∀ tb ∈ items, tb.Name.data <:+: (String.join rows).data := by
    induction hrows with
    | nil => intro tb htb; simp at htb
    | cons hx hrest ih =>
        rename_i tb0 row0 items0 rows0
        intro tb htb
        rw [join_cons_eq, String.data_append]
        rcases List.mem_cons.mp htb with h1 | h1
        · subst h1
          obtain ⟨pre, pad, hrow, _⟩ := hx.2
          refine ⟨pre.data, pad.data ++ (ext.Age tb.CreationTimestamp p.Time).data ++ "\n".data ++
            (String.join rows0).data, ?_⟩
          rw [hrow]
          simp [String.data_append]
        · obtain ⟨u, v, huv⟩ := ih tb h1
          refine ⟨row0.data ++ u, v, ?_⟩
          rw [← huv]
          simp
  intro tb htb
  obtain ⟨u, v, huv⟩ := hjoin tb htb
  refine ⟨head.data ++ u, v, ?_⟩
  rw [String.data_append, ← huv]
  simp
/-- A text of one header line and one line per item holds the age of every
item. -/
theorem tableOf_ages (ext : Extern) (p : Params) (items : List TriggerBinding)
    (text : String) (h : tableOf ext p items text) :
    ∀ tb ∈ items, (ext.Age tb.CreationTimestamp p.Time).data <:+: text.data := by
  obtain ⟨head, rows, rfl, _, _, hrows⟩ := h
  have hjoin : ∀ tb ∈ items,
      (ext.Age tb.CreationTimestamp p.Time).data <:+: (String.join rows).data := by
    induction hrows with
    | nil => intro tb htb; simp at htb
    | cons hx hrest ih =>
        rename_i tb0 row0 items0 rows0
        intro tb htb
        rw [join_cons_eq, String.data_append]
        rcases List.mem_cons.mp htb with h1 | h1
        · subst h1
          obtain ⟨pre, pad, hrow, _⟩ := hx.2
          refine ⟨pre.data ++ tb.Name.data ++ pad.data, "\n".data ++ (String.join rows0).data, ?_⟩
          rw [hrow]
          simp [String.data_append]
        · obtain ⟨u, v, huv⟩ := ih tb h1
          refine ⟨row0.data ++ u, v, ?_⟩
          rw [← huv]
          simp
  intro tb htb
  obtain ⟨u, v, huv⟩ := hjoin tb htb
  refine ⟨head.data ++ u, v, ?_⟩
  rw [String.data_append, ← huv]
  simp

/-! ### C2: rows of the table -/

/-- C2 as stated fails whenever a field breaks its cell or line, a write fails
or the writer panics. A newline or a form feed in a name, in the age or in a
shown namespace gives the flushed output (for a newline also the text handed
over) a further line. A tab or a vertical tab in a name ends a cell, so the
flushed line holds blanks where the name has the tab and does not carry the
name; the same holds for the age. When a write on the output stream fails the flushed output ends early and
an error is returned. And with newlines in names and a failing write, a later
`Fprintf` ends in a run-time panic of the tab-stop writer, after which the row
of the third item is never handed over. -/
theorem printFormatted_rows_broken :
    (handedText exampleExtern Sink.fresh brokenItems false = "NAME\tAGE\nx\ny\t2h\n" ∧
      ¬ tableOf exampleExtern (exampleParams brokenItems) brokenItems
        (handedText exampleExtern Sink.fresh brokenItems false) ∧
      flushedText exampleExtern Sink.fresh brokenItems false = "NAME   AGE\nx\ny   2h\n" ∧
      ¬ tableOf exampleExtern (exampleParams brokenItems) brokenItems
        (flushedText exampleExtern Sink.fresh brokenItems false)) ∧
    (flushedText exampleExtern Sink.fresh [⟨"x\x0cy", "bar", 2800⟩] false =
        "NAME   AGE\nx\ny   2h\n" ∧
      ¬ tableOf exampleExtern (exampleParams [⟨"x\x0cy", "bar", 2800⟩]) [⟨"x\x0cy", "bar", 2800⟩]
        (flushedText exampleExtern Sink.fresh [⟨"x\x0cy", "bar", 2800⟩] false)) ∧
    (flushedText exampleExtern Sink.fresh [⟨"a\tb", "bar", 2800⟩] false =
        "NAME   AGE\na      b   2h\n" ∧
      ¬ tableOf exampleExtern (exampleParams [⟨"a\tb", "bar", 2800⟩]) [⟨"a\tb", "bar", 2800⟩]
        (flushedText exampleExtern Sink.fresh [⟨"a\tb", "bar", 2800⟩] false)) ∧
    (flushedText exampleExtern Sink.fresh [⟨"a\x0bb", "bar", 2800⟩] false =
        "NAME   AGE\na      b   2h\n" ∧
      ¬ tableOf exampleExtern (exampleParams [⟨"a\x0bb", "bar", 2800⟩]) [⟨"a\x0bb", "bar", 2800⟩]
        (flushedText exampleExtern Sink.fresh [⟨"a\x0bb", "bar", 2800⟩] false)) ∧
    (flushedText exampleExtern Sink.fresh [⟨"a", "n\nm", 2800⟩] true =
        "NAMESPACE   NAME   AGE\nn\nm   a   2h\n" ∧
      ¬ tableOf exampleExtern (exampleParams [⟨"a", "n\nm", 2800⟩]) [⟨"a", "n\nm", 2800⟩]
        (flushedText exampleExtern Sink.fresh [⟨"a", "n\nm", 2800⟩] true)) ∧
    (flushedText exampleExtern Sink.fresh [⟨"a", "n\x0cm", 2800⟩] true =
        "NAMESPACE   NAME   AGE\nn\nm   a   2h\n" ∧
      ¬ tableOf exampleExtern (exampleParams [⟨"a", "n\x0cm", 2800⟩]) [⟨"a", "n\x0cm", 2800⟩]
        (flushedText exampleExtern Sink.fresh [⟨"a", "n\x0cm", 2800⟩] true)) ∧
    (flushedText (ageExtern "2\nh") Sink.fresh [⟨"a", "bar", 2800⟩] false =
        "NAME   AGE\na      2\nh\n" ∧
      ¬ tableOf (ageExtern "2\nh") (exampleParams [⟨"a", "bar", 2800⟩]) [⟨"a", "bar", 2800⟩]
        (flushedText (ageExtern "2\nh") Sink.fresh [⟨"a", "bar", 2800⟩] false)) ∧
    (flushedText (ageExtern "2\th") Sink.fresh [⟨"a", "bar", 2800⟩] false =
        "NAME   AGE\na      2   h\n" ∧
      ¬ tableOf (ageExtern "2\th") (exampleParams [⟨"a", "bar", 2800⟩]) [⟨"a", "bar", 2800⟩]
        (flushedText (ageExtern "2\th") Sink.fresh [⟨"a", "bar", 2800⟩] false)) ∧
    ((printFormatted exampleExtern ⟨failingTable.OutOrStdout, Sink.fresh⟩
          ⟨"TriggerBindingList", "triggers.tekton.dev/v1alpha1", exampleItems⟩
          (exampleParams exampleItems) false).2 = some (tabwriter.Fail.error "broken pipe") ∧
      flushedText exampleExtern failingTable.OutOrStdout exampleItems false = "NAME   " ∧
      ¬ tableOf exampleExtern (exampleParams exampleItems) exampleItems
        (flushedText exampleExtern failingTable.OutOrStdout exampleItems false)) ∧
    ((printFormatted exampleExtern ⟨flakySink, Sink.fresh⟩
          ⟨"TriggerBindingList", "triggers.tekton.dev/v1alpha1", unrulyItems⟩
          (exampleParams unrulyItems) false).2 = some tabwriter.Fail.crash ∧
      (printTable exampleExtern flakySink unrulyItems (exampleParams unrulyItems) false).1.input =
        ["NAME\tAGE\n", "x\ny\t2h\n", "averyveryverylongname\nz\t2h\n"] ∧
      unrulyItems.length = 3 ∧
      ¬ tableOf exampleExtern (exampleParams unrulyItems) unrulyItems
        (handedText exampleExtern flakySink unrulyItems false)) := by
  refine ⟨⟨rfl, ?_, rfl, ?_⟩, ⟨rfl, ?_⟩, ⟨rfl, ?_⟩, ⟨rfl, ?_⟩, ⟨rfl, ?_⟩, ⟨rfl, ?_⟩, ⟨rfl, ?_⟩,
    ⟨rfl, ?_⟩, ⟨rfl, rfl, ?_⟩, ⟨rfl, rfl, rfl, ?_⟩⟩
  · exact fun h => absurd (tableOf_newlines _ _ _ _ h) (by decide)
  · exact fun h => absurd (tableOf_newlines _ _ _ _ h) (by decide)
  · exact fun h => absurd (tableOf_newlines _ _ _ _ h) (by decide)
  · exact fun h => absurd (tableOf_names _ _ _ _ h _ (List.mem_singleton_self _)) (by decide)
  · exact fun h => absurd (tableOf_names _ _ _ _ h _ (List.mem_singleton_self _)) (by decide)
  · exact fun h => absurd (tableOf_newlines _ _ _ _ h) (by decide)
  · exact fun h => absurd (tableOf_newlines _ _ _ _ h) (by decide)
  · exact fun h => absurd (tableOf_newlines _ _ _ _ h) (by decide)
  · exact fun h => absurd (tableOf_ages _ _ _ _ h _ (List.mem_singleton_self _)) (by decide)
  · exact fun h => absurd (tableOf_newlines _ _ _ _ h) (by decide)
  · exact fun h => absurd (tableOf_newlines _ _ _ _ h) (by decide)

/-- C2, amended. For a non-empty list of items whose name and age hold no tab,
vertical tab, newline or form feed and whose namespace, when it is shown, holds
no newline and no form feed, and for either value of `allNamespaces`: no write
to the tab-stop writer panics, the texts `printFormatted` hands to it are the
header and then the row of each item in the order of the list, and together
they consist of exactly one header line followed by exactly one data line per
item, the line of the i-th item carrying its name and its age. When the writes
on the output stream succeed, `printFormatted` returns `nil` and the text it
appends to the output stream consists likewise of exactly one header line
followed by exactly one data line per item, the i-th carrying the name and the
age of the i-th item; it holds one newline more than there are items. -/
theorem printFormatted_rows (ext : Extern) (s : Stream) (tbs : TriggerBindingList)
    (p : Params) (allNamespaces : Bool) (hne : tbs.Items ≠ [])
    (htidy : tidy ext p allNamespaces tbs.Items) :
    (printTable ext s.Out tbs.Items p allNamespaces).2 = none ∧
    (printTable ext s.Out tbs.Items p allNamespaces).1.input =
      (headers allNamespaces ++ "\n") :: tbs.Items.map (rowText ext p allNamespaces) ∧
    tableOf ext p tbs.Items
      (String.join (printTable ext s.Out tbs.Items p allNamespaces).1.input) ∧
    (s.Out.reliable →
      (printFormatted ext s tbs p allNamespaces).2 = none ∧
      ∃ text, (printFormatted ext s tbs p allNamespaces).1.Out.data = s.Out.data ++ text ∧
        tableOf ext p tbs.Items text ∧ text.data.count '\n' = tbs.Items.length + 1) := by
  have htable := printTable_tidy ext s.Out tbs.Items p allNamespaces htidy
  refine ⟨by rw [htable], by rw [htable], ?_, ?_⟩
  · rw [htable]
    exact tableOf_input ext p allNamespaces tbs.Items htidy
  · intro hout
    obtain ⟨h1, _, text, h2, h3⟩ := printFormatted_tidy ext s tbs p allNamespaces hne htidy hout
    exact ⟨h1, text, h2, h3, tableOf_newlines ext p tbs.Items text h3⟩

/-- C2, amended, on the worked example, and on an item whose namespace holds a
tab while the namespace is shown: the texts handed over and the flushed output
are one header line and one line per item. -/
theorem printFormatted_rows_witness :
    ((printTable exampleExtern Sink.fresh exampleItems (exampleParams exampleItems) false).1.input =
        ["NAME\tAGE\n", "binding-a\t2h\n", "binding-b\t10m\n"] ∧
      tableOf exampleExtern (exampleParams exampleItems) exampleItems
        "NAME\tAGE\nbinding-a\t2h\nbinding-b\t10m\n" ∧
      (printFormatted exampleExtern ⟨Sink.fresh, Sink.fresh⟩
        ⟨"TriggerBindingList", "triggers.tekton.dev/v1alpha1", exampleItems⟩
        (exampleParams exampleItems) false).2 = none ∧
      flushedText exampleExtern Sink.fresh exampleItems false =
        "NAME        AGE\nbinding-a   2h\nbinding-b   10m\n" ∧
      tableOf exampleExtern (exampleParams exampleItems) exampleItems
        "NAME        AGE\nbinding-a   2h\nbinding-b   10m\n") ∧
    (flushedText exampleExtern Sink.fresh [⟨"a", "n\tm", 2800⟩] true =
        "NAMESPACE   NAME   AGE\nn           m      a   2h\n" ∧
      tableOf exampleExtern (exampleParams [⟨"a", "n\tm", 2800⟩]) [⟨"a", "n\tm", 2800⟩]
        "NAMESPACE   NAME   AGE\nn           m      a   2h\n") := by
  have h := printFormatted_rows exampleExtern ⟨Sink.fresh, Sink.fresh⟩
    ⟨"TriggerBindingList", "triggers.tekton.dev/v1alpha1", exampleItems⟩
    (exampleParams exampleItems) false (by decide) (by decide)
  have h' := printFormatted_rows exampleExtern ⟨Sink.fresh, Sink.fresh⟩
    ⟨"TriggerBindingList", "triggers.tekton.dev/v1alpha1", [⟨"a", "n\tm", 2800⟩]⟩
    (exampleParams [⟨"a", "n\tm", 2800⟩]) true (by decide) (by decide)
  obtain ⟨_, hin, hhanded, hflush⟩ := h
  obtain ⟨hnone, text, hdata, htext, _⟩ := hflush (by decide)
  obtain ⟨_, text', hdata', htext', _⟩ := h'.2.2.2 (by decide)
  have hlit : (printFormatted exampleExtern ⟨Sink.fresh, Sink.fresh⟩
      ⟨"TriggerBindingList", "triggers.tekton.dev/v1alpha1", exampleItems⟩
      (exampleParams exampleItems) false).1.Out.data =
      "NAME        AGE\nbinding-a   2h\nbinding-b   10m\n" := rfl
  have hlit' : (printFormatted exampleExtern ⟨Sink.fresh, Sink.fresh⟩
      ⟨"TriggerBindingList", "triggers.tekton.dev/v1alpha1", [⟨"a", "n\tm", 2800⟩]⟩
      (exampleParams [⟨"a", "n\tm", 2800⟩]) true).1.Out.data =
      "NAMESPACE   NAME   AGE\nn           m      a   2h\n" := rfl
  have hfresh : ∀ t : String, Sink.fresh.data ++ t = t := empty_append
  rw [hlit, hfresh] at hdata
  rw [hlit', hfresh] at hdata'
  subst hdata
  subst hdata'
  have hjoin : String.join (printTable exampleExtern Sink.fresh exampleItems
      (exampleParams exampleItems) false).1.input =
      "NAME\tAGE\nbinding-a\t2h\nbinding-b\t10m\n" := by decide
  rw [hjoin] at hhanded
  exact ⟨⟨hin.trans (by decide), hhanded, hnone, rfl, htext⟩, rfl, htext'⟩

end Triggerbinding
